import Mathlib

/-!
# Billiard table simulation (`game.cpp`)

A shallow embedding of the per-frame physics of `game.cpp`: pocket capture,
integration, braking, wall reflection, ball-ball collision, shot charging and
shot release.

The program is embedded twice.

The exact embedding (namespace `Billiard`).  The C++ `float` values are
idealised as elements of a linearly ordered field `F` with exact arithmetic
(no rounding).  Two library functions of `<cmath>` are taken as parameters,
`sqrt : F → F` and `pow : F → F → F` (the latter is only used for the fractional
exponent of the braking rule; `pow(e, 2)` is the exact square `e ^ 2`).
Theorems that depend on what `sqrt` and `pow` compute are stated for `F = ℝ`
with `Real.sqrt` and `Real.rpow`; all others hold for every choice.  Where IEEE
arithmetic leaves the real numbers (division by zero, square root or
fractional power of a negative number, giving an infinity or a NaN) this
embedding returns `none`: the operations are partial and the state
transformers are `Option`-valued.  The two `float` literals of the distance
tests are the binary32 numbers they denote: `0.55f = 9227469 / 2^24` and
`0.599f = 628097 / 2^20`.

The embedding over machine numbers (namespace `Billiard.Machine`).  The same
statements over an arbitrary type of machine numbers with arbitrary
operations.  It is total: the program never stops at a division by zero or an
overflow, it stores an infinity or a NaN and goes on.  Two concrete
arithmetics are given: `ieee`, the reals with the infinities and NaN (no
rounding, overflow of a quotient as in binary32), and `binary32`, which rounds
every result to binary32.  The properties of pocket capture, of a ball that
takes part in no collision, of a table at rest, of one collision exchange, of
the charge state and of the release are proved for the embedding over machine
numbers.

Calls into `Scene` and `Engine` (mesh placement, progress bar) have no effect
on the simulated state and are omitted.
-/

set_option linter.unusedSectionVars false

namespace Billiard

/-- Basic Vector2 class. -/
structure Vector2 (F : Type) where
  x : F
  y : F

/-- The simulated part of `class Table`: `ballData[7][6]` with columns
0 - position X, 1 - position Y, 2 - tan of angle, 3 - velocity of X,
4 - velocity of Y, 5 - existing on table; and `pocketData[6]`. -/
structure Table (F : Type) where
  ballData : Fin 7 → Fin 6 → F
  pocketData : Fin 6 → Vector2 F

/-- The globals of `namespace Game`. -/
structure Game (F : Type) where
  table : Table F
  isChargingShot : Bool
  shotChargeProgress : F

section Model

variable {F : Type} [LinearOrderedField F]

/-- The assignment `table.ballData[i][k] = v`. -/
def Table.set (t : Table F) (i : Fin 7) (k : Fin 6) (v : F) : Table F :=
  { t with ballData := Function.update t.ballData i (Function.update (t.ballData i) k v) }

/-- Division `a / b`, undefined for a zero divisor. -/
def fdiv (a b : F) : Option F :=
  if b = 0 then none else some (a / b)

/-- The call `sqrt(a)`, undefined for a negative argument. -/
def fsqrt (sqrt : F → F) (a : F) : Option F :=
  if a < 0 then none else some (sqrt a)

/-- The call `pow(a, e)` with a fractional exponent `e`, undefined for a
negative base. -/
def fpow (pow : F → F → F) (a e : F) : Option F :=
  if a < 0 then none else some (pow a e)

namespace Params

namespace Table

def width : F := 15
def height : F := 8

def pocketsPositions : Fin 6 → Vector2 F :=
  ![⟨-0.5 * width, -0.5 * height⟩,
    ⟨0, -0.5 * height⟩,
    ⟨0.5 * width, -0.5 * height⟩,
    ⟨-0.5 * width, 0.5 * height⟩,
    ⟨0, 0.5 * height⟩,
    ⟨0.5 * width, 0.5 * height⟩]

def ballsPositions : Fin 7 → Vector2 F :=
  ![⟨-0.3 * width, 0⟩,
    ⟨0.2 * width, 0⟩,
    ⟨0.25 * width, 0.05 * height⟩,
    ⟨0.25 * width, -0.05 * height⟩,
    ⟨0.3 * width, 0.1 * height⟩,
    ⟨0.3 * width, 0⟩,
    ⟨0.3 * width, -0.1 * height⟩]

end Table

namespace Shot

def chargeTime : F := 1

end Shot

end Params

/-- The data written by `Table::init`. -/
def Table.init : Table F where
  ballData := fun i => ![(Params.Table.ballsPositions i).x, (Params.Table.ballsPositions i).y, 0, 0, 0, 1]
  pocketData := fun i => ⟨(Params.Table.pocketsPositions i).x, (Params.Table.pocketsPositions i).y⟩

/-- The pocket test of `Game::update` for ball `i` and pocket `j`; the bound is
`pow(0.55f, 2)`, and the literal `0.55f` is the binary32 number
`9227469 / 2 ^ 24`. -/
def hitsPocket (t : Table F) (i : Fin 7) (j : Fin 6) : Prop :=
  (t.ballData i 0 - (t.pocketData j).x) ^ 2 + (t.ballData i 1 - (t.pocketData j).y) ^ 2
    ≤ (9227469 / 16777216 : F) ^ 2

instance (t : Table F) (i : Fin 7) (j : Fin 6) : Decidable (hitsPocket t i j) := by
  unfold hitsPocket; infer_instance

/-- Removing a ball from the table: the body of the pocket test. -/
def removeBall (t : Table F) (i : Fin 7) : Table F :=
  let t := t.set i 0 (-10)
  let t := t.set i 1 (-10)
  let t := t.set i 2 0
  let t := t.set i 3 0
  let t := t.set i 5 (-1)
  t

/-- The loop over the pockets, left by `break` at the first pocket hit. -/
def pocketLoop (t : Table F) (i : Fin 7) : List (Fin 6) → Table F
  | [] => t
  | j :: js => if hitsPocket t i j then removeBall t i else pocketLoop t i js

/-- Changing the position of the ball. -/
def changePosition (t : Table F) (i : Fin 7) : Table F :=
  let t := t.set i 0 (t.ballData i 0 + t.ballData i 3)
  let t := t.set i 1 (t.ballData i 1 + t.ballData i 4)
  t

/-- Ball braking. -/
def braking (pow : F → F → F) (t : Table F) (i : Fin 7) : Option (Table F) := do
  let velocity ← fpow pow (t.ballData i 3 ^ 2 + t.ballData i 4 ^ 2) 0.002
  let t := t.set i 3 (t.ballData i 3 * velocity * 0.997)
  let t := t.set i 4 (t.ballData i 4 * velocity * 0.997)
  pure t

/-- The condition of the first wall test (walls at constant X). -/
def wallX (t : Table F) (i : Fin 7) : Prop :=
  (|t.ballData i 0 - 8.2| < 1 ∧ t.ballData i 3 > 0) ∨
    (|t.ballData i 0 + 8.2| < 1 ∧ t.ballData i 3 < 0)

/-- The condition of the second wall test (walls at constant Y). -/
def wallY (t : Table F) (i : Fin 7) : Prop :=
  (|t.ballData i 1 - 4.7| < 1 ∧ t.ballData i 4 > 0) ∨
    (|t.ballData i 1 + 4.7| < 1 ∧ t.ballData i 4 < 0)

instance (t : Table F) (i : Fin 7) : Decidable (wallX t i) := by
  unfold wallX; infer_instance

instance (t : Table F) (i : Fin 7) : Decidable (wallY t i) := by
  unfold wallY; infer_instance

/-- Touching the wall. -/
def touchingWall (t : Table F) (i : Fin 7) : Table F :=
  let t :=
    if wallX t i then
      let t := t.set i 3 (t.ballData i 3 * (-0.5))
      let t := t.set i 2 (t.ballData i 2 * (-1))
      t
    else t
  let t :=
    if wallY t i then
      let t := t.set i 2 (t.ballData i 2 * (-1))
      let t := t.set i 4 (t.ballData i 4 * (-0.5))
      t
    else t
  t

/-- The distance test of the ball-ball collision; the bound is
`pow(0.599f, 2)`, and the literal `0.599f` is the binary32 number
`628097 / 2 ^ 20`. -/
def ballsTouch (t : Table F) (i j : Fin 7) : Prop :=
  (t.ballData i 0 - t.ballData j 0) ^ 2 + (t.ballData i 1 - t.ballData j 1) ^ 2
    ≤ (628097 / 1048576 : F) ^ 2

instance (t : Table F) (i j : Fin 7) : Decidable (ballsTouch t i j) := by
  unfold ballsTouch; infer_instance

/-- The first two statements of the collision body: the contact slope
`(y_i - y_j) / (x_i - x_j)` is stored in both balls. -/
def contactSlope (t : Table F) (i j : Fin 7) : Option (Table F) := do
  let s ← fdiv (t.ballData i 1 - t.ballData j 1) (t.ballData i 0 - t.ballData j 0)
  let t := t.set j 2 s
  let t := t.set i 2 (t.ballData j 2)
  pure t

/-- The next three statements of the collision body: the velocity of ball `j`. -/
def pushPartner (sqrt : F → F) (t : Table F) (i j : Fin 7) : Option (Table F) := do
  let velocity ← fsqrt sqrt (t.ballData i 3 ^ 2 + t.ballData i 4 ^ 2)
  let r ← fsqrt sqrt (1 + t.ballData j 2 ^ 2)
  let q ← fdiv velocity r
  let t := t.set j 3
    (t.ballData j 3 - q * (if t.ballData i 0 - t.ballData j 0 > 0 then 1 else -1))
  let r ← fsqrt sqrt (1 + t.ballData j 2 ^ 2)
  let q ← fdiv velocity r
  let t := t.set j 4
    (t.ballData j 4 - q * t.ballData j 2 *
      (if t.ballData i 0 - t.ballData j 0 > 0 then 1 else -1))
  pure t

/-- The next three statements of the collision body: the velocity of ball `i`. -/
def pushSelf (sqrt : F → F) (t : Table F) (i j : Fin 7) : Option (Table F) := do
  let velocity ← fsqrt sqrt (t.ballData i 3 ^ 2 + t.ballData i 4 ^ 2)
  let r ← fsqrt sqrt (1 + t.ballData i 2 ^ 2)
  let q ← fdiv velocity r
  let t := t.set i 3
    (t.ballData i 3 - q * (if t.ballData j 0 - t.ballData i 0 < 0 then -1 else 1))
  let r ← fsqrt sqrt (1 + t.ballData i 2 ^ 2)
  let q ← fdiv velocity r
  let t := t.set i 4
    (t.ballData i 4 - q * t.ballData j 2 *
      (if t.ballData j 0 - t.ballData i 0 < 0 then -1 else 1))
  pure t

/-- The last four statements of the collision body: both velocities are
multiplied by 0.8. -/
def retain (t : Table F) (i j : Fin 7) : Table F :=
  let t := t.set i 3 (t.ballData i 3 * 0.8)
  let t := t.set j 3 (t.ballData j 3 * 0.8)
  let t := t.set i 4 (t.ballData i 4 * 0.8)
  let t := t.set j 4 (t.ballData j 4 * 0.8)
  t

/-- The body of the collision test: the velocity exchange between ball `i`
(the ball of the current pass) and ball `j`. -/
def exchange (sqrt : F → F) (t : Table F) (i j : Fin 7) : Option (Table F) := do
  let t ← contactSlope t i j
  let t ← pushPartner sqrt t i j
  let t ← pushSelf sqrt t i j
  pure (retain t i j)

/-- Touching the ball: the loop over the partners `j` of ball `i`. -/
def touchingBall (sqrt : F → F) (i : Fin 7) : List (Fin 7) → Table F → Option (Table F)
  | [], t => some t
  | j :: js, t =>
    if i = j ∨ t.ballData j 5 < 0 then touchingBall sqrt i js t
    else if ballsTouch t i j then
      (exchange sqrt t i j).bind (touchingBall sqrt i js)
    else touchingBall sqrt i js t

/-- The body of the loop over the balls in `Game::update`: the pass of ball `i`. -/
def ballPass (sqrt : F → F) (pow : F → F → F) (i : Fin 7) (t : Table F) : Option (Table F) :=
  if t.ballData i 5 < 0 then some t
  else
    let t := pocketLoop t i (List.finRange 6)
    if t.ballData i 5 < 0 then some t
    else
      let t := changePosition t i
      (braking pow t i).bind fun t =>
        let t := touchingWall t i
        touchingBall sqrt i (List.finRange 7) t

/-- The loop over the balls in `Game::update`. -/
def ballLoop (sqrt : F → F) (pow : F → F → F) : List (Fin 7) → Table F → Option (Table F)
  | [], t => some t
  | i :: is, t => (ballPass sqrt pow i t).bind (ballLoop sqrt pow is)

namespace Game

/-- The initial values of the globals together with `Game::init`. -/
def init : Game F where
  table := Table.init
  isChargingShot := false
  shotChargeProgress := 0

/-- The charge tick at the head of `Game::update`. -/
def chargeTick (dt : F) (g : Game F) : F :=
  if g.isChargingShot then min (g.shotChargeProgress + dt / Params.Shot.chargeTime) 1
  else g.shotChargeProgress

/-- The function `Game::update`. -/
def update (sqrt : F → F) (pow : F → F → F) (dt : F) (g : Game F) : Option (Game F) :=
  let shotChargeProgress := chargeTick dt g
  (ballLoop sqrt pow (List.finRange 7) g.table).bind fun t =>
    some { table := t, isChargingShot := g.isChargingShot, shotChargeProgress := shotChargeProgress }

/-- The function `Game::mouseButtonPressed`. -/
def mouseButtonPressed (_x _y : F) (g : Game F) : Game F :=
  { g with isChargingShot := true }

end Game

/-! ## Vocabulary for the statements about a single ball -/

/-- The X velocity of ball `i` after braking, in terms of the table before the pass. -/
def dampedVx (pow : F → F → F) (t : Table F) (i : Fin 7) : F :=
  t.ballData i 3 * pow (t.ballData i 3 ^ 2 + t.ballData i 4 ^ 2) 0.002 * 0.997

/-- The Y velocity of ball `i` after braking, in terms of the table before the pass. -/
def dampedVy (pow : F → F → F) (t : Table F) (i : Fin 7) : F :=
  t.ballData i 4 * pow (t.ballData i 3 ^ 2 + t.ballData i 4 ^ 2) 0.002 * 0.997

/-- The first wall test as it is evaluated in the pass of ball `i`: on the
integrated X coordinate and the braked X velocity. -/
def xWallTrigger (pow : F → F → F) (t : Table F) (i : Fin 7) : Prop :=
  (|t.ballData i 0 + t.ballData i 3 - 8.2| < 1 ∧ dampedVx pow t i > 0) ∨
    (|t.ballData i 0 + t.ballData i 3 + 8.2| < 1 ∧ dampedVx pow t i < 0)

/-- The second wall test as it is evaluated in the pass of ball `i`: on the
integrated Y coordinate and the braked Y velocity. -/
def yWallTrigger (pow : F → F → F) (t : Table F) (i : Fin 7) : Prop :=
  (|t.ballData i 1 + t.ballData i 4 - 4.7| < 1 ∧ dampedVy pow t i > 0) ∨
    (|t.ballData i 1 + t.ballData i 4 + 4.7| < 1 ∧ dampedVy pow t i < 0)

instance (pow : F → F → F) (t : Table F) (i : Fin 7) : Decidable (xWallTrigger pow t i) := by
  unfold xWallTrigger; infer_instance

instance (pow : F → F → F) (t : Table F) (i : Fin 7) : Decidable (yWallTrigger pow t i) := by
  unfold yWallTrigger; infer_instance

/-- The wall test of the update for a coordinate `x`, the velocity component
`v` along it, and the walls at `w` and `-w`. -/
def wallTest (x v w : F) : Prop :=
  (|x - w| < 1 ∧ v > 0) ∨ (|x + w| < 1 ∧ v < 0)

instance (x v w : F) : Decidable (wallTest x v w) := by
  unfold wallTest; infer_instance

/-- The distance test of the collision for a ball at `(x1, y1)` and a ball
at `(x2, y2)`, with the bound `pow(0.599f, 2)`. -/
def inContact (x1 y1 x2 y2 : F) : Prop :=
  (x1 - x2) ^ 2 + (y1 - y2) ^ 2 ≤ (628097 / 1048576 : F) ^ 2

instance (x1 y1 x2 y2 : F) : Decidable (inContact x1 y1 x2 y2) := by
  unfold inContact; infer_instance

/-- A sequence of calls of `Game::update`, one for each frame time of the list. -/
def Game.updates (sqrt : F → F) (pow : F → F → F) : List F → Game F → Option (Game F)
  | [], g => some g
  | dt :: dts, g => (Game.update sqrt pow dt g).bind (Game.updates sqrt pow dts)

/-! ## Concrete tables -/

/-- The initial table with the cue ball placed at `(x, y)` with slope `s` and
velocity `(vx, vy)`. -/
def cueAt (x y s vx vy : F) : Game F where
  table := ((((Table.init.set 0 0 x).set 0 1 y).set 0 2 s).set 0 3 vx).set 0 4 vy
  isChargingShot := false
  shotChargeProgress := 0

/-- The table `cueAt x y s vx vy` after the pocket branch of the update has
run for the cue ball. -/
def cueRemoved (x y s vx vy : F) : Game F where
  table := ((((((((((Table.init.set 0 0 x).set 0 1 y).set 0 2 s).set 0 3 vx).set 0 4 vy).set 0 0
    (-10)).set 0 1 (-10)).set 0 2 0).set 0 3 0).set 0 5 (-1))
  isChargingShot := false
  shotChargeProgress := 0

/-- A table with two balls left: ball 0 at `(0, 0)` moving with velocity
`(0.25, 0)` towards ball 1, which rests at `(628097 / 2^20, 0)`, at the
distance of the binary32 number `0.599f`; the other balls are pocketed. -/
def twoBalls : Game F where
  table :=
    { ballData := fun i =>
        if i = 0 then ![0, 0, 0, 0.25, 0, 1]
        else if i = 1 then ![(628097 / 1048576), 0, 0, 0, 0, 1]
        else ![-10, -10, 0, 0, 0, -1]
      pocketData := Table.init.pocketData }
  isChargingShot := false
  shotChargeProgress := 0


/-- A table with the cue ball alone: ball 0 is alive at `(x, y)` with slope `s`
and velocity `(vx, vy)`; the six object balls are pocketed. -/
def cueAlone (x y s vx vy : F) : Game F where
  table :=
    { ballData := fun i =>
        if i = 0 then ![x, y, s, vx, vy, 1]
        else ![-10, -10, 0, 0, 0, -1]
      pocketData := Table.init.pocketData }
  isChargingShot := false
  shotChargeProgress := 0

/-- A table with two balls left: ball 0 at `(0, 0)` moving with velocity
`(0.25, 0)`, and ball 1 resting at `(570777 / 2^20, 0.25)`, both binary32
numbers; the squared distance of the centres lies between `pow(0.599f, 2)` and
`0.599 ^ 2`.  The other balls are pocketed. -/
def nearMiss : Game F where
  table :=
    { ballData := fun i =>
        if i = 0 then ![0, 0, 0, 0.25, 0, 1]
        else if i = 1 then ![(570777 / 1048576), 0.25, 0, 0, 0, 1]
        else ![-10, -10, 0, 0, 0, -1]
      pocketData := Table.init.pocketData }
  isChargingShot := false
  shotChargeProgress := 0

/-- A table with two balls left: ball 0 at `(0, 0)` moving with velocity
`(1 / 10^8, 0)` towards ball 1, which rests at `(0.599, 0)`, exactly `0.599`
away; the other balls are pocketed. -/
def slowPair : Game F where
  table :=
    { ballData := fun i =>
        if i = 0 then ![0, 0, 0, 1 / 10 ^ 8, 0, 1]
        else if i = 1 then ![0.599, 0, 0, 0, 0, 1]
        else ![-10, -10, 0, 0, 0, -1]
      pocketData := Table.init.pocketData }
  isChargingShot := false
  shotChargeProgress := 0

/-- The state `g` while a shot is charged, with charge progress `p`. -/
def charging (p : F) (g : Game F) : Game F :=
  { g with isChargingShot := true, shotChargeProgress := p }

/-! ## Vocabulary for the statements about a collision -/

/-- The speed of ball `i`, as the collision computes it:
`sqrt(pow(vx, 2) + pow(vy, 2))`. -/
def speed (sqrt : F → F) (t : Table F) (i : Fin 7) : F :=
  sqrt (t.ballData i 3 ^ 2 + t.ballData i 4 ^ 2)

/-- The X component of the unit vector from the centre of ball `i` to the
centre of ball `j`. -/
def towardsX (sqrt : F → F) (t : Table F) (i j : Fin 7) : F :=
  (t.ballData j 0 - t.ballData i 0)
    / sqrt ((t.ballData j 0 - t.ballData i 0) ^ 2 + (t.ballData j 1 - t.ballData i 1) ^ 2)

/-- The Y component of the unit vector from the centre of ball `i` to the
centre of ball `j`. -/
def towardsY (sqrt : F → F) (t : Table F) (i j : Fin 7) : F :=
  (t.ballData j 1 - t.ballData i 1)
    / sqrt ((t.ballData j 0 - t.ballData i 0) ^ 2 + (t.ballData j 1 - t.ballData i 1) ^ 2)

/-! ## Renumbering of the balls -/

/-- The table with the rows of the balls `a` and `b` exchanged. -/
def Table.swapBalls (a b : Fin 7) (t : Table F) : Table F :=
  { t with ballData := fun i => t.ballData (if i = a then b else if i = b then a else i) }

/-- The state with the rows of the balls `a` and `b` exchanged. -/
def Game.swapBalls (a b : Fin 7) (g : Game F) : Game F :=
  { g with table := g.table.swapBalls a b }

/-! ## The program over machine numbers

The definitions above compute with exact real numbers and are undefined where
the arithmetic of the program leaves the reals.  The program itself never
stops there: a division by zero or an overflow stores an infinity or a NaN and
the statements that follow are executed as usual.  The definitions of this
part follow the same statements over an arbitrary type `V` of machine numbers
with arbitrary operations, so they are total, and what is proved about them
without further assumptions holds whatever the arithmetic returns.  Assumptions
on the arithmetic (`Machine.Exact`) are stated where a result depends on them.
-/

namespace Machine

variable {V : Type}

/-- The arithmetic of the machine: the number `ofReal r` denoted by a literal
or constant `r`, the operations `+ - * /`, `pow(x, 2)` (`sq`), `pow(x, e)`,
`sqrt`, `fabs`, and the comparisons `<` and `<=`. -/
structure Arith (F V : Type) where
  ofReal : F → V
  add : V → V → V
  sub : V → V → V
  mul : V → V → V
  div : V → V → V
  sq : V → V
  pow : V → V → V
  sqrt : V → V
  fabs : V → V
  lt : V → V → Bool
  le : V → V → Bool

/-- The least magnitude that rounds to an infinity in binary32:
`FLT_MAX` plus half a unit in its last place. -/
def overflow : F := 2 ^ 128 - 2 ^ 103

/-- The pocket test of `Game::update` for ball `i` and pocket `j`; the bound
is `pow(0.55f, 2)`, and the literal `0.55f` is the binary32 number
`9227469 / 2 ^ 24`. -/
def hitsPocket (A : Arith F V) (t : Table V) (i : Fin 7) (j : Fin 6) : Bool :=
  A.le (A.add (A.sq (A.sub (t.ballData i 0) (t.pocketData j).x))
      (A.sq (A.sub (t.ballData i 1) (t.pocketData j).y)))
    (A.sq (A.ofReal (9227469 / 16777216)))

/-- Removing a ball from the table: the body of the pocket test. -/
def removeBall (A : Arith F V) (t : Table V) (i : Fin 7) : Table V :=
  let t := t.set i 0 (A.ofReal (-10))
  let t := t.set i 1 (A.ofReal (-10))
  let t := t.set i 2 (A.ofReal 0)
  let t := t.set i 3 (A.ofReal 0)
  let t := t.set i 5 (A.ofReal (-1))
  t

/-- The loop over the pockets, left by `break` at the first pocket hit. -/
def pocketLoop (A : Arith F V) (t : Table V) (i : Fin 7) : List (Fin 6) → Table V
  | [] => t
  | j :: js => if hitsPocket A t i j then removeBall A t i else pocketLoop A t i js

/-- The guard `table.ballData[i][5] < 0`. -/
def pocketed (A : Arith F V) (t : Table V) (i : Fin 7) : Bool :=
  A.lt (t.ballData i 5) (A.ofReal 0)

/-- Changing the position of the ball. -/
def changePosition (A : Arith F V) (t : Table V) (i : Fin 7) : Table V :=
  let t := t.set i 0 (A.add (t.ballData i 0) (t.ballData i 3))
  let t := t.set i 1 (A.add (t.ballData i 1) (t.ballData i 4))
  t

/-- Ball braking. -/
def braking (A : Arith F V) (t : Table V) (i : Fin 7) : Table V :=
  let velocity := A.pow (A.add (A.sq (t.ballData i 3)) (A.sq (t.ballData i 4))) (A.ofReal 0.002)
  let t := t.set i 3 (A.mul (A.mul (t.ballData i 3) velocity) (A.ofReal 0.997))
  let t := t.set i 4 (A.mul (A.mul (t.ballData i 4) velocity) (A.ofReal 0.997))
  t

/-- The wall test for a coordinate `x`, the velocity component `v` along it
and the walls at `w` and `-w`. -/
def wallTest (A : Arith F V) (x v w : V) : Bool :=
  (A.lt (A.fabs (A.sub x w)) (A.ofReal 1) && A.lt (A.ofReal 0) v) ||
    (A.lt (A.fabs (A.add x w)) (A.ofReal 1) && A.lt v (A.ofReal 0))

/-- Touching the wall. -/
def touchingWall (A : Arith F V) (t : Table V) (i : Fin 7) : Table V :=
  let t :=
    if wallTest A (t.ballData i 0) (t.ballData i 3) (A.ofReal 8.2) then
      let t := t.set i 3 (A.mul (t.ballData i 3) (A.ofReal (-0.5)))
      let t := t.set i 2 (A.mul (t.ballData i 2) (A.ofReal (-1)))
      t
    else t
  let t :=
    if wallTest A (t.ballData i 1) (t.ballData i 4) (A.ofReal 4.7) then
      let t := t.set i 2 (A.mul (t.ballData i 2) (A.ofReal (-1)))
      let t := t.set i 4 (A.mul (t.ballData i 4) (A.ofReal (-0.5)))
      t
    else t
  t

/-- Integration, braking and wall reflection of ball `i`. -/
def motion (A : Arith F V) (t : Table V) (i : Fin 7) : Table V :=
  touchingWall A (braking A (changePosition A t i) i) i

/-- The X velocity of ball `i` after braking, in terms of the table before the pass. -/
def dampedVx (A : Arith F V) (t : Table V) (i : Fin 7) : V :=
  A.mul (A.mul (t.ballData i 3)
    (A.pow (A.add (A.sq (t.ballData i 3)) (A.sq (t.ballData i 4))) (A.ofReal 0.002)))
    (A.ofReal 0.997)

/-- The Y velocity of ball `i` after braking, in terms of the table before the pass. -/
def dampedVy (A : Arith F V) (t : Table V) (i : Fin 7) : V :=
  A.mul (A.mul (t.ballData i 4)
    (A.pow (A.add (A.sq (t.ballData i 3)) (A.sq (t.ballData i 4))) (A.ofReal 0.002)))
    (A.ofReal 0.997)

/-- The first wall test as it is evaluated in the pass of ball `i`. -/
def xWallTrigger (A : Arith F V) (t : Table V) (i : Fin 7) : Bool :=
  wallTest A (A.add (t.ballData i 0) (t.ballData i 3)) (dampedVx A t i) (A.ofReal 8.2)

/-- The second wall test as it is evaluated in the pass of ball `i`. -/
def yWallTrigger (A : Arith F V) (t : Table V) (i : Fin 7) : Bool :=
  wallTest A (A.add (t.ballData i 1) (t.ballData i 4)) (dampedVy A t i) (A.ofReal 4.7)

/-- The distance test of the collision for a ball at `(x1, y1)` and a ball at
`(x2, y2)`; the bound is `pow(0.599f, 2)`, and the literal `0.599f` is the
binary32 number `628097 / 2 ^ 20`. -/
def inContact (A : Arith F V) (x1 y1 x2 y2 : V) : Bool :=
  A.le (A.add (A.sq (A.sub x1 x2)) (A.sq (A.sub y1 y2))) (A.sq (A.ofReal (628097 / 1048576)))

/-- The distance test of the ball-ball collision. -/
def ballsTouch (A : Arith F V) (t : Table V) (i j : Fin 7) : Bool :=
  inContact A (t.ballData i 0) (t.ballData i 1) (t.ballData j 0) (t.ballData j 1)

/-- The first two statements of the collision body. -/
def contactSlope (A : Arith F V) (t : Table V) (i j : Fin 7) : Table V :=
  let t := t.set j 2
    (A.div (A.sub (t.ballData i 1) (t.ballData j 1)) (A.sub (t.ballData i 0) (t.ballData j 0)))
  let t := t.set i 2 (t.ballData j 2)
  t

/-- The speed `sqrt(pow(vx, 2) + pow(vy, 2))` of ball `i`. -/
def speed (A : Arith F V) (t : Table V) (i : Fin 7) : V :=
  A.sqrt (A.add (A.sq (t.ballData i 3)) (A.sq (t.ballData i 4)))

/-- The quotient `velocity / sqrt(1 + pow(slope, 2))` of the collision body and
of the release. -/
def along (A : Arith F V) (velocity slope : V) : V :=
  A.div velocity (A.sqrt (A.add (A.ofReal 1) (A.sq slope)))

/-- The next three statements of the collision body: the velocity of ball `j`. -/
def pushPartner (A : Arith F V) (t : Table V) (i j : Fin 7) : Table V :=
  let velocity := speed A t i
  let t := t.set j 3 (A.sub (t.ballData j 3)
    (A.mul (along A velocity (t.ballData j 2))
      (if A.lt (A.ofReal 0) (A.sub (t.ballData i 0) (t.ballData j 0)) then A.ofReal 1
        else A.ofReal (-1))))
  let t := t.set j 4 (A.sub (t.ballData j 4)
    (A.mul (A.mul (along A velocity (t.ballData j 2)) (t.ballData j 2))
      (if A.lt (A.ofReal 0) (A.sub (t.ballData i 0) (t.ballData j 0)) then A.ofReal 1
        else A.ofReal (-1))))
  t

/-- The next three statements of the collision body: the velocity of ball `i`. -/
def pushSelf (A : Arith F V) (t : Table V) (i j : Fin 7) : Table V :=
  let velocity := speed A t i
  let t := t.set i 3 (A.sub (t.ballData i 3)
    (A.mul (along A velocity (t.ballData i 2))
      (if A.lt (A.sub (t.ballData j 0) (t.ballData i 0)) (A.ofReal 0) then A.ofReal (-1)
        else A.ofReal 1)))
  let t := t.set i 4 (A.sub (t.ballData i 4)
    (A.mul (A.mul (along A velocity (t.ballData i 2)) (t.ballData j 2))
      (if A.lt (A.sub (t.ballData j 0) (t.ballData i 0)) (A.ofReal 0) then A.ofReal (-1)
        else A.ofReal 1)))
  t

/-- The last four statements of the collision body. -/
def retain (A : Arith F V) (t : Table V) (i j : Fin 7) : Table V :=
  let t := t.set i 3 (A.mul (t.ballData i 3) (A.ofReal 0.8))
  let t := t.set j 3 (A.mul (t.ballData j 3) (A.ofReal 0.8))
  let t := t.set i 4 (A.mul (t.ballData i 4) (A.ofReal 0.8))
  let t := t.set j 4 (A.mul (t.ballData j 4) (A.ofReal 0.8))
  t

/-- The body of the collision test. -/
def exchange (A : Arith F V) (t : Table V) (i j : Fin 7) : Table V :=
  retain A (pushSelf A (pushPartner A (contactSlope A t i j) i j) i j) i j

/-- Touching the ball: the loop over the partners `j` of ball `i`. -/
def touchingBall (A : Arith F V) (i : Fin 7) : List (Fin 7) → Table V → Table V
  | [], t => t
  | j :: js, t =>
    if i = j ∨ pocketed A t j = true then touchingBall A i js t
    else if ballsTouch A t i j then touchingBall A i js (exchange A t i j)
    else touchingBall A i js t

/-- The body of the loop over the balls in `Game::update`: the pass of ball `i`. -/
def ballPass (A : Arith F V) (i : Fin 7) (t : Table V) : Table V :=
  if pocketed A t i then t
  else
    let t := pocketLoop A t i (List.finRange 6)
    if pocketed A t i then t
    else
      touchingBall A i (List.finRange 7) (touchingWall A (braking A (changePosition A t i) i) i)

/-- The loop over the balls in `Game::update`. -/
def ballLoop (A : Arith F V) : List (Fin 7) → Table V → Table V
  | [], t => t
  | i :: is, t => ballLoop A is (ballPass A i t)

/-- The table of numbers as the machine holds it. -/
def lift (A : Arith F V) (t : Table F) : Table V where
  ballData := fun i c => A.ofReal (t.ballData i c)
  pocketData := fun j => ⟨A.ofReal (t.pocketData j).x, A.ofReal (t.pocketData j).y⟩

/-- No collision test of the update from the table `t` to the table `t'` that
involves ball `i` succeeds.  The test in the pass of a ball is made at the new
position of that ball and at the position the other ball has at that time: a
ball `j < i` has had its pass before ball `i`, a ball `j > i` has it after; a
pocketed ball is skipped as a partner and has no collision loop of its own. -/
def isolated (A : Arith F V) (t t' : Table V) (i : Fin 7) : Prop :=
  ∀ j, j ≠ i →
    (j < i → pocketed A t' j = true ∨
      (inContact A (t'.ballData j 0) (t'.ballData j 1) (t.ballData i 0) (t.ballData i 1) = false ∧
        inContact A (t'.ballData i 0) (t'.ballData i 1) (t'.ballData j 0) (t'.ballData j 1)
          = false)) ∧
    (i < j →
      (pocketed A t j = true ∨
        inContact A (t'.ballData i 0) (t'.ballData i 1) (t.ballData j 0) (t.ballData j 1)
          = false) ∧
      (pocketed A t' j = true ∨
        inContact A (t'.ballData j 0) (t'.ballData j 1) (t'.ballData i 0) (t'.ballData i 1)
          = false))

instance (A : Arith F V) (t t' : Table V) (i : Fin 7) : Decidable (isolated A t t' i) := by
  unfold isolated; infer_instance

/-- A table at rest: ball `i` is at the numbers `(px i, py i)` with velocity
`(0, 0)`; the pocket test fails for every alive ball and every pocket; and
every two alive balls for which the collision test holds have different x
coordinates and a slope below the overflow bound. -/
def settled (A : Arith F V) (t : Table V) (px py : Fin 7 → F) : Prop :=
  (∀ i, t.ballData i 0 = A.ofReal (px i) ∧ t.ballData i 1 = A.ofReal (py i) ∧
    t.ballData i 3 = A.ofReal 0 ∧ t.ballData i 4 = A.ofReal 0) ∧
  (∀ i j, pocketed A t i = false → hitsPocket A t i j = false) ∧
  (∀ i j, i ≠ j → pocketed A t i = false → pocketed A t j = false →
    ballsTouch A t i j = true →
    px i ≠ px j ∧ |(py i - py j) / (px i - px j)| < overflow)

instance [DecidableEq V] (A : Arith F V) (t : Table V) (px py : Fin 7 → F) :
    Decidable (settled A t px py) := by
  unfold settled
  have : ∀ i j : Fin 7, Decidable (px i ≠ px j ∧ |(py i - py j) / (px i - px j)| < overflow) :=
    fun i j => inferInstance
  infer_instance

namespace Game

/-- The initial values of the globals together with `Game::init`. -/
def init (A : Arith F V) : Game V where
  table := lift A Table.init
  isChargingShot := false
  shotChargeProgress := A.ofReal 0

/-- The charge tick at the head of `Game::update`; `std::min(a, b)` is `b` when
`b < a` and `a` otherwise. -/
def chargeTick (A : Arith F V) (dt : V) (g : Game V) : V :=
  if g.isChargingShot then
    if A.lt (A.ofReal 1) (A.add g.shotChargeProgress (A.div dt (A.ofReal Params.Shot.chargeTime)))
    then A.ofReal 1
    else A.add g.shotChargeProgress (A.div dt (A.ofReal Params.Shot.chargeTime))
  else g.shotChargeProgress

/-- The function `Game::update`. -/
def update (A : Arith F V) (dt : V) (g : Game V) : Game V where
  table := ballLoop A (List.finRange 7) g.table
  isChargingShot := g.isChargingShot
  shotChargeProgress := chargeTick A dt g

/-- The function `Game::mouseButtonPressed`. -/
def mouseButtonPressed (_x _y : V) (g : Game V) : Game V :=
  { g with isChargingShot := true }

/-- The statements of `Game::mouseButtonReleased` that save angle and velocity. -/
def aim (A : Arith F V) (x y p : V) (t : Table V) : Table V :=
  let t := t.set 0 2 (A.div (A.sub y (t.ballData 0 1)) (A.sub x (t.ballData 0 0)))
  let t := t.set 0 3 (A.div
    (A.mul (along A p (t.ballData 0 2))
      (if A.lt (A.ofReal 0) (A.sub x (t.ballData 0 0)) then A.ofReal 1 else A.ofReal (-1)))
    (A.ofReal 2))
  let t := t.set 0 4 (A.div
    (A.mul (A.mul (along A p (t.ballData 0 2)) (t.ballData 0 2))
      (if A.lt (A.ofReal 0) (A.sub x (t.ballData 0 0)) then A.ofReal 1 else A.ofReal (-1)))
    (A.ofReal 2))
  t

/-- The function `Game::mouseButtonReleased`. -/
def mouseButtonReleased (A : Arith F V) (x y : V) (g : Game V) : Game V where
  table := aim A x y g.shotChargeProgress g.table
  isChargingShot := false
  shotChargeProgress := A.ofReal 0

/-- A sequence of calls of `Game::update`, one for each frame time of the list. -/
def updates (A : Arith F V) : List V → Game V → Game V
  | [], g => g
  | dt :: dts, g => updates A dts (update A dt g)

/-- The states the program can reach from its initial state by calls of its
three entry points, with any arguments. -/
inductive Reachable (A : Arith F V) : Game V → Prop
  | init : Reachable A (init A)
  | update (dt : V) {g : Game V} : Reachable A g → Reachable A (update A dt g)
  | pressed (x y : V) {g : Game V} : Reachable A g → Reachable A (mouseButtonPressed x y g)
  | released (x y : V) {g : Game V} : Reachable A g →
      Reachable A (mouseButtonReleased A x y g)

end Game

/-- An arithmetic that is exact on the numbers: on machine numbers that denote
reals the operations return the number of the exact result, for `sqrt` and
`pow` the one of the given real functions; a quotient is only required to be
exact when the divisor is not zero and the result is below the overflow
bound.  Nothing is assumed about the other values of `V` (infinities, NaN). -/
structure Exact (A : Arith F V) (sqrt : F → F) (pow : F → F → F) : Prop where
  inj : ∀ a b, A.ofReal a = A.ofReal b → a = b
  add : ∀ a b, A.add (A.ofReal a) (A.ofReal b) = A.ofReal (a + b)
  sub : ∀ a b, A.sub (A.ofReal a) (A.ofReal b) = A.ofReal (a - b)
  mul : ∀ a b, A.mul (A.ofReal a) (A.ofReal b) = A.ofReal (a * b)
  div : ∀ a b, b ≠ 0 → |a / b| < overflow → A.div (A.ofReal a) (A.ofReal b) = A.ofReal (a / b)
  sq : ∀ a, A.sq (A.ofReal a) = A.ofReal (a ^ 2)
  pow : ∀ a e, 0 ≤ a → A.pow (A.ofReal a) (A.ofReal e) = A.ofReal (pow a e)
  sqrt : ∀ a, 0 ≤ a → A.sqrt (A.ofReal a) = A.ofReal (sqrt a)
  fabs : ∀ a, A.fabs (A.ofReal a) = A.ofReal |a|
  lt : ∀ a b, A.lt (A.ofReal a) (A.ofReal b) = decide (a < b)
  le : ∀ a b, A.le (A.ofReal a) (A.ofReal b) = decide (a ≤ b)

end Machine

/-! ## A concrete arithmetic: the reals with the special values of IEEE 754

The numbers are the reals (no rounding), the two infinities and NaN.  The
special values follow the rules of IEEE 754; a quotient of two reals whose
magnitude reaches the overflow bound is an infinity, as in binary32 (the
divisions of the program for the slopes are divisions of binary32 numbers). -/

namespace Machine

variable {V : Type}

/-- A real number, `+inf`, `-inf` or NaN. -/
inductive Ext (F : Type) where
  | fin (r : F)
  | pinf
  | ninf
  | nan

namespace Ext

def neg : Ext F → Ext F
  | fin r => fin (-r)
  | pinf => ninf
  | ninf => pinf
  | nan => nan

def add : Ext F → Ext F → Ext F
  | fin a, fin b => fin (a + b)
  | fin _, pinf => pinf
  | fin _, ninf => ninf
  | pinf, fin _ => pinf
  | pinf, pinf => pinf
  | ninf, fin _ => ninf
  | ninf, ninf => ninf
  | _, _ => nan

def sub (a b : Ext F) : Ext F := add a (neg b)

/-- The infinity with the sign of `a`, NaN for zero. -/
def signed (a : F) : Ext F :=
  if 0 < a then pinf else if a < 0 then ninf else nan

def mul : Ext F → Ext F → Ext F
  | fin a, fin b => fin (a * b)
  | fin a, pinf => signed a
  | fin a, ninf => signed (-a)
  | pinf, fin b => signed b
  | ninf, fin b => signed (-b)
  | pinf, pinf => pinf
  | ninf, ninf => pinf
  | pinf, ninf => ninf
  | ninf, pinf => ninf
  | _, _ => nan

def div : Ext F → Ext F → Ext F
  | fin a, fin b =>
    if b = 0 then signed a
    else if overflow ≤ a / b then pinf
    else if a / b ≤ -overflow then ninf
    else fin (a / b)
  | fin _, pinf => fin 0
  | fin _, ninf => fin 0
  | pinf, fin b => if 0 ≤ b then pinf else ninf
  | ninf, fin b => if 0 ≤ b then ninf else pinf
  | _, _ => nan

def sq (a : Ext F) : Ext F := mul a a

def sqrt (s : F → F) : Ext F → Ext F
  | fin a => if a < 0 then nan else fin (s a)
  | pinf => pinf
  | _ => nan

/-- The function `pow(x, e)` for an exponent `e > 0` that is not an integer
(the program calls it with `e = 0.002`); NaN for the other exponents. -/
def pow (p : F → F → F) : Ext F → Ext F → Ext F
  | fin a, fin e => if a < 0 then nan else fin (p a e)
  | pinf, fin e => if 0 < e then pinf else nan
  | ninf, fin e => if 0 < e then pinf else nan
  | _, _ => nan

def fabs : Ext F → Ext F
  | fin a => fin |a|
  | pinf => pinf
  | ninf => pinf
  | nan => nan

def lt : Ext F → Ext F → Bool
  | fin a, fin b => decide (a < b)
  | fin _, pinf => true
  | ninf, fin _ => true
  | ninf, pinf => true
  | _, _ => false

def le : Ext F → Ext F → Bool
  | fin a, fin b => decide (a ≤ b)
  | fin _, pinf => true
  | ninf, fin _ => true
  | ninf, pinf => true
  | pinf, pinf => true
  | ninf, ninf => true
  | _, _ => false

end Ext

/-- The arithmetic on `Ext F`, for the given real functions `sqrt` and `pow`. -/
def ieee (sqrt : F → F) (pow : F → F → F) : Arith F (Ext F) where
  ofReal := Ext.fin
  add := Ext.add
  sub := Ext.sub
  mul := Ext.mul
  div := Ext.div
  sq := Ext.sq
  pow := Ext.pow pow
  sqrt := Ext.sqrt sqrt
  fabs := Ext.fabs
  lt := Ext.lt
  le := Ext.le

/-- The state of numbers as the machine holds it. -/
def liftGame (A : Arith F V) (g : Game F) : Game V where
  table := lift A g.table
  isChargingShot := g.isChargingShot
  shotChargeProgress := A.ofReal g.shotChargeProgress

end Machine

/-! ## A concrete arithmetic with rounding: binary32

The charge tick of the program consists of operations on `float` operands
only, so each of its results is rounded to binary32.  The arithmetic
`binary32` rounds the result of every operation of `ieee` to binary32 (to
nearest, ties to even; an infinity on overflow). -/

namespace Machine

variable [FloorRing F]

/-- The integer nearest to `q`, the even one of the two in a tie. -/
def roundEven (q : F) : ℤ :=
  if q - ⌊q⌋ < 1 / 2 then ⌊q⌋
  else if 1 / 2 < q - ⌊q⌋ then ⌊q⌋ + 1
  else if ⌊q⌋ % 2 = 0 then ⌊q⌋ else ⌊q⌋ + 1

/-- The unit in the last place of binary32 at the magnitude of `q`: `2^(e - 23)`
for `2^e ≤ |q| < 2^(e + 1)`, and `2^(-149)` below `2^(-126)`. -/
def ulp32 (q : F) : F :=
  2 ^ (max (Int.log 2 |q|) (-126) - 23)

/-- Rounding to binary32: to nearest, ties to even, an infinity on overflow. -/
def round32 (q : F) : Ext F :=
  if 2 ^ 128 ≤ |(roundEven (q / ulp32 q) : F) * ulp32 q| then Ext.signed q
  else Ext.fin (roundEven (q / ulp32 q) * ulp32 q)

/-- Rounding of a result: numbers are rounded, the special values are kept. -/
def Ext.round : Ext F → Ext F
  | Ext.fin q => round32 q
  | x => x

/-- The arithmetic on `Ext F` with every result rounded to binary32. -/
def binary32 (sqrt : F → F) (pow : F → F → F) : Arith F (Ext F) where
  ofReal := round32
  add := fun a b => Ext.round (Ext.add a b)
  sub := fun a b => Ext.round (Ext.sub a b)
  mul := fun a b => Ext.round (Ext.mul a b)
  div := fun a b => Ext.round (Ext.div a b)
  sq := fun a => Ext.round (Ext.sq a)
  pow := fun a e => Ext.round (Ext.pow pow a e)
  sqrt := fun a => Ext.round (Ext.sqrt sqrt a)
  fabs := Ext.fabs
  lt := Ext.lt
  le := Ext.le

end Machine
/-! ## Basic facts about the assignments -/

@[simp] theorem Table.set_pocketData (t : Table F) (i : Fin 7) (k : Fin 6) (v : F) :
    (t.set i k v).pocketData = t.pocketData := rfl

theorem Table.set_ballData (t : Table F) (i : Fin 7) (k : Fin 6) (v : F) (i' : Fin 7)
    (k' : Fin 6) :
    (t.set i k v).ballData i' k' = if i' = i ∧ k' = k then v else t.ballData i' k' := by
  unfold Table.set
  by_cases hi : i' = i
  · subst hi
    by_cases hk : k' = k
    · subst hk; simp
    · simp [hk]
  · simp [hi]

theorem fdiv_eq_some {a b c : F} : fdiv a b = some c ↔ b ≠ 0 ∧ c = a / b := by
  unfold fdiv
  split_ifs with h
  · simp [h]
  · simp [h, eq_comm]

theorem fsqrt_eq_some {sqrt : F → F} {a c : F} :
    fsqrt sqrt a = some c ↔ ¬ a < 0 ∧ c = sqrt a := by
  unfold fsqrt
  split_ifs with h
  · simp [h]
  · simp [h, eq_comm]

theorem fpow_eq_some {pow : F → F → F} {a e c : F} :
    fpow pow a e = some c ↔ ¬ a < 0 ∧ c = pow a e := by
  unfold fpow
  split_ifs with h
  · simp [h]
  · simp [h, eq_comm]

/-- The exchange leaves the pockets, the positions and the alive flags of all
balls, and every ball other than `i` and `j`, as they are. -/
theorem exchange_frame {sqrt : F → F} {t t' : Table F} {i j : Fin 7}
    (h : exchange sqrt t i j = some t') :
    t'.pocketData = t.pocketData ∧
      ∀ k c, (k ≠ i ∧ k ≠ j) ∨ c = 0 ∨ c = 1 ∨ c = 5 → t'.ballData k c = t.ballData k c := by
  simp only [exchange, contactSlope, pushPartner, pushSelf, retain, bind, pure,
    Option.bind_eq_some, Option.some.injEq] at h
  obtain ⟨t1, ⟨s, -, rfl⟩, t2, ⟨v, -, r, -, q, -, r2, -, q2, -, rfl⟩,
    t3, ⟨v3, -, r3, -, q3, -, r4, -, q4, -, rfl⟩, rfl⟩ := h
  refine ⟨rfl, ?_⟩
  intro k c hkc
  simp only [Table.set_ballData]
  rcases hkc with ⟨hi, hj⟩ | rfl | rfl | rfl <;> simp [*]


/-- The collision loop of ball `k` leaves the pockets, all positions and all
alive flags as they are, and it leaves a ball `m` other than `k` untouched
when `m` is not a partner in the loop, is not alive or does not touch `k`. -/
theorem touchingBall_frame {sqrt : F → F} {k : Fin 7} (js : List (Fin 7)) :
    ∀ {t t' : Table F}, touchingBall sqrt k js t = some t' →
      t'.pocketData = t.pocketData ∧
      (∀ m c, c = 0 ∨ c = 1 ∨ c = 5 → t'.ballData m c = t.ballData m c) ∧
      (∀ m, m ≠ k → (m ∉ js ∨ t.ballData m 5 < 0 ∨ ¬ ballsTouch t k m) →
        ∀ c, t'.ballData m c = t.ballData m c) := by
  induction js with
  | nil =>
    intro t t' h
    simp only [touchingBall, Option.some.injEq] at h
    subst h
    exact ⟨rfl, fun _ _ _ => rfl, fun _ _ _ _ => rfl⟩
  | cons j js ih =>
    intro t t' h
    rw [touchingBall] at h
    split_ifs at h with h1 h2
    · obtain ⟨hp, hc, hm⟩ := ih h
      refine ⟨hp, hc, fun m hmk hm' c => hm m hmk ?_ c⟩
      rcases hm' with hm' | hm' | hm'
      · exact Or.inl (fun hmem => hm' (List.mem_cons_of_mem _ hmem))
      · exact Or.inr (Or.inl hm')
      · exact Or.inr (Or.inr hm')
    · obtain ⟨t1, he, hl⟩ := Option.bind_eq_some.mp h
      obtain ⟨hp1, hf1⟩ := exchange_frame he
      obtain ⟨hp, hc, hm⟩ := ih hl
      have htouch : ∀ m, ballsTouch t1 k m ↔ ballsTouch t k m := by
        intro m
        simp only [ballsTouch, hf1 k 0 (Or.inr (Or.inl rfl)), hf1 k 1 (Or.inr (Or.inr (Or.inl rfl))),
          hf1 m 0 (Or.inr (Or.inl rfl)), hf1 m 1 (Or.inr (Or.inr (Or.inl rfl)))]
      refine ⟨hp.trans hp1, fun m c hcc => (hc m c hcc).trans (hf1 m c (Or.inr hcc)), ?_⟩
      intro m hmk hm' c
      have hmj : m ≠ j := by
        rintro rfl
        rcases hm' with hm' | hm' | hm'
        · exact hm' (List.mem_cons_self _ _)
        · exact h1 (Or.inr hm')
        · exact hm' h2
      rw [hm m hmk ?_ c, hf1 m c (Or.inl ⟨hmk, hmj⟩)]
      rcases hm' with hm' | hm' | hm'
      · exact Or.inl (fun hmem => hm' (List.mem_cons_of_mem _ hmem))
      · exact Or.inr (Or.inl (by rw [hf1 m 5 (Or.inr (Or.inr (Or.inr rfl)))]; exact hm'))
      · exact Or.inr (Or.inr (fun ht => hm' ((htouch m).mp ht)))
    · obtain ⟨hp, hc, hm⟩ := ih h
      refine ⟨hp, hc, fun m hmk hm' c => hm m hmk ?_ c⟩
      rcases hm' with hm' | hm' | hm'
      · exact Or.inl (fun hmem => hm' (List.mem_cons_of_mem _ hmem))
      · exact Or.inr (Or.inl hm')
      · exact Or.inr (Or.inr hm')

/-- When no partner is hit, the collision loop changes nothing. -/
theorem touchingBall_none {sqrt : F → F} {k : Fin 7} (js : List (Fin 7)) (t : Table F)
    (h : ∀ j ∈ js, j = k ∨ t.ballData j 5 < 0 ∨ ¬ ballsTouch t k j) :
    touchingBall sqrt k js t = some t := by
  induction js with
  | nil => rfl
  | cons j js ih =>
    have ih' := ih (fun m hm => h m (List.mem_cons_of_mem _ hm))
    rw [touchingBall]
    rcases h j (List.mem_cons_self _ _) with h1 | h1 | h1
    · rw [if_pos (Or.inl h1.symm)]; exact ih'
    · rw [if_pos (Or.inr h1)]; exact ih'
    · split_ifs
      · exact ih'
      · exact ih'

/-- The pocket loop removes the ball exactly when one of the pockets is hit. -/
theorem pocketLoop_eq (t : Table F) (i : Fin 7) (js : List (Fin 6)) :
    pocketLoop t i js = if ∃ j ∈ js, hitsPocket t i j then removeBall t i else t := by
  induction js with
  | nil => simp [pocketLoop]
  | cons j js ih =>
    rw [pocketLoop]
    by_cases hj : hitsPocket t i j
    · simp [hj]
    · simp [hj, ih]

theorem removeBall_self (t : Table F) (i : Fin 7) :
    (removeBall t i).ballData i 0 = -10 ∧ (removeBall t i).ballData i 1 = -10 ∧
      (removeBall t i).ballData i 2 = 0 ∧ (removeBall t i).ballData i 3 = 0 ∧
      (removeBall t i).ballData i 4 = t.ballData i 4 ∧ (removeBall t i).ballData i 5 = -1 := by
  simp [removeBall, Table.set_ballData]

theorem removeBall_other (t : Table F) {i m : Fin 7} (hm : m ≠ i) (c : Fin 6) :
    (removeBall t i).ballData m c = t.ballData m c := by
  simp [removeBall, Table.set_ballData, hm]

theorem changePosition_ballData (t : Table F) (i m : Fin 7) (c : Fin 6) :
    (changePosition t i).ballData m c =
      if m = i ∧ c = 0 then t.ballData i 0 + t.ballData i 3
      else if m = i ∧ c = 1 then t.ballData i 1 + t.ballData i 4
      else t.ballData m c := by
  simp only [changePosition, Table.set_ballData]
  by_cases hm : m = i
  · subst hm
    fin_cases c <;> simp
  · simp [hm]

theorem braking_eq_some {pow : F → F → F} {t t' : Table F} {i : Fin 7} :
    braking pow t i = some t' ↔
      ¬ t.ballData i 3 ^ 2 + t.ballData i 4 ^ 2 < 0 ∧
      t' = (t.set i 3 (t.ballData i 3 * pow (t.ballData i 3 ^ 2 + t.ballData i 4 ^ 2) 0.002
              * 0.997)).set i 4
            (t.ballData i 4 * pow (t.ballData i 3 ^ 2 + t.ballData i 4 ^ 2) 0.002 * 0.997) := by
  simp only [braking, bind, pure, Option.bind_eq_some, fpow_eq_some, Option.some.injEq]
  constructor
  · rintro ⟨v, ⟨h1, rfl⟩, rfl⟩
    refine ⟨h1, ?_⟩
    congr 1
    simp [Table.set_ballData]
  · rintro ⟨h1, rfl⟩
    refine ⟨_, ⟨h1, rfl⟩, ?_⟩
    congr 1
    simp [Table.set_ballData]

/-- Integration, braking and wall reflection of ball `i` change only columns
0 to 4 of row `i`. -/
theorem motion_frame {pow : F → F → F} {t t2 : Table F} {i : Fin 7}
    (h : braking pow (changePosition t i) i = some t2) :
    (touchingWall t2 i).pocketData = t.pocketData ∧
      (∀ m c, m ≠ i ∨ c = 5 → (touchingWall t2 i).ballData m c = t.ballData m c) ∧
      (touchingWall t2 i).ballData i 0 = t.ballData i 0 + t.ballData i 3 ∧
      (touchingWall t2 i).ballData i 1 = t.ballData i 1 + t.ballData i 4 := by
  obtain ⟨-, rfl⟩ := braking_eq_some.mp h
  refine ⟨?_, ?_, ?_, ?_⟩
  · simp only [touchingWall]
    split_ifs <;> rfl
  · intro m c hmc
    simp only [touchingWall]
    split_ifs <;> simp only [Table.set_ballData, changePosition_ballData] <;>
      rcases hmc with hm | rfl <;> simp [*]
  · simp only [touchingWall]
    split_ifs <;> simp [Table.set_ballData, changePosition_ballData]
  · simp only [touchingWall]
    split_ifs <;> simp [Table.set_ballData, changePosition_ballData]

theorem ballPass_skip {sqrt : F → F} {pow : F → F → F} {t : Table F} {i : Fin 7}
    (h : t.ballData i 5 < 0) : ballPass sqrt pow i t = some t := by
  simp [ballPass, h]

theorem ballPass_removed {sqrt : F → F} {pow : F → F → F} {t : Table F} {i : Fin 7}
    (h : ¬ t.ballData i 5 < 0) (hp : ∃ j, hitsPocket t i j) :
    ballPass sqrt pow i t = some (removeBall t i) := by
  have hp' : ∃ j ∈ List.finRange 6, hitsPocket t i j := by
    obtain ⟨j, hj⟩ := hp
    exact ⟨j, List.mem_finRange j, hj⟩
  simp only [ballPass, if_neg h, pocketLoop_eq, if_pos hp']
  rw [if_pos]
  rw [(removeBall_self t i).2.2.2.2.2]
  norm_num

theorem ballPass_moved {sqrt : F → F} {pow : F → F → F} {t : Table F} {i : Fin 7}
    (h : ¬ t.ballData i 5 < 0) (hp : ¬ ∃ j, hitsPocket t i j) :
    ballPass sqrt pow i t =
      (braking pow (changePosition t i) i).bind fun t2 =>
        touchingBall sqrt i (List.finRange 7) (touchingWall t2 i) := by
  have hp' : ¬ ∃ j ∈ List.finRange 6, hitsPocket t i j := by
    rintro ⟨j, -, hj⟩
    exact hp ⟨j, hj⟩
  simp only [ballPass, if_neg h, pocketLoop_eq, if_neg hp']

/-- What a pass of ball `k` leaves as it is: the pockets; position and
alive flag of every other ball; and the whole row of another ball `m` when
`k` is not alive after the pass, `m` is not alive, or the two do not touch. -/
theorem ballPass_frame {sqrt : F → F} {pow : F → F → F} {t t' : Table F} {k : Fin 7}
    (h : ballPass sqrt pow k t = some t') :
    t'.pocketData = t.pocketData ∧
      (∀ m c, m ≠ k → c = 0 ∨ c = 1 ∨ c = 5 → t'.ballData m c = t.ballData m c) ∧
      (∀ m, m ≠ k → (t'.ballData k 5 < 0 ∨ t.ballData m 5 < 0 ∨ ¬ ballsTouch t' k m) →
        ∀ c, t'.ballData m c = t.ballData m c) := by
  by_cases ha : t.ballData k 5 < 0
  · rw [ballPass_skip ha, Option.some.injEq] at h
    subst h
    exact ⟨rfl, fun _ _ _ _ => rfl, fun _ _ _ _ => rfl⟩
  by_cases hp : ∃ j, hitsPocket t k j
  · rw [ballPass_removed ha hp, Option.some.injEq] at h
    subst h
    refine ⟨rfl, ?_, ?_⟩
    · intro m c hm _
      exact removeBall_other t hm c
    · intro m hm _ c
      exact removeBall_other t hm c
  rw [ballPass_moved ha hp] at h
  obtain ⟨t2, hb, hl⟩ := Option.bind_eq_some.mp h
  obtain ⟨hq, hrow, -, -⟩ := motion_frame hb
  obtain ⟨hq', hc, hm⟩ := touchingBall_frame _ hl
  refine ⟨hq'.trans hq, ?_, ?_⟩
  · intro m c hmk hcc
    rw [hc m c hcc, hrow m c (Or.inl hmk)]
  · intro m hmk hcond c
    have h5 : t'.ballData k 5 = t.ballData k 5 := by
      rw [hc k 5 (Or.inr (Or.inr rfl)), hrow k 5 (Or.inr rfl)]
    have htouch : ballsTouch t' k m ↔ ballsTouch (touchingWall t2 k) k m := by
      simp only [ballsTouch, hc k 0 (Or.inl rfl), hc k 1 (Or.inr (Or.inl rfl)),
        hc m 0 (Or.inl rfl), hc m 1 (Or.inr (Or.inl rfl))]
    rw [hm m hmk ?_ c, hrow m c (Or.inl hmk)]
    rcases hcond with h1 | h1 | h1
    · rw [h5] at h1; exact absurd h1 ha
    · exact Or.inr (Or.inl (by rw [hrow m 5 (Or.inl hmk)]; exact h1))
    · exact Or.inr (Or.inr (fun ht => h1 (htouch.mpr ht)))

/-- The alive flag of ball `k` after its own pass. -/
theorem ballPass_alive {sqrt : F → F} {pow : F → F → F} {t t' : Table F} {k : Fin 7}
    (h : ballPass sqrt pow k t = some t') (ha : ¬ t.ballData k 5 < 0) :
    (t'.ballData k 5 < 0 ↔ ∃ j, hitsPocket t k j) ∧
      ((¬ ∃ j, hitsPocket t k j) → t'.ballData k 5 = t.ballData k 5) := by
  by_cases hp : ∃ j, hitsPocket t k j
  · rw [ballPass_removed ha hp, Option.some.injEq] at h
    subst h
    simp [(removeBall_self t k).2.2.2.2.2, hp]
  rw [ballPass_moved ha hp] at h
  obtain ⟨t2, hb, hl⟩ := Option.bind_eq_some.mp h
  obtain ⟨-, hrow, -, -⟩ := motion_frame hb
  obtain ⟨-, hc, -⟩ := touchingBall_frame _ hl
  have h5 : t'.ballData k 5 = t.ballData k 5 := by
    rw [hc k 5 (Or.inr (Or.inr rfl)), hrow k 5 (Or.inr rfl)]
  simp [hp, h5, ha]


/-- A ball that is not alive keeps its whole row through any sequence of passes. -/
theorem ballLoop_pocketed {sqrt : F → F} {pow : F → F → F} (ks : List (Fin 7)) :
    ∀ {t t' : Table F}, ballLoop sqrt pow ks t = some t' →
      ∀ m, t.ballData m 5 < 0 → ∀ c, t'.ballData m c = t.ballData m c := by
  induction ks with
  | nil =>
    intro t t' h m _ c
    simp only [ballLoop, Option.some.injEq] at h
    rw [h]
  | cons k ks ih =>
    intro t t' h m hm c
    rw [ballLoop] at h
    obtain ⟨t1, hk, hl⟩ := Option.bind_eq_some.mp h
    have hrow : ∀ c, t1.ballData m c = t.ballData m c := by
      by_cases hmk : m = k
      · subst hmk
        rw [ballPass_skip hm, Option.some.injEq] at hk
        subst hk
        exact fun _ => rfl
      · exact (ballPass_frame hk).2.2 m hmk (Or.inr (Or.inl hm))
    rw [ih hl m (by rw [hrow 5]; exact hm) c, hrow c]

/-- Passes of other balls leave the pockets and a ball's position and alive
flag as they are. -/
theorem ballLoop_frame {sqrt : F → F} {pow : F → F → F} (ks : List (Fin 7)) :
    ∀ {t t' : Table F}, ballLoop sqrt pow ks t = some t' →
      t'.pocketData = t.pocketData ∧
      ∀ m c, m ∉ ks → c = 0 ∨ c = 1 ∨ c = 5 → t'.ballData m c = t.ballData m c := by
  induction ks with
  | nil =>
    intro t t' h
    simp only [ballLoop, Option.some.injEq] at h
    subst h
    exact ⟨rfl, fun _ _ _ _ => rfl⟩
  | cons k ks ih =>
    intro t t' h
    rw [ballLoop] at h
    obtain ⟨t1, hk, hl⟩ := Option.bind_eq_some.mp h
    obtain ⟨hp1, hc1, -⟩ := ballPass_frame hk
    obtain ⟨hp, hc⟩ := ih hl
    refine ⟨hp.trans hp1, fun m c hm hcc => ?_⟩
    rw [hc m c (fun hmem => hm (List.mem_cons_of_mem _ hmem)) hcc,
      hc1 m c (fun hmk => hm (hmk ▸ List.mem_cons_self _ _)) hcc]

theorem hitsPocket_congr {t t' : Table F} {i : Fin 7} (hp : t'.pocketData = t.pocketData)
    (h0 : t'.ballData i 0 = t.ballData i 0) (h1 : t'.ballData i 1 = t.ballData i 1)
    (j : Fin 6) : hitsPocket t' i j ↔ hitsPocket t i j := by
  simp only [hitsPocket, hp, h0, h1]

/-- The alive flag of a ball that is alive before a sequence of passes in which
its own pass occurs once. -/
theorem ballLoop_alive {sqrt : F → F} {pow : F → F → F} (ks : List (Fin 7)) :
    ∀ {t t' : Table F}, ballLoop sqrt pow ks t = some t' → ks.Nodup →
      ∀ i, i ∈ ks → ¬ t.ballData i 5 < 0 →
        (t'.ballData i 5 < 0 ↔ ∃ j, hitsPocket t i j) ∧
        ((¬ ∃ j, hitsPocket t i j) → t'.ballData i 5 = t.ballData i 5) := by
  induction ks with
  | nil => intro t t' _ _ i hi; simp at hi
  | cons k ks ih =>
    intro t t' h hnd i hi ha
    rw [ballLoop] at h
    obtain ⟨t1, hk, hl⟩ := Option.bind_eq_some.mp h
    obtain ⟨hknot, hnd'⟩ := List.nodup_cons.mp hnd
    by_cases hik : i = k
    · subst hik
      have h5 : t'.ballData i 5 = t1.ballData i 5 :=
        (ballLoop_frame ks hl).2 i 5 hknot (Or.inr (Or.inr rfl))
      rw [h5]
      exact ballPass_alive hk ha
    · have hi' : i ∈ ks := by
        rcases List.mem_cons.mp hi with h' | h'
        · exact absurd h' hik
        · exact h'
      obtain ⟨hp1, hc1, -⟩ := ballPass_frame hk
      have e5 := hc1 i 5 hik (Or.inr (Or.inr rfl))
      have hcongr := hitsPocket_congr hp1 (hc1 i 0 hik (Or.inl rfl))
        (hc1 i 1 hik (Or.inr (Or.inl rfl)))
      have := ih hl hnd' i hi' (by rw [e5]; exact ha)
      simpa only [hcongr, e5] using this

theorem update_eq_some {sqrt : F → F} {pow : F → F → F} {dt : F} {g g' : Game F} :
    Game.update sqrt pow dt g = some g' ↔
      ∃ t, ballLoop sqrt pow (List.finRange 7) g.table = some t ∧
        g' = { table := t, isChargingShot := g.isChargingShot,
               shotChargeProgress := Game.chargeTick dt g } := by
  unfold Game.update
  simp only [Option.bind_eq_some, Option.some.injEq]
  constructor
  · rintro ⟨t, ht, rfl⟩
    exact ⟨t, ht, rfl⟩
  · rintro ⟨t, ht, rfl⟩
    exact ⟨t, ht, rfl⟩


theorem Table.set_self (t : Table F) (i : Fin 7) (k : Fin 6) :
    t.set i k (t.ballData i k) = t := by
  cases t
  simp [Table.set]

/-- A resting ball that hits no pocket and touches no alive ball: its pass
changes nothing. -/
theorem ballPass_rest {sqrt : F → F} {pow : F → F → F} {t : Table F} {i : Fin 7}
    (ha : ¬ t.ballData i 5 < 0) (h3 : t.ballData i 3 = 0) (h4 : t.ballData i 4 = 0)
    (hp : ¬ ∃ j, hitsPocket t i j)
    (hb : ∀ j, j = i ∨ t.ballData j 5 < 0 ∨ ¬ ballsTouch t i j) :
    ballPass sqrt pow i t = some t := by
  have hmove : changePosition t i = t := by
    have e0 : t.ballData i 0 + t.ballData i 3 = t.ballData i 0 := by rw [h3, add_zero]
    simp only [changePosition]
    rw [e0, Table.set_self]
    have e1 : t.ballData i 1 + t.ballData i 4 = t.ballData i 1 := by rw [h4, add_zero]
    rw [e1, Table.set_self]
  have hbrake : braking pow t i = some t := by
    rw [braking_eq_some]
    refine ⟨by simp [h3, h4], ?_⟩
    have e3 : t.ballData i 3 * pow (t.ballData i 3 ^ 2 + t.ballData i 4 ^ 2) 0.002 * 0.997
        = t.ballData i 3 := by rw [h3]; simp
    have e4 : t.ballData i 4 * pow (t.ballData i 3 ^ 2 + t.ballData i 4 ^ 2) 0.002 * 0.997
        = t.ballData i 4 := by rw [h4]; simp
    rw [e3, Table.set_self, e4, Table.set_self]
  have hwall : touchingWall t i = t := by
    have hx : ¬ wallX t i := by simp [wallX, h3]
    have hy : ¬ wallY t i := by simp [wallY, h4]
    simp only [touchingWall, if_neg hx, if_neg hy]
  rw [ballPass_moved ha hp, hmove, hbrake, Option.some_bind, hwall]
  exact touchingBall_none _ _ (fun j _ => hb j)

theorem ballLoop_fixed {sqrt : F → F} {pow : F → F → F} (ks : List (Fin 7)) (t : Table F)
    (h : ∀ k ∈ ks, ballPass sqrt pow k t = some t) : ballLoop sqrt pow ks t = some t := by
  induction ks with
  | nil => rfl
  | cons k ks ih =>
    rw [ballLoop, h k (List.mem_cons_self _ _), Option.some_bind]
    exact ih (fun m hm => h m (List.mem_cons_of_mem _ hm))

/-! ## The initial layout -/

theorem init_ballData (i : Fin 7) :
    (Table.init : Table F).ballData i 0 = (Params.Table.ballsPositions i).x ∧
      (Table.init : Table F).ballData i 1 = (Params.Table.ballsPositions i).y ∧
      (Table.init : Table F).ballData i 2 = 0 ∧ (Table.init : Table F).ballData i 3 = 0 ∧
      (Table.init : Table F).ballData i 4 = 0 ∧ (Table.init : Table F).ballData i 5 = 1 :=
  ⟨rfl, rfl, rfl, rfl, rfl, rfl⟩

theorem ballsPositions_eq :
    (Params.Table.ballsPositions 0 : Vector2 F) = ⟨-0.3 * 15, 0⟩ ∧
      (Params.Table.ballsPositions 1 : Vector2 F) = ⟨0.2 * 15, 0⟩ ∧
      (Params.Table.ballsPositions 2 : Vector2 F) = ⟨0.25 * 15, 0.05 * 8⟩ ∧
      (Params.Table.ballsPositions 3 : Vector2 F) = ⟨0.25 * 15, -0.05 * 8⟩ ∧
      (Params.Table.ballsPositions 4 : Vector2 F) = ⟨0.3 * 15, 0.1 * 8⟩ ∧
      (Params.Table.ballsPositions 5 : Vector2 F) = ⟨0.3 * 15, 0⟩ ∧
      (Params.Table.ballsPositions 6 : Vector2 F) = ⟨0.3 * 15, -0.1 * 8⟩ :=
  ⟨rfl, rfl, rfl, rfl, rfl, rfl, rfl⟩

theorem pocketsPositions_eq :
    (Params.Table.pocketsPositions 0 : Vector2 F) = ⟨-0.5 * 15, -0.5 * 8⟩ ∧
      (Params.Table.pocketsPositions 1 : Vector2 F) = ⟨0, -0.5 * 8⟩ ∧
      (Params.Table.pocketsPositions 2 : Vector2 F) = ⟨0.5 * 15, -0.5 * 8⟩ ∧
      (Params.Table.pocketsPositions 3 : Vector2 F) = ⟨-0.5 * 15, 0.5 * 8⟩ ∧
      (Params.Table.pocketsPositions 4 : Vector2 F) = ⟨0, 0.5 * 8⟩ ∧
      (Params.Table.pocketsPositions 5 : Vector2 F) = ⟨0.5 * 15, 0.5 * 8⟩ :=
  ⟨rfl, rfl, rfl, rfl, rfl, rfl⟩

theorem init_pocketData (j : Fin 6) :
    (Table.init : Table F).pocketData j = Params.Table.pocketsPositions j := rfl

theorem init_not_hitsPocket (i : Fin 7) (j : Fin 6) :
    ¬ hitsPocket (Table.init : Table F) i j := by
  obtain ⟨b0, b1, b2, b3, b4, b5, b6⟩ := ballsPositions_eq (F := F)
  obtain ⟨p0, p1, p2, p3, p4, p5⟩ := pocketsPositions_eq (F := F)
  simp only [hitsPocket, (init_ballData i).1, (init_ballData i).2.1, init_pocketData]
  fin_cases i <;> fin_cases j <;> simp only [Fin.zero_eta, Fin.mk_one, Fin.reduceFinMk] <;>
    simp only [b0, b1, b2, b3, b4, b5, b6, p0, p1, p2, p3, p4, p5] <;> norm_num

theorem init_not_ballsTouch (i j : Fin 7) (h : i ≠ j) :
    ¬ ballsTouch (Table.init : Table F) i j := by
  obtain ⟨b0, b1, b2, b3, b4, b5, b6⟩ := ballsPositions_eq (F := F)
  simp only [ballsTouch, (init_ballData i).1, (init_ballData i).2.1, (init_ballData j).1,
    (init_ballData j).2.1]
  fin_cases i <;> fin_cases j <;> simp only [Fin.zero_eta, Fin.mk_one, Fin.reduceFinMk] <;>
    first
    | exact absurd rfl h
    | (simp only [b0, b1, b2, b3, b4, b5, b6]; norm_num)


/-! ## The cue ball placed on the initial table -/

theorem finRange_seven : List.finRange 7 = [0, 1, 2, 3, 4, 5, 6] := rfl

theorem cueRemoved_table (x y s vx vy : F) :
    (cueRemoved x y s vx vy).table = removeBall (cueAt x y s vx vy).table 0 := rfl

theorem cueAt_ballData (x y s vx vy : F) (i : Fin 7) (hi : i ≠ 0) (c : Fin 6) :
    (cueAt x y s vx vy).table.ballData i c = (Table.init : Table F).ballData i c := by
  simp [cueAt, Table.set_ballData, hi]

theorem cueAt_cue (x y s vx vy : F) :
    (cueAt x y s vx vy).table.ballData 0 0 = x ∧ (cueAt x y s vx vy).table.ballData 0 1 = y ∧
      (cueAt x y s vx vy).table.ballData 0 2 = s ∧
      (cueAt x y s vx vy).table.ballData 0 3 = vx ∧ (cueAt x y s vx vy).table.ballData 0 4 = vy ∧
      (cueAt x y s vx vy).table.ballData 0 5 = 1 := by
  simp [cueAt, Table.set_ballData, (init_ballData (F := F) 0).2.2.2.2.2]

theorem cueAt_pocketData (x y s vx vy : F) (j : Fin 6) :
    (cueAt x y s vx vy).table.pocketData j = Params.Table.pocketsPositions j := rfl

/-- The passes of the object balls change nothing once the cue ball has been
removed. -/
theorem cueRemoved_pass {sqrt : F → F} {pow : F → F → F} (x y s vx vy : F) (i : Fin 7) :
    ballPass sqrt pow i (cueRemoved x y s vx vy).table = some (cueRemoved x y s vx vy).table := by
  rw [cueRemoved_table]
  have hrow : ∀ m : Fin 7, m ≠ 0 → ∀ c,
      (removeBall (cueAt x y s vx vy).table 0).ballData m c
        = (Table.init : Table F).ballData m c := by
    intro m hm c
    rw [removeBall_other _ hm, cueAt_ballData x y s vx vy m hm]
  have hcue := (removeBall_self (cueAt x y s vx vy).table 0).2.2.2.2.2
  by_cases hi : i = 0
  · subst hi
    exact ballPass_skip (by rw [hcue]; norm_num)
  · apply ballPass_rest
    · rw [hrow i hi, (init_ballData i).2.2.2.2.2]; norm_num
    · rw [hrow i hi, (init_ballData i).2.2.2.1]
    · rw [hrow i hi, (init_ballData i).2.2.2.2.1]
    · rintro ⟨j, hj⟩
      have hc : hitsPocket (removeBall (cueAt x y s vx vy).table 0) i j ↔
          hitsPocket (Table.init : Table F) i j :=
        hitsPocket_congr (by rfl) (hrow i hi 0) (hrow i hi 1) j
      exact init_not_hitsPocket i j (hc.mp hj)
    · intro j
      by_cases hj : j = 0
      · subst hj
        exact Or.inr (Or.inl (by rw [hcue]; norm_num))
      · by_cases hji : j = i
        · exact Or.inl hji
        · refine Or.inr (Or.inr ?_)
          intro ht
          apply init_not_ballsTouch (F := F) i j (fun h => hji h.symm)
          simpa only [ballsTouch, hrow i hi, hrow j hj] using ht

/-- A cue ball placed within the capture radius of a pocket is removed by the
update, whatever its velocity, and nothing else changes. -/
theorem cueAt_update_removed {sqrt : F → F} {pow : F → F → F} (dt x y s vx vy : F)
    (hp : ∃ j, hitsPocket (cueAt x y s vx vy).table 0 j) :
    Game.update sqrt pow dt (cueAt x y s vx vy) = some (cueRemoved x y s vx vy) := by
  rw [update_eq_some]
  refine ⟨(cueRemoved x y s vx vy).table, ?_, rfl⟩
  have h0 : ballPass sqrt pow 0 (cueAt x y s vx vy).table = some (cueRemoved x y s vx vy).table := by
    rw [cueRemoved_table]
    apply ballPass_removed
    · rw [(cueAt_cue x y s vx vy).2.2.2.2.2]; norm_num
    · exact hp
  rw [finRange_seven, ballLoop, h0, Option.some_bind]
  exact ballLoop_fixed _ _ (fun k _ => cueRemoved_pass x y s vx vy k)

theorem cueRemoved_update {sqrt : F → F} {pow : F → F → F} (dt x y s vx vy : F) :
    Game.update sqrt pow dt (cueRemoved x y s vx vy) = some (cueRemoved x y s vx vy) := by
  rw [update_eq_some]
  exact ⟨(cueRemoved x y s vx vy).table,
    ballLoop_fixed _ _ (fun k _ => cueRemoved_pass x y s vx vy k), rfl⟩

theorem cueRemoved_cue (x y s vx vy : F) :
    (cueRemoved x y s vx vy).table.ballData 0 0 = -10 ∧
      (cueRemoved x y s vx vy).table.ballData 0 1 = -10 ∧
      (cueRemoved x y s vx vy).table.ballData 0 2 = 0 ∧
      (cueRemoved x y s vx vy).table.ballData 0 3 = 0 ∧
      (cueRemoved x y s vx vy).table.ballData 0 4 = vy ∧
      (cueRemoved x y s vx vy).table.ballData 0 5 = -1 := by
  have h := removeBall_self (cueAt x y s vx vy).table 0
  rw [← cueRemoved_table, (cueAt_cue x y s vx vy).2.2.2.2.1] at h
  exact h

/-- A cue ball at `(0, 3.5)` is within the capture radius of the pocket
`(0, 4)`. -/
theorem cueAt_hitsPocket (s vx vy : F) : ∃ j, hitsPocket (cueAt 0 3.5 s vx vy).table 0 j := by
  refine ⟨4, ?_⟩
  obtain ⟨h0, h1, -⟩ := cueAt_cue (0 : F) 3.5 s vx vy
  have hp : (cueAt (0 : F) 3.5 s vx vy).table.pocketData 4 = ⟨0, 0.5 * 8⟩ :=
    (pocketsPositions_eq (F := F)).2.2.2.2.1
  simp only [hitsPocket, h0, h1, hp]
  norm_num

/-! ## Pocket capture -/

/-- C2: at the table `cueAt 0 3.5 0 0 0.2` (the initial table with the cue ball
alive at `(0, 3.5)`, inside the capture radius of the pocket `(0, 4)`, moving
with velocity `(0, 0.2)`) `Game::update` pockets the cue ball: position
`(-10, -10)`, slope `0`, `vx = 0`, alive flag `-1`; but `vy` keeps its old
value `0.2`, so the pocketed ball's velocity is not `(0, 0)`, and the state
does not change in any later update. -/
theorem update_pocketed_keeps_vy :
    Game.update Real.sqrt Real.rpow (1 / 60) (cueAt (0 : ℝ) 3.5 0 0 0.2)
        = some (cueRemoved 0 3.5 0 0 0.2) ∧
      (cueRemoved (0 : ℝ) 3.5 0 0 0.2).table.ballData 0 0 = -10 ∧
      (cueRemoved (0 : ℝ) 3.5 0 0 0.2).table.ballData 0 1 = -10 ∧
      (cueRemoved (0 : ℝ) 3.5 0 0 0.2).table.ballData 0 2 = 0 ∧
      (cueRemoved (0 : ℝ) 3.5 0 0 0.2).table.ballData 0 3 = 0 ∧
      (cueRemoved (0 : ℝ) 3.5 0 0 0.2).table.ballData 0 4 = 0.2 ∧
      (cueRemoved (0 : ℝ) 3.5 0 0 0.2).table.ballData 0 5 = -1 ∧
      (cueRemoved (0 : ℝ) 3.5 0 0 0.2).table.ballData 0 4 ≠ 0 ∧
      ∀ dts : List ℝ, Game.updates Real.sqrt Real.rpow dts (cueRemoved (0 : ℝ) 3.5 0 0 0.2)
        = some (cueRemoved 0 3.5 0 0 0.2) := by
  obtain ⟨h0, h1, h2, h3, h4, h5⟩ := cueRemoved_cue (0 : ℝ) 3.5 0 0 0.2
  refine ⟨cueAt_update_removed _ _ _ _ _ _ (cueAt_hitsPocket _ _ _), h0, h1, h2, h3, h4, h5,
    by rw [h4]; norm_num, ?_⟩
  intro dts
  induction dts with
  | nil => rfl
  | cons dt dts ih => rw [Game.updates, cueRemoved_update, Option.some_bind, ih]

/-! ## The passes on the initial table -/

theorem init_pass {sqrt : F → F} {pow : F → F → F} (i : Fin 7) :
    ballPass sqrt pow i (Table.init : Table F) = some Table.init := by
  apply ballPass_rest
  · rw [(init_ballData i).2.2.2.2.2]; norm_num
  · exact (init_ballData i).2.2.2.1
  · exact (init_ballData i).2.2.2.2.1
  · rintro ⟨j, hj⟩
    exact init_not_hitsPocket i j hj
  · intro j
    by_cases hji : j = i
    · exact Or.inl hji
    · exact Or.inr (Or.inr (init_not_ballsTouch i j (fun h => hji h.symm)))

theorem init_ballLoop {sqrt : F → F} {pow : F → F → F} :
    ballLoop sqrt pow (List.finRange 7) (Table.init : Table F) = some Table.init :=
  ballLoop_fixed _ _ (fun k _ => init_pass k)

theorem one_add_sq_pos (s : ℝ) : 0 < 1 + s ^ 2 := by positivity

theorem sqrt_one_add_sq_ne_zero (s : ℝ) : Real.sqrt (1 + s ^ 2) ≠ 0 :=
  (Real.sqrt_pos.mpr (one_add_sq_pos s)).ne'

theorem sqrt_one_add_slope_sq {dx : ℝ} (dy : ℝ) (hd : dx ≠ 0) :
    Real.sqrt (1 + (dy / dx) ^ 2) = Real.sqrt (dx ^ 2 + dy ^ 2) / |dx| := by
  have h : 1 + (dy / dx) ^ 2 = (dx ^ 2 + dy ^ 2) / dx ^ 2 := by
    field_simp
  rw [h, Real.sqrt_div (by positivity), Real.sqrt_sq_eq_abs]

theorem dist_pos {dx : ℝ} (dy : ℝ) (hd : dx ≠ 0) : 0 < Real.sqrt (dx ^ 2 + dy ^ 2) := by
  apply Real.sqrt_pos.mpr
  have : 0 < dx ^ 2 := by positivity
  positivity

theorem abs_mul_sign {dx : ℝ} : |dx| * (if dx > 0 then (1 : ℝ) else -1) = dx := by
  split_ifs with h
  · rw [abs_of_pos h, mul_one]
  · rw [abs_of_nonpos (not_lt.mp h)]; ring

/-- The slope-based velocity of the release in vector form. -/
theorem slope_velocity (p dy : ℝ) {dx : ℝ} (hd : dx ≠ 0) :
    p / Real.sqrt (1 + (dy / dx) ^ 2) * (if dx > 0 then 1 else -1) / 2
        = p / 2 * (dx / Real.sqrt (dx ^ 2 + dy ^ 2)) ∧
      p / Real.sqrt (1 + (dy / dx) ^ 2) * (dy / dx) * (if dx > 0 then 1 else -1) / 2
        = p / 2 * (dy / Real.sqrt (dx ^ 2 + dy ^ 2)) := by
  have hD := (dist_pos dy hd).ne'
  rw [sqrt_one_add_slope_sq dy hd]
  rcases lt_or_gt_of_ne hd with hneg | hpos
  · rw [if_neg (not_lt.mpr hneg.le), abs_of_neg hneg]
    constructor
    · field_simp
      exact Or.inl (mul_comm _ _)
    · field_simp
      ring
  · rw [if_pos hpos, abs_of_pos hpos]
    constructor
    · field_simp
      exact Or.inl (mul_comm _ _)
    · field_simp
      ring

theorem speed_of_direction (p dy : ℝ) {dx : ℝ} (hd : dx ≠ 0) :
    Real.sqrt ((p / 2 * (dx / Real.sqrt (dx ^ 2 + dy ^ 2))) ^ 2
      + (p / 2 * (dy / Real.sqrt (dx ^ 2 + dy ^ 2))) ^ 2) = |p| / 2 := by
  have hD := (dist_pos dy hd).ne'
  have hsq : Real.sqrt (dx ^ 2 + dy ^ 2) ^ 2 = dx ^ 2 + dy ^ 2 :=
    Real.sq_sqrt (by positivity)
  have h : (p / 2 * (dx / Real.sqrt (dx ^ 2 + dy ^ 2))) ^ 2
      + (p / 2 * (dy / Real.sqrt (dx ^ 2 + dy ^ 2))) ^ 2 = (p / 2) ^ 2 := by
    have e : (p / 2 * (dx / Real.sqrt (dx ^ 2 + dy ^ 2))) ^ 2
        + (p / 2 * (dy / Real.sqrt (dx ^ 2 + dy ^ 2))) ^ 2
        = (p / 2) ^ 2 * ((dx ^ 2 + dy ^ 2) / Real.sqrt (dx ^ 2 + dy ^ 2) ^ 2) := by ring
    rw [e, hsq, div_self (by rw [← hsq]; exact pow_ne_zero 2 hD), mul_one]
  rw [h, Real.sqrt_sq_eq_abs, abs_div, abs_two]

/-! ## A ball that meets no other ball -/

theorem braking_some (pow : F → F → F) (t : Table F) (i : Fin 7) :
    braking pow t i = some ((t.set i 3 (t.ballData i 3
        * pow (t.ballData i 3 ^ 2 + t.ballData i 4 ^ 2) 0.002 * 0.997)).set i 4
      (t.ballData i 4 * pow (t.ballData i 3 ^ 2 + t.ballData i 4 ^ 2) 0.002 * 0.997)) :=
  braking_eq_some.mpr ⟨not_lt.mpr (by positivity), rfl⟩

theorem wallY_after_wallX (u : Table F) (i : Fin 7) (a b : F) :
    wallY ((u.set i 3 a).set i 2 b) i ↔ wallY u i := by
  simp [wallY, Table.set_ballData]

/-- Row `i` after the two wall tests. -/
theorem touchingWall_row (u : Table F) (i : Fin 7) :
    (touchingWall u i).ballData i 0 = u.ballData i 0 ∧
      (touchingWall u i).ballData i 1 = u.ballData i 1 ∧
      (touchingWall u i).ballData i 2 = u.ballData i 2
        * (if wallX u i then -1 else 1) * (if wallY u i then -1 else 1) ∧
      (touchingWall u i).ballData i 3
        = (if wallX u i then u.ballData i 3 * (-0.5) else u.ballData i 3) ∧
      (touchingWall u i).ballData i 4
        = (if wallY u i then u.ballData i 4 * (-0.5) else u.ballData i 4) ∧
      (touchingWall u i).ballData i 5 = u.ballData i 5 := by
  simp only [touchingWall]
  by_cases hX : wallX u i
  · simp only [if_pos hX, wallY_after_wallX]
    by_cases hY : wallY u i
    · simp [if_pos hY, Table.set_ballData]
    · simp [if_neg hY, Table.set_ballData]
  · simp only [if_neg hX]
    by_cases hY : wallY u i
    · simp [if_pos hY, Table.set_ballData]
    · simp [if_neg hY, Table.set_ballData]

/-- Row `i` after integration, braking and wall reflection, in terms of the
row before. -/
theorem motion_row {pow : F → F → F} {t t2 : Table F} {i : Fin 7}
    (h : braking pow (changePosition t i) i = some t2) :
    (touchingWall t2 i).ballData i 0 = t.ballData i 0 + t.ballData i 3 ∧
      (touchingWall t2 i).ballData i 1 = t.ballData i 1 + t.ballData i 4 ∧
      (touchingWall t2 i).ballData i 2 = t.ballData i 2
        * (if xWallTrigger pow t i then -1 else 1) * (if yWallTrigger pow t i then -1 else 1) ∧
      (touchingWall t2 i).ballData i 3
        = (if xWallTrigger pow t i then dampedVx pow t i * (-0.5) else dampedVx pow t i) ∧
      (touchingWall t2 i).ballData i 4
        = (if yWallTrigger pow t i then dampedVy pow t i * (-0.5) else dampedVy pow t i) ∧
      (touchingWall t2 i).ballData i 5 = t.ballData i 5 := by
  obtain ⟨-, rfl⟩ := braking_eq_some.mp h
  have c0 := changePosition_ballData t i i 0
  have c1 := changePosition_ballData t i i 1
  have c2 := changePosition_ballData t i i 2
  have c3 := changePosition_ballData t i i 3
  have c4 := changePosition_ballData t i i 4
  have c5 := changePosition_ballData t i i 5
  simp at c0 c1 c2 c3 c4 c5
  obtain ⟨r0, r1, r2, r3, r4, r5⟩ := touchingWall_row (((changePosition t i).set i 3
      ((changePosition t i).ballData i 3
        * pow ((changePosition t i).ballData i 3 ^ 2 + (changePosition t i).ballData i 4 ^ 2)
          0.002 * 0.997)).set i 4 ((changePosition t i).ballData i 4
        * pow ((changePosition t i).ballData i 3 ^ 2 + (changePosition t i).ballData i 4 ^ 2)
          0.002 * 0.997)) i
  have hx : wallX (((changePosition t i).set i 3
      ((changePosition t i).ballData i 3
        * pow ((changePosition t i).ballData i 3 ^ 2 + (changePosition t i).ballData i 4 ^ 2)
          0.002 * 0.997)).set i 4 ((changePosition t i).ballData i 4
        * pow ((changePosition t i).ballData i 3 ^ 2 + (changePosition t i).ballData i 4 ^ 2)
          0.002 * 0.997)) i ↔ xWallTrigger pow t i := by
    simp [wallX, xWallTrigger, dampedVx, Table.set_ballData, c0, c3, c4]
  have hy : wallY (((changePosition t i).set i 3
      ((changePosition t i).ballData i 3
        * pow ((changePosition t i).ballData i 3 ^ 2 + (changePosition t i).ballData i 4 ^ 2)
          0.002 * 0.997)).set i 4 ((changePosition t i).ballData i 4
        * pow ((changePosition t i).ballData i 3 ^ 2 + (changePosition t i).ballData i 4 ^ 2)
          0.002 * 0.997)) i ↔ yWallTrigger pow t i := by
    simp [wallY, yWallTrigger, dampedVy, Table.set_ballData, c1, c3, c4]
  simp only [hx, hy] at r2 r3 r4
  rw [r0, r1, r2, r3, r4, r5]
  simp [Table.set_ballData, c0, c1, c2, c3, c4, c5, dampedVx, dampedVy]

theorem inContact_comm (a b c d : F) : inContact a b c d ↔ inContact c d a b := by
  unfold inContact
  have : (a - c) ^ 2 + (b - d) ^ 2 = (c - a) ^ 2 + (d - b) ^ 2 := by ring
  rw [this]

theorem ballLoop_append {sqrt : F → F} {pow : F → F → F} (l1 l2 : List (Fin 7)) (t : Table F) :
    ballLoop sqrt pow (l1 ++ l2) t = (ballLoop sqrt pow l1 t).bind (ballLoop sqrt pow l2) := by
  induction l1 generalizing t with
  | nil => simp [ballLoop]
  | cons k ks ih =>
    simp only [List.cons_append, ballLoop]
    cases ballPass sqrt pow k t with
    | none => rfl
    | some t1 => simp [ih]

/-- Passes of balls that do not get into contact with ball `i` leave the whole
row of ball `i` as it is.  The contact of the pass of `k` is tested at the
position of `k` after these passes and the position of `i` before them. -/
theorem ballLoop_untouched {sqrt : F → F} {pow : F → F → F} {i : Fin 7} (ks : List (Fin 7)) :
    ∀ {t t' : Table F}, ballLoop sqrt pow ks t = some t' → ks.Nodup → i ∉ ks →
      (∀ k ∈ ks, t'.ballData k 5 < 0 ∨ t.ballData i 5 < 0 ∨
        ¬ inContact (t'.ballData k 0) (t'.ballData k 1) (t.ballData i 0) (t.ballData i 1)) →
      ∀ c, t'.ballData i c = t.ballData i c := by
  induction ks with
  | nil =>
    intro t t' h _ _ _ c
    simp only [ballLoop, Option.some.injEq] at h
    rw [h]
  | cons k ks ih =>
    intro t t' h hnd hi hc c
    rw [ballLoop] at h
    obtain ⟨t1, hk, hl⟩ := Option.bind_eq_some.mp h
    obtain ⟨hknot, hnd'⟩ := List.nodup_cons.mp hnd
    have hik : i ≠ k := fun e => hi (e ▸ List.mem_cons_self _ _)
    have hi' : i ∉ ks := fun hm => hi (List.mem_cons_of_mem _ hm)
    obtain ⟨-, hf1, hrow1⟩ := ballPass_frame hk
    obtain ⟨-, hf⟩ := ballLoop_frame ks hl
    have e0 := hf k 0 hknot (Or.inl rfl)
    have e1 := hf k 1 hknot (Or.inr (Or.inl rfl))
    have e5 := hf k 5 hknot (Or.inr (Or.inr rfl))
    have i0 := hf1 i 0 hik (Or.inl rfl)
    have i1 := hf1 i 1 hik (Or.inr (Or.inl rfl))
    have i5 := hf1 i 5 hik (Or.inr (Or.inr rfl))
    have hrow : ∀ c, t1.ballData i c = t.ballData i c := by
      apply hrow1 i hik
      rcases hc k (List.mem_cons_self _ _) with h1 | h1 | h1
      · exact Or.inl (by rw [← e5]; exact h1)
      · exact Or.inr (Or.inl h1)
      · refine Or.inr (Or.inr ?_)
        intro ht
        apply h1
        rw [e0, e1, ← i0, ← i1]
        exact ht
    rw [ih hl hnd' hi' ?_ c, hrow c]
    intro m hm
    rw [i0, i1, i5]
    exact hc m (List.mem_cons_of_mem _ hm)

/-- The pass of an alive ball that hits no pocket and gets into contact with
no alive ball is integration, braking and wall reflection. -/
theorem ballPass_no_contact {sqrt : F → F} {pow : F → F → F} {t t1 : Table F} {i : Fin 7}
    (h : ballPass sqrt pow i t = some t1) (ha : ¬ t.ballData i 5 < 0)
    (hp : ¬ ∃ j, hitsPocket t i j)
    (hc : ∀ j, j ≠ i → t.ballData j 5 < 0 ∨
      ¬ inContact (t1.ballData i 0) (t1.ballData i 1) (t.ballData j 0) (t.ballData j 1)) :
    ∃ t2, braking pow (changePosition t i) i = some t2 ∧ t1 = touchingWall t2 i := by
  rw [ballPass_moved ha hp] at h
  obtain ⟨t2, hb, hl⟩ := Option.bind_eq_some.mp h
  refine ⟨t2, hb, ?_⟩
  obtain ⟨-, hrow, -, -⟩ := motion_frame hb
  obtain ⟨-, hpos, -⟩ := touchingBall_frame _ hl
  have hnone : touchingBall sqrt i (List.finRange 7) (touchingWall t2 i)
      = some (touchingWall t2 i) := by
    apply touchingBall_none
    intro j _
    by_cases hji : j = i
    · exact Or.inl hji
    · rcases hc j hji with h1 | h1
      · exact Or.inr (Or.inl (by rw [hrow j 5 (Or.inl hji)]; exact h1))
      · refine Or.inr (Or.inr ?_)
        intro ht
        apply h1
        rw [hpos i 0 (Or.inl rfl), hpos i 1 (Or.inr (Or.inl rfl)),
          ← hrow j 0 (Or.inl hji), ← hrow j 1 (Or.inl hji)]
        exact ht
  rw [hnone, Option.some.injEq] at hl
  exact hl.symm

/-- The row of an alive ball `i` after the loop over the balls, when the ball
hits no pocket and no contact test between `i` and another alive ball
succeeds during the loop. -/
theorem ballLoop_isolated {sqrt : F → F} {pow : F → F → F} {t t' : Table F} {i : Fin 7}
    (h : ballLoop sqrt pow (List.finRange 7) t = some t') (ha : ¬ t.ballData i 5 < 0)
    (hp : ¬ ∃ j, hitsPocket t i j)
    (hiso : ∀ j, j ≠ i →
      (t.ballData j 5 < 0 ∨
        ¬ inContact (t'.ballData i 0) (t'.ballData i 1) (t.ballData j 0) (t.ballData j 1)) ∧
      (t'.ballData j 5 < 0 ∨
        (¬ inContact (t'.ballData j 0) (t'.ballData j 1) (t.ballData i 0) (t.ballData i 1) ∧
          ¬ inContact (t'.ballData i 0) (t'.ballData i 1) (t'.ballData j 0)
            (t'.ballData j 1)))) :
    t'.ballData i 0 = t.ballData i 0 + t.ballData i 3 ∧
      t'.ballData i 1 = t.ballData i 1 + t.ballData i 4 ∧
      t'.ballData i 2 = t.ballData i 2
        * (if xWallTrigger pow t i then -1 else 1) * (if yWallTrigger pow t i then -1 else 1) ∧
      t'.ballData i 3
        = (if xWallTrigger pow t i then dampedVx pow t i * (-0.5) else dampedVx pow t i) ∧
      t'.ballData i 4
        = (if yWallTrigger pow t i then dampedVy pow t i * (-0.5) else dampedVy pow t i) ∧
      t'.ballData i 5 = t.ballData i 5 := by
  obtain ⟨l1, l2, hsplit⟩ := List.append_of_mem (List.mem_finRange i)
  have hnd : (l1 ++ i :: l2).Nodup := hsplit ▸ List.nodup_finRange 7
  rw [hsplit, ballLoop_append] at h
  obtain ⟨s1, h1, h23⟩ := Option.bind_eq_some.mp h
  rw [ballLoop] at h23
  obtain ⟨s2, h2, h3⟩ := Option.bind_eq_some.mp h23
  obtain ⟨hnd1, hnd2', hdisj⟩ := List.nodup_append.mp hnd
  obtain ⟨hi2, hnd2⟩ := List.nodup_cons.mp hnd2'
  have hi1 : i ∉ l1 := fun hm => hdisj hm (List.mem_cons_self _ _)
  have hl12 : ∀ k ∈ l1, k ∉ l2 := fun k hk hk2 => hdisj hk (List.mem_cons_of_mem _ hk2)
  -- frames of the three phases
  obtain ⟨hq1, hf1⟩ := ballLoop_frame l1 h1
  obtain ⟨-, hf2, -⟩ := ballPass_frame h2
  obtain ⟨-, hf3⟩ := ballLoop_frame l2 h3
  have hc0 : ∀ c : Fin 6, c = 0 ∨ c = 1 ∨ c = 5 → c = 0 ∨ c = 1 ∨ c = 5 := fun _ h => h
  -- a ball of the first phase has its final position and flag after that phase
  have hfinal1 : ∀ k ∈ l1, ∀ c, c = 0 ∨ c = 1 ∨ c = 5 → t'.ballData k c = s1.ballData k c := by
    intro k hk c hcc
    have hki : k ≠ i := fun e => hi1 (e ▸ hk)
    rw [hf3 k c (hl12 k hk) hcc, hf2 k c hki hcc]
  -- ball `i` has its final position and flag after its own pass
  have hfinali : ∀ c, c = 0 ∨ c = 1 ∨ c = 5 → t'.ballData i c = s2.ballData i c :=
    fun c hcc => hf3 i c hi2 hcc
  -- phase 1
  have hrow1 : ∀ c, s1.ballData i c = t.ballData i c := by
    apply ballLoop_untouched l1 h1 hnd1 hi1
    intro k hk
    have hki : k ≠ i := fun e => hi1 (e ▸ hk)
    rcases (hiso k hki).2 with h5 | ⟨hc, -⟩
    · exact Or.inl (by rw [← hfinal1 k hk 5 (Or.inr (Or.inr rfl))]; exact h5)
    · refine Or.inr (Or.inr ?_)
      rw [← hfinal1 k hk 0 (Or.inl rfl), ← hfinal1 k hk 1 (Or.inr (Or.inl rfl))]
      exact hc
  -- phase 2
  have ha1 : ¬ s1.ballData i 5 < 0 := by rw [hrow1 5]; exact ha
  have hp1 : ¬ ∃ j, hitsPocket s1 i j := by
    rintro ⟨j, hj⟩
    exact hp ⟨j, (hitsPocket_congr hq1 (hrow1 0) (hrow1 1) j).mp hj⟩
  obtain ⟨t2, hb, hs2⟩ := ballPass_no_contact h2 ha1 hp1 (by
    intro j hji
    rw [← hfinali 0 (Or.inl rfl), ← hfinali 1 (Or.inr (Or.inl rfl))]
    by_cases hj1 : j ∈ l1
    · rw [← hfinal1 j hj1 0 (Or.inl rfl), ← hfinal1 j hj1 1 (Or.inr (Or.inl rfl)),
        ← hfinal1 j hj1 5 (Or.inr (Or.inr rfl))]
      rcases (hiso j hji).2 with h5 | ⟨-, hc⟩
      · exact Or.inl h5
      · exact Or.inr hc
    · rw [hf1 j 0 hj1 (Or.inl rfl), hf1 j 1 hj1 (Or.inr (Or.inl rfl)),
        hf1 j 5 hj1 (Or.inr (Or.inr rfl))]
      exact (hiso j hji).1)
  -- phase 3
  have hrow3 : ∀ c, t'.ballData i c = s2.ballData i c := by
    apply ballLoop_untouched l2 h3 hnd2 hi2
    intro k hk
    have hki : k ≠ i := fun e => hi2 (e ▸ hk)
    rcases (hiso k hki).2 with h5 | ⟨-, hc⟩
    · exact Or.inl h5
    · refine Or.inr (Or.inr ?_)
      rw [← hfinali 0 (Or.inl rfl), ← hfinali 1 (Or.inr (Or.inl rfl))]
      exact fun hcc => hc ((inContact_comm _ _ _ _).mp hcc)
  -- the row after the pass of `i`
  obtain ⟨r0, r1, r2, r3, r4, r5⟩ := motion_row hb
  have hx : xWallTrigger pow s1 i ↔ xWallTrigger pow t i := by
    simp only [xWallTrigger, dampedVx, hrow1]
  have hy : yWallTrigger pow s1 i ↔ yWallTrigger pow t i := by
    simp only [yWallTrigger, dampedVy, hrow1]
  simp only [hx, hy, dampedVx, dampedVy, hrow1] at r0 r1 r2 r3 r4 r5
  simp only [hrow3, hs2, dampedVx, dampedVy]
  exact ⟨r0, r1, r2, r3, r4, r5⟩

/-! ## The collision exchange over the reals -/

/-- The exchange between two balls with different X coordinates is defined;
its effect field by field. -/
theorem exchange_fields (t : Table ℝ) (i j : Fin 7) (hx : t.ballData i 0 ≠ t.ballData j 0) :
    ∃ t', exchange Real.sqrt t i j = some t' ∧
      t'.ballData i 2 = (t.ballData i 1 - t.ballData j 1) / (t.ballData i 0 - t.ballData j 0) ∧
      t'.ballData j 2 = (t.ballData i 1 - t.ballData j 1) / (t.ballData i 0 - t.ballData j 0) ∧
      t'.ballData j 3 = (t.ballData j 3
        - Real.sqrt (t.ballData i 3 ^ 2 + t.ballData i 4 ^ 2)
          / Real.sqrt (1 + ((t.ballData i 1 - t.ballData j 1)
            / (t.ballData i 0 - t.ballData j 0)) ^ 2)
          * (if t.ballData i 0 - t.ballData j 0 > 0 then 1 else -1)) * 0.8 ∧
      t'.ballData j 4 = (t.ballData j 4
        - Real.sqrt (t.ballData i 3 ^ 2 + t.ballData i 4 ^ 2)
          / Real.sqrt (1 + ((t.ballData i 1 - t.ballData j 1)
            / (t.ballData i 0 - t.ballData j 0)) ^ 2)
          * ((t.ballData i 1 - t.ballData j 1) / (t.ballData i 0 - t.ballData j 0))
          * (if t.ballData i 0 - t.ballData j 0 > 0 then 1 else -1)) * 0.8 ∧
      t'.ballData i 3 = (t.ballData i 3
        - Real.sqrt (t.ballData i 3 ^ 2 + t.ballData i 4 ^ 2)
          / Real.sqrt (1 + ((t.ballData i 1 - t.ballData j 1)
            / (t.ballData i 0 - t.ballData j 0)) ^ 2)
          * (if t.ballData j 0 - t.ballData i 0 < 0 then -1 else 1)) * 0.8 ∧
      t'.ballData i 4 = (t.ballData i 4
        - Real.sqrt (t.ballData i 3 ^ 2 + t.ballData i 4 ^ 2)
          / Real.sqrt (1 + ((t.ballData i 1 - t.ballData j 1)
            / (t.ballData i 0 - t.ballData j 0)) ^ 2)
          * ((t.ballData i 1 - t.ballData j 1) / (t.ballData i 0 - t.ballData j 0))
          * (if t.ballData j 0 - t.ballData i 0 < 0 then -1 else 1)) * 0.8 := by
  have hij : i ≠ j := fun e => hx (e ▸ rfl)
  have hji : j ≠ i := fun e => hij e.symm
  have hd : t.ballData i 0 - t.ballData j 0 ≠ 0 := sub_ne_zero.mpr hx
  have hs := sqrt_one_add_sq_ne_zero
    ((t.ballData i 1 - t.ballData j 1) / (t.ballData i 0 - t.ballData j 0))
  have hp := not_lt.mpr (one_add_sq_pos
    ((t.ballData i 1 - t.ballData j 1) / (t.ballData i 0 - t.ballData j 0))).le
  have hv : ¬ t.ballData i 3 ^ 2 + t.ballData i 4 ^ 2 < 0 := not_lt.mpr (by positivity)
  simp [exchange, contactSlope, pushPartner, pushSelf, retain, fdiv, fsqrt, hd, hs, hp, hv,
    Table.set_ballData, hij, hji]

/-! ## A table at rest -/

/-- For a resting ball, integration, braking and wall reflection change
nothing. -/
theorem motion_rest (pow : F → F → F) {t : Table F} {i : Fin 7}
    (h3 : t.ballData i 3 = 0) (h4 : t.ballData i 4 = 0) :
    changePosition t i = t ∧ braking pow t i = some t ∧ touchingWall t i = t := by
  refine ⟨?_, ?_, ?_⟩
  · have e0 : t.ballData i 0 + t.ballData i 3 = t.ballData i 0 := by rw [h3, add_zero]
    simp only [changePosition]
    rw [e0, Table.set_self]
    have e1 : t.ballData i 1 + t.ballData i 4 = t.ballData i 1 := by rw [h4, add_zero]
    rw [e1, Table.set_self]
  · rw [braking_eq_some]
    refine ⟨by simp [h3, h4], ?_⟩
    have e3 : t.ballData i 3 * pow (t.ballData i 3 ^ 2 + t.ballData i 4 ^ 2) 0.002 * 0.997
        = t.ballData i 3 := by rw [h3]; simp
    have e4 : t.ballData i 4 * pow (t.ballData i 3 ^ 2 + t.ballData i 4 ^ 2) 0.002 * 0.997
        = t.ballData i 4 := by rw [h4]; simp
    rw [e3, Table.set_self, e4, Table.set_self]
  · have hx : ¬ wallX t i := by simp [wallX, h3]
    have hy : ¬ wallY t i := by simp [wallY, h4]
    simp only [touchingWall, if_neg hx, if_neg hy]

/-- The pass of a resting alive ball that hits no pocket is its collision loop. -/
theorem ballPass_resting {sqrt : F → F} {pow : F → F → F} {t : Table F} {i : Fin 7}
    (ha : ¬ t.ballData i 5 < 0) (h3 : t.ballData i 3 = 0) (h4 : t.ballData i 4 = 0)
    (hp : ¬ ∃ j, hitsPocket t i j) :
    ballPass sqrt pow i t = touchingBall sqrt i (List.finRange 7) t := by
  obtain ⟨hm, hb, hw⟩ := motion_rest pow h3 h4
  rw [ballPass_moved ha hp, hm, hb, Option.some_bind, hw]

/-- The exchange between two resting balls with different X coordinates
changes nothing but the slopes. -/
theorem exchange_rest (t : Table ℝ) (i j : Fin 7) (hx : t.ballData i 0 ≠ t.ballData j 0)
    (hi3 : t.ballData i 3 = 0) (hi4 : t.ballData i 4 = 0)
    (hj3 : t.ballData j 3 = 0) (hj4 : t.ballData j 4 = 0) :
    ∃ t', exchange Real.sqrt t i j = some t' ∧ t'.pocketData = t.pocketData ∧
      ∀ k c, c ≠ 2 → t'.ballData k c = t.ballData k c := by
  obtain ⟨t', he, -, -, f3, f4, f5, f6⟩ := exchange_fields t i j hx
  obtain ⟨hq, hf⟩ := exchange_frame he
  refine ⟨t', he, hq, ?_⟩
  have hv : Real.sqrt (t.ballData i 3 ^ 2 + t.ballData i 4 ^ 2) = 0 := by
    rw [hi3, hi4]; simp
  rw [hv, hj3] at f3
  rw [hv, hj4] at f4
  rw [hv, hi3] at f5
  rw [hv, hi4] at f6
  simp only [zero_div, zero_mul, sub_zero] at f3 f4 f5 f6
  intro k c hc
  by_cases hk : k ≠ i ∧ k ≠ j
  · exact hf k c (Or.inl hk)
  · have hk' : k = i ∨ k = j := by
      by_contra hcon
      exact hk ⟨fun e => hcon (Or.inl e), fun e => hcon (Or.inr e)⟩
    fin_cases c
    · exact hf k 0 (Or.inr (Or.inl rfl))
    · exact hf k 1 (Or.inr (Or.inr (Or.inl rfl)))
    · exact absurd rfl hc
    · rcases hk' with rfl | rfl
      · exact f5.trans hi3.symm
      · exact f3.trans hj3.symm
    · rcases hk' with rfl | rfl
      · exact f6.trans hi4.symm
      · exact f4.trans hj4.symm
    · exact hf k 5 (Or.inr (Or.inr (Or.inr rfl)))

/-- On a table at rest the collision loop is defined as long as no contact is
vertical, and it changes nothing but slopes. -/
theorem touchingBall_rest {i : Fin 7} (js : List (Fin 7)) :
    ∀ (t : Table ℝ), (∀ k, t.ballData k 3 = 0 ∧ t.ballData k 4 = 0) →
      (∀ j ∈ js, j ≠ i → ¬ t.ballData j 5 < 0 → ballsTouch t i j →
        t.ballData i 0 ≠ t.ballData j 0) →
      ∃ t', touchingBall Real.sqrt i js t = some t' ∧ t'.pocketData = t.pocketData ∧
        ∀ k c, c ≠ 2 → t'.ballData k c = t.ballData k c := by
  induction js with
  | nil => intro t _ _; exact ⟨t, rfl, rfl, fun _ _ _ => rfl⟩
  | cons j js ih =>
    intro t hrest hv
    have hv' : ∀ m ∈ js, m ≠ i → ¬ t.ballData m 5 < 0 → ballsTouch t i m →
        t.ballData i 0 ≠ t.ballData m 0 := fun m hm => hv m (List.mem_cons_of_mem _ hm)
    rw [touchingBall]
    split_ifs with h1 h2
    · exact ih t hrest hv'
    · have hji : j ≠ i := fun e => h1 (Or.inl e.symm)
      have ha : ¬ t.ballData j 5 < 0 := fun e => h1 (Or.inr e)
      obtain ⟨t1, he, hq1, hs1⟩ := exchange_rest t i j (hv j (List.mem_cons_self _ _) hji ha h2)
        (hrest i).1 (hrest i).2 (hrest j).1 (hrest j).2
      rw [he, Option.some_bind]
      have c0 : ∀ k, t1.ballData k 0 = t.ballData k 0 := fun k => hs1 k 0 (by decide)
      have c1 : ∀ k, t1.ballData k 1 = t.ballData k 1 := fun k => hs1 k 1 (by decide)
      have c3 : ∀ k, t1.ballData k 3 = t.ballData k 3 := fun k => hs1 k 3 (by decide)
      have c4 : ∀ k, t1.ballData k 4 = t.ballData k 4 := fun k => hs1 k 4 (by decide)
      have c5 : ∀ k, t1.ballData k 5 = t.ballData k 5 := fun k => hs1 k 5 (by decide)
      obtain ⟨t', hl, hq, hs⟩ := ih t1 (fun k => by rw [c3, c4]; exact hrest k) (by
        intro m hm hmi hma hmt
        rw [c0, c0]
        rw [c5] at hma
        simp only [ballsTouch, c0, c1] at hmt
        exact hv' m hm hmi hma hmt)
      exact ⟨t', hl, hq.trans hq1, fun k c hc => (hs k c hc).trans (hs1 k c hc)⟩
    · exact ih t hrest hv'

/-- On a table at rest where no alive ball hits a pocket and no contact is
vertical, a pass is defined and changes nothing but slopes. -/
theorem ballPass_settled (pow : ℝ → ℝ → ℝ) (t : Table ℝ) (i : Fin 7)
    (hrest : ∀ k, t.ballData k 3 = 0 ∧ t.ballData k 4 = 0)
    (hpocket : ¬ t.ballData i 5 < 0 → ¬ ∃ j, hitsPocket t i j)
    (hvert : ∀ j, j ≠ i → ¬ t.ballData i 5 < 0 → ¬ t.ballData j 5 < 0 → ballsTouch t i j →
      t.ballData i 0 ≠ t.ballData j 0) :
    ∃ t', ballPass Real.sqrt pow i t = some t' ∧ t'.pocketData = t.pocketData ∧
      ∀ k c, c ≠ 2 → t'.ballData k c = t.ballData k c := by
  by_cases ha : t.ballData i 5 < 0
  · exact ⟨t, ballPass_skip ha, rfl, fun _ _ _ => rfl⟩
  · rw [ballPass_resting ha (hrest i).1 (hrest i).2 (hpocket ha)]
    exact touchingBall_rest _ t hrest (fun j _ hji => hvert j hji ha)

theorem ballLoop_settled (pow : ℝ → ℝ → ℝ) (ks : List (Fin 7)) :
    ∀ (t : Table ℝ), (∀ k, t.ballData k 3 = 0 ∧ t.ballData k 4 = 0) →
      (∀ i, ¬ t.ballData i 5 < 0 → ¬ ∃ j, hitsPocket t i j) →
      (∀ i j, j ≠ i → ¬ t.ballData i 5 < 0 → ¬ t.ballData j 5 < 0 → ballsTouch t i j →
        t.ballData i 0 ≠ t.ballData j 0) →
      ∃ t', ballLoop Real.sqrt pow ks t = some t' ∧ t'.pocketData = t.pocketData ∧
        ∀ k c, c ≠ 2 → t'.ballData k c = t.ballData k c := by
  induction ks with
  | nil => intro t _ _ _; exact ⟨t, rfl, rfl, fun _ _ _ => rfl⟩
  | cons i ks ih =>
    intro t hrest hpocket hvert
    obtain ⟨t1, h1, hq1, hs1⟩ := ballPass_settled pow t i hrest (hpocket i)
      (fun j hji => hvert i j hji)
    have c0 : ∀ k, t1.ballData k 0 = t.ballData k 0 := fun k => hs1 k 0 (by decide)
    have c1 : ∀ k, t1.ballData k 1 = t.ballData k 1 := fun k => hs1 k 1 (by decide)
    have c3 : ∀ k, t1.ballData k 3 = t.ballData k 3 := fun k => hs1 k 3 (by decide)
    have c4 : ∀ k, t1.ballData k 4 = t.ballData k 4 := fun k => hs1 k 4 (by decide)
    have c5 : ∀ k, t1.ballData k 5 = t.ballData k 5 := fun k => hs1 k 5 (by decide)
    obtain ⟨t', hl, hq, hs⟩ := ih t1 (fun k => by rw [c3, c4]; exact hrest k)
      (by
        intro m hma
        rw [c5] at hma
        rintro ⟨j, hj⟩
        exact hpocket m hma ⟨j, (hitsPocket_congr hq1 (c0 m) (c1 m) j).mp hj⟩)
      (by
        intro m j hjm hma hja hmt
        rw [c0, c0]
        rw [c5] at hma hja
        simp only [ballsTouch, c0, c1] at hmt
        exact hvert m j hjm hma hja hmt)
    refine ⟨t', ?_, hq.trans hq1, fun k c hc => (hs k c hc).trans (hs1 k c hc)⟩
    rw [ballLoop, h1, Option.some_bind, hl]

/-- On a table at rest where no alive ball hits a pocket and no contact is
vertical, every sequence of updates is defined and changes nothing but slopes
and the charge. -/
theorem updates_settled (pow : ℝ → ℝ → ℝ) (dts : List ℝ) :
    ∀ (g : Game ℝ), (∀ k, g.table.ballData k 3 = 0 ∧ g.table.ballData k 4 = 0) →
      (∀ i, ¬ g.table.ballData i 5 < 0 → ¬ ∃ j, hitsPocket g.table i j) →
      (∀ i j, j ≠ i → ¬ g.table.ballData i 5 < 0 → ¬ g.table.ballData j 5 < 0 →
        ballsTouch g.table i j → g.table.ballData i 0 ≠ g.table.ballData j 0) →
      ∃ g', Game.updates Real.sqrt pow dts g = some g' ∧
        g'.table.pocketData = g.table.pocketData ∧
        ∀ k c, c ≠ 2 → g'.table.ballData k c = g.table.ballData k c := by
  induction dts with
  | nil => intro g _ _ _; exact ⟨g, rfl, rfl, fun _ _ _ => rfl⟩
  | cons dt dts ih =>
    intro g hrest hpocket hvert
    obtain ⟨t1, h1, hq1, hs1⟩ := ballLoop_settled pow (List.finRange 7) g.table hrest
      hpocket hvert
    have hu : Game.update Real.sqrt pow dt g = some
        { table := t1, isChargingShot := g.isChargingShot,
          shotChargeProgress := Game.chargeTick dt g } :=
      update_eq_some.mpr ⟨t1, h1, rfl⟩
    have c0 : ∀ k, t1.ballData k 0 = g.table.ballData k 0 := fun k => hs1 k 0 (by decide)
    have c1 : ∀ k, t1.ballData k 1 = g.table.ballData k 1 := fun k => hs1 k 1 (by decide)
    have c3 : ∀ k, t1.ballData k 3 = g.table.ballData k 3 := fun k => hs1 k 3 (by decide)
    have c4 : ∀ k, t1.ballData k 4 = g.table.ballData k 4 := fun k => hs1 k 4 (by decide)
    have c5 : ∀ k, t1.ballData k 5 = g.table.ballData k 5 := fun k => hs1 k 5 (by decide)
    obtain ⟨g', hl, hq, hs⟩ := ih
      { table := t1, isChargingShot := g.isChargingShot,
        shotChargeProgress := Game.chargeTick dt g }
      (fun k => by
        show t1.ballData k 3 = 0 ∧ t1.ballData k 4 = 0
        rw [c3, c4]; exact hrest k)
      (by
        intro m hma
        change ¬ t1.ballData m 5 < 0 at hma
        rw [c5] at hma
        rintro ⟨j, hj⟩
        exact hpocket m hma ⟨j, (hitsPocket_congr hq1 (c0 m) (c1 m) j).mp hj⟩)
      (by
        intro m j hjm hma hja hmt
        change ¬ t1.ballData m 5 < 0 at hma
        change ¬ t1.ballData j 5 < 0 at hja
        change ballsTouch t1 m j at hmt
        show t1.ballData m 0 ≠ t1.ballData j 0
        rw [c0, c0]
        rw [c5] at hma hja
        simp only [ballsTouch, c0, c1] at hmt
        exact hvert m j hjm hma hja hmt)
    refine ⟨g', ?_, hq.trans hq1, fun k c hc => (hs k c hc).trans (hs1 k c hc)⟩
    rw [Game.updates, hu, Option.some_bind, hl]

theorem cueAt_rest (x y s : F) (i : Fin 7) :
    (cueAt x y s 0 0).table.ballData i 3 = 0 ∧ (cueAt x y s 0 0).table.ballData i 4 = 0 := by
  by_cases hi : i = 0
  · subst hi
    exact ⟨(cueAt_cue x y s 0 0).2.2.2.1, (cueAt_cue x y s 0 0).2.2.2.2.1⟩
  · rw [cueAt_ballData x y s 0 0 i hi, cueAt_ballData x y s 0 0 i hi]
    exact ⟨(init_ballData i).2.2.2.1, (init_ballData i).2.2.2.2.1⟩

theorem cueAt_alive (x y s vx vy : F) (i : Fin 7) : (cueAt x y s vx vy).table.ballData i 5 = 1 := by
  by_cases hi : i = 0
  · subst hi
    exact (cueAt_cue x y s vx vy).2.2.2.2.2
  · rw [cueAt_ballData x y s vx vy i hi]
    exact (init_ballData i).2.2.2.2.2

/-- The exchange between two balls with the same X coordinate is undefined. -/
theorem exchange_vertical {sqrt : F → F} (t : Table F) (i j : Fin 7)
    (hx : t.ballData i 0 = t.ballData j 0) : exchange sqrt t i j = none := by
  simp [exchange, contactSlope, fdiv, hx]

theorem cueAt_update_vertical {sqrt : F → F} {pow : F → F → F} (dt : F) :
    Game.update sqrt pow dt (cueAt (3 : F) 0.5 0 0 0) = none := by
  obtain ⟨c0, c1, -, c3, c4, c5⟩ := cueAt_cue (3 : F) 0.5 0 0 0
  obtain ⟨b0, b1, -⟩ := ballsPositions_eq (F := F)
  have o0 : (cueAt (3 : F) 0.5 0 0 0).table.ballData 1 0 = 0.2 * 15 := by
    rw [cueAt_ballData _ _ _ _ _ 1 (by decide), (init_ballData 1).1, b1]
  have o1 : (cueAt (3 : F) 0.5 0 0 0).table.ballData 1 1 = 0 := by
    rw [cueAt_ballData _ _ _ _ _ 1 (by decide), (init_ballData 1).2.1, b1]
  have ha : ¬ (cueAt (3 : F) 0.5 0 0 0).table.ballData 0 5 < 0 := by rw [c5]; norm_num
  have hp : ¬ ∃ j, hitsPocket (cueAt (3 : F) 0.5 0 0 0).table 0 j := by
    obtain ⟨p0, p1, p2, p3, p4, p5⟩ := pocketsPositions_eq (F := F)
    rintro ⟨j, hj⟩
    simp only [hitsPocket, c0, c1, cueAt_pocketData] at hj
    fin_cases j <;> simp only [Fin.zero_eta, Fin.mk_one, Fin.reduceFinMk] at hj <;>
      simp only [p0, p1, p2, p3, p4, p5] at hj <;> norm_num at hj
  have htouch : ballsTouch (cueAt (3 : F) 0.5 0 0 0).table 0 1 := by
    simp only [ballsTouch, c0, c1, o0, o1]
    norm_num
  have hpass : ballPass sqrt pow 0 (cueAt (3 : F) 0.5 0 0 0).table = none := by
    rw [ballPass_resting ha c3 c4 hp, finRange_seven, touchingBall, if_pos (Or.inl rfl),
      touchingBall, if_neg, if_pos htouch, exchange_vertical _ _ _ (by rw [c0, o0]; norm_num)]
    · rfl
    · rintro (h | h)
      · exact absurd h (by decide)
      · rw [cueAt_alive] at h
        norm_num at h
  simp [Game.update, finRange_seven, ballLoop, hpass]

theorem cueAt_not_hitsPocket (i : Fin 7) (j : Fin 6) :
    ¬ hitsPocket (cueAt (3.4 : F) 0.3 0 0 0).table i j := by
  by_cases hi : i = 0
  · subst hi
    obtain ⟨c0, c1, -⟩ := cueAt_cue (3.4 : F) 0.3 0 0 0
    obtain ⟨p0, p1, p2, p3, p4, p5⟩ := pocketsPositions_eq (F := F)
    simp only [hitsPocket, c0, c1, cueAt_pocketData]
    fin_cases j <;> simp only [Fin.zero_eta, Fin.mk_one, Fin.reduceFinMk] <;>
      simp only [p0, p1, p2, p3, p4, p5] <;> norm_num
  · intro h
    have hc : hitsPocket (cueAt (3.4 : F) 0.3 0 0 0).table i j ↔
        hitsPocket (Table.init : Table F) i j :=
      hitsPocket_congr (by rfl) (cueAt_ballData _ _ _ _ _ i hi 0) (cueAt_ballData _ _ _ _ _ i hi 1) j
    exact init_not_hitsPocket i j (hc.mp h)

theorem cueAt_not_vertical (i j : Fin 7) (hij : i ≠ j)
    (ht : ballsTouch (cueAt (3.4 : F) 0.3 0 0 0).table i j) :
    (cueAt (3.4 : F) 0.3 0 0 0).table.ballData i 0 ≠ (cueAt (3.4 : F) 0.3 0 0 0).table.ballData j 0 := by
  obtain ⟨b0, b1, b2, b3, b4, b5, b6⟩ := ballsPositions_eq (F := F)
  have c0 := (cueAt_cue (3.4 : F) 0.3 0 0 0).1
  have hx : ∀ m : Fin 7, m ≠ 0 → (cueAt (3.4 : F) 0.3 0 0 0).table.ballData m 0 ≠ 3.4 := by
    intro m hm
    rw [cueAt_ballData _ _ _ _ _ m hm, (init_ballData m).1]
    fin_cases m <;> simp only [Fin.zero_eta, Fin.mk_one, Fin.reduceFinMk] <;>
      first
      | exact absurd rfl hm
      | (simp only [b1, b2, b3, b4, b5, b6]; norm_num)
  by_cases hi : i = 0
  · subst hi
    rw [c0]
    exact fun e => hx j (fun e' => hij e'.symm) e.symm
  · by_cases hj : j = 0
    · subst hj
      rw [c0]
      exact hx i hi
    · exfalso
      apply init_not_ballsTouch (F := F) i j hij
      simpa only [ballsTouch, cueAt_ballData _ _ _ _ _ i hi, cueAt_ballData _ _ _ _ _ j hj]
        using ht

/-! ## The cue ball moving among the resting object balls -/

/-- On the table `cueAt x y s vx vy`, when the cue ball hits no pocket and its
integrated position is not in contact with an object ball, the update is
defined, the cue ball moves to `(x + vx, y + vy)` and stays alive, and the
object balls do not change. -/
theorem cueAt_update_free (sqrt : F → F) (pow : F → F → F) (dt x y s vx vy : F)
    (hpocket : ¬ ∃ j, hitsPocket (cueAt x y s vx vy).table 0 j)
    (hfree : ∀ j : Fin 7, j ≠ 0 → ¬ inContact (x + vx) (y + vy)
      ((Table.init : Table F).ballData j 0) ((Table.init : Table F).ballData j 1)) :
    ∃ g', Game.update sqrt pow dt (cueAt x y s vx vy) = some g' ∧
      (∀ j, j ≠ 0 → ∀ c, g'.table.ballData j c = (Table.init : Table F).ballData j c) ∧
      g'.table.ballData 0 0 = x + vx ∧ g'.table.ballData 0 1 = y + vy ∧
      g'.table.ballData 0 5 = 1 := by
  obtain ⟨c0, c1, -, c3, c4, c5⟩ := cueAt_cue x y s vx vy
  have ha : ¬ (cueAt x y s vx vy).table.ballData 0 5 < 0 := by rw [c5]; norm_num
  have hb := braking_some pow (changePosition (cueAt x y s vx vy).table 0) 0
  obtain ⟨hq, hrow, hx, hy⟩ := motion_frame hb
  rw [c0, c3] at hx
  rw [c1, c4] at hy
  -- the table after the pass of the cue ball
  obtain ⟨s1, hs1⟩ : ∃ s1, s1 = touchingWall (((changePosition (cueAt x y s vx vy).table 0).set 0
      3 ((changePosition (cueAt x y s vx vy).table 0).ballData 0 3
        * pow ((changePosition (cueAt x y s vx vy).table 0).ballData 0 3 ^ 2
          + (changePosition (cueAt x y s vx vy).table 0).ballData 0 4 ^ 2) 0.002 * 0.997)).set 0
      4 ((changePosition (cueAt x y s vx vy).table 0).ballData 0 4
        * pow ((changePosition (cueAt x y s vx vy).table 0).ballData 0 3 ^ 2
          + (changePosition (cueAt x y s vx vy).table 0).ballData 0 4 ^ 2) 0.002 * 0.997)) 0 :=
    ⟨_, rfl⟩
  rw [← hs1] at hq hrow hx hy
  have hobj : ∀ j, j ≠ 0 → ∀ c, s1.ballData j c = (Table.init : Table F).ballData j c := by
    intro j hj c
    rw [hrow j c (Or.inl hj), cueAt_ballData x y s vx vy j hj]
  have h5 : s1.ballData 0 5 = 1 := by rw [hrow 0 5 (Or.inr rfl), c5]
  have hpass0 : ballPass sqrt pow 0 (cueAt x y s vx vy).table = some s1 := by
    rw [ballPass_moved ha hpocket, hb, Option.some_bind, ← hs1]
    apply touchingBall_none
    intro j _
    by_cases hj : j = 0
    · exact Or.inl hj
    · refine Or.inr (Or.inr ?_)
      simp only [ballsTouch, hx, hy, hobj j hj]
      exact hfree j hj
  have hpassk : ∀ k ∈ ([1, 2, 3, 4, 5, 6] : List (Fin 7)), ballPass sqrt pow k s1 = some s1 := by
    intro k hk
    have hk0 : k ≠ 0 := by
      rintro rfl
      simp at hk
    apply ballPass_rest
    · rw [hobj k hk0, (init_ballData k).2.2.2.2.2]; norm_num
    · rw [hobj k hk0, (init_ballData k).2.2.2.1]
    · rw [hobj k hk0, (init_ballData k).2.2.2.2.1]
    · rintro ⟨j, hj⟩
      have hc : hitsPocket s1 k j ↔ hitsPocket (Table.init : Table F) k j :=
        hitsPocket_congr (by rw [hq]; rfl) (hobj k hk0 0) (hobj k hk0 1) j
      exact init_not_hitsPocket k j (hc.mp hj)
    · intro j
      by_cases hjk : j = k
      · exact Or.inl hjk
      · refine Or.inr (Or.inr ?_)
        by_cases hj : j = 0
        · subst hj
          simp only [ballsTouch, hx, hy, hobj k hk0]
          exact fun hc => hfree k hk0 ((inContact_comm _ _ _ _).mp hc)
        · intro ht
          apply init_not_ballsTouch (F := F) k j (fun e => hjk e.symm)
          simpa only [ballsTouch, hobj k hk0, hobj j hj] using ht
  refine ⟨{ table := s1, isChargingShot := (cueAt x y s vx vy).isChargingShot,
            shotChargeProgress := Game.chargeTick dt (cueAt x y s vx vy) }, ?_, hobj, hx, hy, h5⟩
  rw [update_eq_some]
  refine ⟨s1, ?_, rfl⟩
  rw [finRange_seven, ballLoop, hpass0, Option.some_bind]
  exact ballLoop_fixed _ _ hpassk

/-- The row of an alive ball `i` after an update in which it is not pocketed
and no contact test between `i` and another alive ball succeeds. -/
theorem update_isolated {sqrt : F → F} {pow : F → F → F} {dt : F} {g g' : Game F} {i : Fin 7}
    (h : Game.update sqrt pow dt g = some g') (ha : 0 ≤ g.table.ballData i 5)
    (ha' : 0 ≤ g'.table.ballData i 5)
    (hiso : ∀ j, j ≠ i →
      (0 ≤ g.table.ballData j 5 →
        ¬ inContact (g'.table.ballData i 0) (g'.table.ballData i 1)
          (g.table.ballData j 0) (g.table.ballData j 1)) ∧
      (0 ≤ g'.table.ballData j 5 →
        ¬ inContact (g'.table.ballData j 0) (g'.table.ballData j 1)
          (g.table.ballData i 0) (g.table.ballData i 1) ∧
        ¬ inContact (g'.table.ballData i 0) (g'.table.ballData i 1)
          (g'.table.ballData j 0) (g'.table.ballData j 1))) :
    g'.table.ballData i 0 = g.table.ballData i 0 + g.table.ballData i 3 ∧
      g'.table.ballData i 1 = g.table.ballData i 1 + g.table.ballData i 4 ∧
      g'.table.ballData i 2 = g.table.ballData i 2
        * (if xWallTrigger pow g.table i then -1 else 1)
        * (if yWallTrigger pow g.table i then -1 else 1) ∧
      g'.table.ballData i 3 = (if xWallTrigger pow g.table i
        then dampedVx pow g.table i * (-0.5) else dampedVx pow g.table i) ∧
      g'.table.ballData i 4 = (if yWallTrigger pow g.table i
        then dampedVy pow g.table i * (-0.5) else dampedVy pow g.table i) ∧
      g'.table.ballData i 5 = g.table.ballData i 5 := by
  obtain ⟨t1, hl, rfl⟩ := update_eq_some.mp h
  have hal := ballLoop_alive _ hl (List.nodup_finRange 7) i (List.mem_finRange i)
    (not_lt.mpr ha)
  have hp : ¬ ∃ j, hitsPocket g.table i j := fun hex => not_lt.mpr ha' (hal.1.mpr hex)
  apply ballLoop_isolated hl (not_lt.mpr ha) hp
  intro j hji
  constructor
  · by_cases hj : g.table.ballData j 5 < 0
    · exact Or.inl hj
    · exact Or.inr ((hiso j hji).1 (not_lt.mp hj))
  · by_cases hj : t1.ballData j 5 < 0
    · exact Or.inl hj
    · exact Or.inr ((hiso j hji).2 (not_lt.mp hj))

theorem cueAt_no_pocket (x y s vx vy : F) (hy : |y| ≤ 3.4) :
    ¬ ∃ j, hitsPocket (cueAt x y s vx vy).table 0 j := by
  obtain ⟨c0, c1, -⟩ := cueAt_cue x y s vx vy
  obtain ⟨p0, p1, p2, p3, p4, p5⟩ := pocketsPositions_eq (F := F)
  obtain ⟨hy1, hy2⟩ := abs_le.mp hy
  rintro ⟨j, hj⟩
  simp only [hitsPocket, c0, c1, cueAt_pocketData] at hj
  fin_cases j <;> simp only [Fin.zero_eta, Fin.mk_one, Fin.reduceFinMk] at hj <;>
    simp only [p0, p1, p2, p3, p4, p5] at hj <;> norm_num at hj <;>
    nlinarith [sq_nonneg (x + 15 / 2), sq_nonneg x, sq_nonneg (x - 15 / 2)]

theorem not_inContact_of_dx (a b c d : F) (h : 1 ≤ a - c ∨ 1 ≤ c - a) :
    ¬ inContact a b c d := by
  unfold inContact
  intro hc
  have h1 : 1 ≤ (a - c) ^ 2 := by
    rcases h with h | h <;> nlinarith
  have h2 : 0 ≤ (b - d) ^ 2 := sq_nonneg _
  have h3 : ((628097 / 1048576 : F)) ^ 2 < 1 := by norm_num
  linarith

/-- A point left of `x = 2` or right of `x = 5.5` is not in contact with an
object ball of the initial layout. -/
theorem far_from_rack (a b : F) (ha : a ≤ 2 ∨ 5.5 ≤ a) (j : Fin 7) (hj : j ≠ 0) :
    ¬ inContact a b ((Table.init : Table F).ballData j 0) ((Table.init : Table F).ballData j 1) ∧
    ¬ inContact ((Table.init : Table F).ballData j 0) ((Table.init : Table F).ballData j 1)
      a b := by
  obtain ⟨b0, b1, b2, b3, b4, b5, b6⟩ := ballsPositions_eq (F := F)
  have hxj : 3 ≤ (Table.init : Table F).ballData j 0 ∧
      (Table.init : Table F).ballData j 0 ≤ 4.5 := by
    rw [(init_ballData j).1]
    fin_cases j <;> simp only [Fin.zero_eta, Fin.mk_one, Fin.reduceFinMk] <;>
      first
      | exact absurd rfl hj
      | (simp only [b1, b2, b3, b4, b5, b6]; norm_num)
  have key : ¬ inContact a b ((Table.init : Table F).ballData j 0)
      ((Table.init : Table F).ballData j 1) := by
    apply not_inContact_of_dx
    rcases ha with ha | ha
    · exact Or.inr (by linarith [hxj.1])
    · refine Or.inl ?_
      have h1 := hxj.2
      norm_num at ha h1
      linarith
  exact ⟨key, fun h => key ((inContact_comm _ _ _ _).mp h)⟩

/-- On the table `cueAt x y s vx vy` with the cue ball away from the pockets
and from the rack before and after integration, the update is defined and the
cue ball is alive before and after it and passes no contact test. -/
theorem cueAt_update_isolated (sqrt : F → F) (pow : F → F → F) (dt x y s vx vy : F)
    (hy : |y| ≤ 3.4) (hx : x ≤ 2 ∨ 5.5 ≤ x) (hx' : x + vx ≤ 2 ∨ 5.5 ≤ x + vx) :
    ∃ g', Game.update sqrt pow dt (cueAt x y s vx vy) = some g' ∧
      0 ≤ (cueAt x y s vx vy).table.ballData 0 5 ∧ 0 ≤ g'.table.ballData 0 5 ∧
      ∀ j, j ≠ 0 →
        (0 ≤ (cueAt x y s vx vy).table.ballData j 5 →
          ¬ inContact (g'.table.ballData 0 0) (g'.table.ballData 0 1)
            ((cueAt x y s vx vy).table.ballData j 0) ((cueAt x y s vx vy).table.ballData j 1)) ∧
        (0 ≤ g'.table.ballData j 5 →
          ¬ inContact (g'.table.ballData j 0) (g'.table.ballData j 1)
            ((cueAt x y s vx vy).table.ballData 0 0) ((cueAt x y s vx vy).table.ballData 0 1) ∧
          ¬ inContact (g'.table.ballData 0 0) (g'.table.ballData 0 1)
            (g'.table.ballData j 0) (g'.table.ballData j 1)) := by
  obtain ⟨g', hu, hobj, h0, h1, h5⟩ := cueAt_update_free sqrt pow dt x y s vx vy
    (cueAt_no_pocket x y s vx vy hy) (fun j hj => (far_from_rack _ _ hx' j hj).1)
  obtain ⟨c0, c1, -, -, -, c5⟩ := cueAt_cue x y s vx vy
  refine ⟨g', hu, by rw [c5]; norm_num, by rw [h5]; norm_num, ?_⟩
  intro j hj
  rw [h0, h1, c0, c1, hobj j hj 0, hobj j hj 1, cueAt_ballData x y s vx vy j hj 0,
    cueAt_ballData x y s vx vy j hj 1]
  exact ⟨fun _ => (far_from_rack _ _ hx' j hj).1,
    fun _ => ⟨(far_from_rack _ _ hx j hj).2, (far_from_rack _ _ hx' j hj).1⟩⟩

/-- C5 (counterexample): on the table `cueAt 7 3.4 1 0.35 0.35` the cue ball
(slope 1, velocity `(0.35, 0.35)`, alone in the upper right corner region)
satisfies both wall tests after integration; the update negates its slope
twice, so with the X wall test holding the slope after the update is `1`, its
old value, and not the negated value `-1`. -/
theorem update_wall_reflection_counterexample :
    ∃ g', Game.update Real.sqrt Real.rpow (1 / 60) (cueAt (7 : ℝ) 3.4 1 0.35 0.35) = some g' ∧
      0 ≤ (cueAt (7 : ℝ) 3.4 1 0.35 0.35).table.ballData 0 5 ∧ 0 ≤ g'.table.ballData 0 5 ∧
      (∀ j, j ≠ 0 →
        (0 ≤ (cueAt (7 : ℝ) 3.4 1 0.35 0.35).table.ballData j 5 →
          ¬ inContact (g'.table.ballData 0 0) (g'.table.ballData 0 1)
            ((cueAt (7 : ℝ) 3.4 1 0.35 0.35).table.ballData j 0)
            ((cueAt (7 : ℝ) 3.4 1 0.35 0.35).table.ballData j 1)) ∧
        (0 ≤ g'.table.ballData j 5 →
          ¬ inContact (g'.table.ballData j 0) (g'.table.ballData j 1)
            ((cueAt (7 : ℝ) 3.4 1 0.35 0.35).table.ballData 0 0)
            ((cueAt (7 : ℝ) 3.4 1 0.35 0.35).table.ballData 0 1) ∧
          ¬ inContact (g'.table.ballData 0 0) (g'.table.ballData 0 1)
            (g'.table.ballData j 0) (g'.table.ballData j 1))) ∧
      xWallTrigger Real.rpow (cueAt (7 : ℝ) 3.4 1 0.35 0.35).table 0 ∧
      (cueAt (7 : ℝ) 3.4 1 0.35 0.35).table.ballData 0 2 = 1 ∧
      g'.table.ballData 0 2 = 1 ∧
      g'.table.ballData 0 2 ≠ -(cueAt (7 : ℝ) 3.4 1 0.35 0.35).table.ballData 0 2 := by
  obtain ⟨g', hu, ha, ha', hiso⟩ := cueAt_update_isolated Real.sqrt Real.rpow
    (1 / 60) (7 : ℝ) 3.4 1 0.35 0.35 (by norm_num [abs_le]) (by norm_num)
    (by norm_num)
  obtain ⟨c0, c1, c2, c3, c4, -⟩ := cueAt_cue (7 : ℝ) 3.4 1 0.35 0.35
  have hpow : (0 : ℝ) < Real.rpow ((0.35 : ℝ) ^ 2 + (0.35 : ℝ) ^ 2) 0.002 :=
    Real.rpow_pos_of_pos (by norm_num) _
  have hX : xWallTrigger Real.rpow (cueAt (7 : ℝ) 3.4 1 0.35 0.35).table 0 := by
    refine Or.inl ⟨?_, ?_⟩
    · rw [c0, c3, abs_lt]; constructor <;> norm_num
    · rw [dampedVx, c3, c4]; positivity
  have hY : yWallTrigger Real.rpow (cueAt (7 : ℝ) 3.4 1 0.35 0.35).table 0 := by
    refine Or.inl ⟨?_, ?_⟩
    · rw [c1, c4, abs_lt]; constructor <;> norm_num
    · rw [dampedVy, c3, c4]; positivity
  obtain ⟨-, -, r2, -, -, -⟩ := update_isolated hu ha ha' hiso
  rw [if_pos hX, if_pos hY, c2] at r2
  have r2' : g'.table.ballData 0 2 = 1 := by rw [r2]; norm_num
  refine ⟨g', hu, ha, ha', hiso, hX, c2, r2', ?_⟩
  rw [r2', c2]
  norm_num

/-! ## Speed of a ball that meets no other ball -/

theorem braking_factor_le_one {q : ℝ} (h0 : 0 ≤ q) (h : q ≤ ((1000 : ℝ) / 997) ^ 500) :
    Real.rpow q 0.002 * 0.997 ≤ 1 := by
  have h1 : q ^ (0.002 : ℝ) ≤ (((1000 : ℝ) / 997) ^ 500) ^ (0.002 : ℝ) :=
    Real.rpow_le_rpow h0 h (by norm_num)
  have h2 : (((1000 : ℝ) / 997) ^ 500) ^ (0.002 : ℝ) = 1000 / 997 := by
    have e : (0.002 : ℝ) = ((500 : ℕ) : ℝ)⁻¹ := by norm_num
    rw [e]
    exact Real.pow_rpow_inv_natCast (by norm_num) (by norm_num)
  rw [h2] at h1
  have h3 : Real.rpow q 0.002 ≤ 1000 / 997 := h1
  linarith

theorem braking_factor_gt_one {q : ℝ} (h : ((1000 : ℝ) / 997) ^ 500 < q) :
    1 < Real.rpow q 0.002 * 0.997 := by
  have h1 : (((1000 : ℝ) / 997) ^ 500) ^ (0.002 : ℝ) < q ^ (0.002 : ℝ) :=
    Real.rpow_lt_rpow (by positivity) h (by norm_num)
  have h2 : (((1000 : ℝ) / 997) ^ 500) ^ (0.002 : ℝ) = 1000 / 997 := by
    have e : (0.002 : ℝ) = ((500 : ℕ) : ℝ)⁻¹ := by norm_num
    rw [e]
    exact Real.pow_rpow_inv_natCast (by norm_num) (by norm_num)
  rw [h2] at h1
  have h3 : 1000 / 997 < Real.rpow q 0.002 := h1
  linarith

/-- The loop over the balls skips the balls that are not alive at its start. -/
theorem ballLoop_filter {sqrt : F → F} {pow : F → F → F} (ks : List (Fin 7)) :
    ∀ (t : Table F), ks.Nodup →
      ballLoop sqrt pow ks t
        = ballLoop sqrt pow (ks.filter (fun k => decide (¬ t.ballData k 5 < 0))) t := by
  induction ks with
  | nil => intro t _; rfl
  | cons k ks ih =>
    intro t hnd
    obtain ⟨hk, hnd'⟩ := List.nodup_cons.mp hnd
    by_cases ha : t.ballData k 5 < 0
    · rw [List.filter_cons_of_neg (by simpa using ha), ballLoop, ballPass_skip ha,
        Option.some_bind]
      exact ih t hnd'
    · rw [List.filter_cons_of_pos (by simpa using ha), ballLoop, ballLoop]
      cases hpass : ballPass sqrt pow k t with
      | none => rfl
      | some t1 =>
        rw [Option.some_bind, Option.some_bind, ih t1 hnd']
        congr 1
        apply List.filter_congr
        intro m hm
        have hmk : m ≠ k := fun e => hk (e ▸ hm)
        rw [(ballPass_frame hpass).2.1 m 5 hmk (Or.inr (Or.inr rfl))]

/-- The collision loop skips the ball itself and the balls that are not alive. -/
theorem touchingBall_filter {sqrt : F → F} {i : Fin 7} (js : List (Fin 7)) :
    ∀ (t : Table F), touchingBall sqrt i js t
      = touchingBall sqrt i (js.filter (fun j => decide (¬ (i = j ∨ t.ballData j 5 < 0)))) t := by
  induction js with
  | nil => intro t; rfl
  | cons j js ih =>
    intro t
    by_cases hs : i = j ∨ t.ballData j 5 < 0
    · rw [List.filter_cons_of_neg (by simp only [decide_eq_true_eq, not_not]; exact hs),
        touchingBall, if_pos hs]
      exact ih t
    · rw [List.filter_cons_of_pos (by simp only [decide_eq_true_eq]; exact hs), touchingBall,
        touchingBall, if_neg hs, if_neg hs]
      by_cases ht : ballsTouch t i j
      · rw [if_pos ht, if_pos ht]
        cases he : exchange sqrt t i j with
        | none => rfl
        | some t1 =>
          rw [Option.some_bind, Option.some_bind, ih t1]
          congr 1
          apply List.filter_congr
          intro m _
          rw [(exchange_frame he).2 m 5 (Or.inr (Or.inr (Or.inr rfl)))]
      · rw [if_neg ht, if_neg ht]
        exact ih t

theorem filter_eq_single :
    ∀ q : Fin 7, (List.finRange 7).filter (fun k => decide (k = q)) = [q] := by decide

theorem filter_eq_pair : ∀ p q : Fin 7, p < q →
    (List.finRange 7).filter (fun k => decide (k = p ∨ k = q)) = [p, q] := by decide

theorem filter_finRange_single (q : Fin 7) (P : Fin 7 → Bool) (hP : ∀ k, P k = true ↔ k = q) :
    (List.finRange 7).filter P = [q] := by
  have hfun : P = fun k => decide (k = q) := by
    funext k
    by_cases hk : k = q
    · simp [hk, (hP q).mpr rfl]
    · have : P k = false := by
        cases hPk : P k with
        | false => rfl
        | true => exact absurd ((hP k).mp hPk) hk
      simp [hk, this]
  rw [hfun]
  exact filter_eq_single q

theorem filter_finRange_pair (p q : Fin 7) (hpq : p < q) (P : Fin 7 → Bool)
    (hP : ∀ k, P k = true ↔ k = p ∨ k = q) : (List.finRange 7).filter P = [p, q] := by
  have hfun : P = fun k => decide (k = p ∨ k = q) := by
    funext k
    by_cases hk : k = p ∨ k = q
    · simp [hk, (hP k).mpr hk]
    · have : P k = false := by
        cases hPk : P k with
        | false => rfl
        | true => exact absurd ((hP k).mp hPk) hk
      simp [hk, this]
  rw [hfun]
  exact filter_eq_pair p q hpq

/-- With only the balls `p < q` alive, the loop over the balls is the pass of
`p` followed by the pass of `q`. -/
theorem ballLoop_pair {sqrt : F → F} {pow : F → F → F} (t : Table F) (p q : Fin 7)
    (hpq : p < q) (hp : ¬ t.ballData p 5 < 0) (hq : ¬ t.ballData q 5 < 0)
    (hdead : ∀ k, k ≠ p → k ≠ q → t.ballData k 5 < 0) :
    ballLoop sqrt pow (List.finRange 7) t
      = (ballPass sqrt pow p t).bind fun t1 => ballPass sqrt pow q t1 := by
  rw [ballLoop_filter _ t (List.nodup_finRange 7),
    filter_finRange_pair p q hpq _ (by
      intro k
      simp only [decide_eq_true_eq]
      constructor
      · intro hk
        by_contra hcon
        exact hk (hdead k (fun e => hcon (Or.inl e)) (fun e => hcon (Or.inr e)))
      · rintro (rfl | rfl)
        · exact hp
        · exact hq)]
  simp only [ballLoop]
  cases ballPass sqrt pow p t with
  | none => rfl
  | some t1 =>
    simp only [Option.some_bind]
    cases ballPass sqrt pow q t1 with
    | none => rfl
    | some t2 => rfl

/-- With only the balls `i` and `j` alive, the collision loop of `i` is the
test against `j`. -/
theorem touchingBall_pair {sqrt : F → F} (t : Table F) (i j : Fin 7) (hij : i ≠ j)
    (hj : ¬ t.ballData j 5 < 0) (hdead : ∀ k, k ≠ i → k ≠ j → t.ballData k 5 < 0) :
    touchingBall sqrt i (List.finRange 7) t
      = if ballsTouch t i j then exchange sqrt t i j else some t := by
  rw [touchingBall_filter, filter_finRange_single j _ (by
      intro k
      simp only [decide_eq_true_eq]
      constructor
      · intro hk
        by_contra hcon
        have hki : k ≠ i := fun e => hk (Or.inl e.symm)
        exact hk (Or.inr (hdead k hki hcon))
      · rintro rfl
        rintro (e | e)
        · exact hij e
        · exact hj e)]
  rw [touchingBall, if_neg (by
    rintro (e | e)
    · exact hij e
    · exact hj e)]
  split_ifs
  · cases exchange sqrt t i j with
    | none => rfl
    | some t1 => rfl
  · rfl

/-! ## The collision in vector form -/

theorem slope_direction (S dy : ℝ) {dx : ℝ} (hd : dx ≠ 0) :
    S / Real.sqrt (1 + (dy / dx) ^ 2) * (if dx > 0 then 1 else -1)
        = S * (dx / Real.sqrt (dx ^ 2 + dy ^ 2)) ∧
      S / Real.sqrt (1 + (dy / dx) ^ 2) * (dy / dx) * (if dx > 0 then 1 else -1)
        = S * (dy / Real.sqrt (dx ^ 2 + dy ^ 2)) := by
  obtain ⟨h1, h2⟩ := slope_velocity (2 * S) dy hd
  constructor
  · have e1 : 2 * S / Real.sqrt (1 + (dy / dx) ^ 2) * (if dx > 0 then 1 else -1) / 2
        = S / Real.sqrt (1 + (dy / dx) ^ 2) * (if dx > 0 then 1 else -1) := by ring
    have e2 : 2 * S / 2 * (dx / Real.sqrt (dx ^ 2 + dy ^ 2))
        = S * (dx / Real.sqrt (dx ^ 2 + dy ^ 2)) := by ring
    rw [← e1, h1, e2]
  · have e1 : 2 * S / Real.sqrt (1 + (dy / dx) ^ 2) * (dy / dx) * (if dx > 0 then 1 else -1) / 2
        = S / Real.sqrt (1 + (dy / dx) ^ 2) * (dy / dx) * (if dx > 0 then 1 else -1) := by ring
    have e2 : 2 * S / 2 * (dy / Real.sqrt (dx ^ 2 + dy ^ 2))
        = S * (dy / Real.sqrt (dx ^ 2 + dy ^ 2)) := by ring
    rw [← e1, h2, e2]

theorem sign_flip {a b : ℝ} (h : a ≠ b) :
    (if b - a < 0 then (-1 : ℝ) else 1) = -(if a - b > 0 then (1 : ℝ) else -1) := by
  rcases lt_or_gt_of_ne h with hlt | hgt
  · rw [if_neg (by linarith), if_neg (by linarith)]; norm_num
  · rw [if_pos (by linarith), if_pos (by linarith)]

/-- The exchange between ball `i` (the ball of the pass) and ball `j` in
vector form: with `d = p_i - p_j`, `D = |d|` and `S = |v_i|`, the new
velocities are `v_i := 0.8 * (v_i + S * d / D)` and `v_j := 0.8 * (v_j - S * d / D)`;
both slopes become `d_y / d_x`; nothing else changes. -/
theorem exchange_vector (t : Table ℝ) (i j : Fin 7) (hx : t.ballData i 0 ≠ t.ballData j 0) :
    ∃ t', exchange Real.sqrt t i j = some t' ∧ t'.pocketData = t.pocketData ∧
      (∀ k c, (k ≠ i ∧ k ≠ j) ∨ c = 0 ∨ c = 1 ∨ c = 5 → t'.ballData k c = t.ballData k c) ∧
      t'.ballData i 2 = (t.ballData i 1 - t.ballData j 1) / (t.ballData i 0 - t.ballData j 0) ∧
      t'.ballData j 2 = (t.ballData i 1 - t.ballData j 1) / (t.ballData i 0 - t.ballData j 0) ∧
      t'.ballData i 3 = (t.ballData i 3
        + Real.sqrt (t.ballData i 3 ^ 2 + t.ballData i 4 ^ 2)
          * ((t.ballData i 0 - t.ballData j 0)
            / Real.sqrt ((t.ballData i 0 - t.ballData j 0) ^ 2
              + (t.ballData i 1 - t.ballData j 1) ^ 2))) * 0.8 ∧
      t'.ballData i 4 = (t.ballData i 4
        + Real.sqrt (t.ballData i 3 ^ 2 + t.ballData i 4 ^ 2)
          * ((t.ballData i 1 - t.ballData j 1)
            / Real.sqrt ((t.ballData i 0 - t.ballData j 0) ^ 2
              + (t.ballData i 1 - t.ballData j 1) ^ 2))) * 0.8 ∧
      t'.ballData j 3 = (t.ballData j 3
        - Real.sqrt (t.ballData i 3 ^ 2 + t.ballData i 4 ^ 2)
          * ((t.ballData i 0 - t.ballData j 0)
            / Real.sqrt ((t.ballData i 0 - t.ballData j 0) ^ 2
              + (t.ballData i 1 - t.ballData j 1) ^ 2))) * 0.8 ∧
      t'.ballData j 4 = (t.ballData j 4
        - Real.sqrt (t.ballData i 3 ^ 2 + t.ballData i 4 ^ 2)
          * ((t.ballData i 1 - t.ballData j 1)
            / Real.sqrt ((t.ballData i 0 - t.ballData j 0) ^ 2
              + (t.ballData i 1 - t.ballData j 1) ^ 2))) * 0.8 := by
  obtain ⟨t', he, f1, f2, f3, f4, f5, f6⟩ := exchange_fields t i j hx
  obtain ⟨hq, hf⟩ := exchange_frame he
  have hd : t.ballData i 0 - t.ballData j 0 ≠ 0 := sub_ne_zero.mpr hx
  obtain ⟨s1, s2⟩ := slope_direction (Real.sqrt (t.ballData i 3 ^ 2 + t.ballData i 4 ^ 2))
    (t.ballData i 1 - t.ballData j 1) hd
  refine ⟨t', he, hq, hf, f1, f2, ?_, ?_, ?_, ?_⟩
  · rw [f5, sign_flip hx, ← s1]; ring
  · rw [f6, sign_flip hx, ← s2]; ring
  · rw [f3, s1]
  · rw [f4, s2]

/-- The pass of an alive ball `i` whose only alive partner is `j`, when `i`
hits no pocket, meets no wall test and is in contact with `j` after
integration (not on the same vertical). -/
theorem ballPass_contact (t : Table ℝ) (i j : Fin 7) (hij : i ≠ j)
    (hai : ¬ t.ballData i 5 < 0) (haj : ¬ t.ballData j 5 < 0)
    (hdead : ∀ k, k ≠ i → k ≠ j → t.ballData k 5 < 0)
    (hp : ¬ ∃ k, hitsPocket t i k)
    (hwx : ¬ xWallTrigger Real.rpow t i) (hwy : ¬ yWallTrigger Real.rpow t i)
    (hx : t.ballData i 0 + t.ballData i 3 ≠ t.ballData j 0)
    (ht : inContact (t.ballData i 0 + t.ballData i 3) (t.ballData i 1 + t.ballData i 4)
      (t.ballData j 0) (t.ballData j 1)) :
    ∃ t', ballPass Real.sqrt Real.rpow i t = some t' ∧ t'.pocketData = t.pocketData ∧
      (∀ k, t'.ballData k 5 = t.ballData k 5) ∧
      (∀ k, k ≠ i → t'.ballData k 0 = t.ballData k 0 ∧ t'.ballData k 1 = t.ballData k 1) ∧
      t'.ballData i 0 = t.ballData i 0 + t.ballData i 3 ∧
      t'.ballData i 1 = t.ballData i 1 + t.ballData i 4 ∧
      t'.ballData i 3 = (dampedVx Real.rpow t i
        + Real.sqrt (dampedVx Real.rpow t i ^ 2 + dampedVy Real.rpow t i ^ 2)
          * ((t.ballData i 0 + t.ballData i 3 - t.ballData j 0)
            / Real.sqrt ((t.ballData i 0 + t.ballData i 3 - t.ballData j 0) ^ 2
              + (t.ballData i 1 + t.ballData i 4 - t.ballData j 1) ^ 2))) * 0.8 ∧
      t'.ballData i 4 = (dampedVy Real.rpow t i
        + Real.sqrt (dampedVx Real.rpow t i ^ 2 + dampedVy Real.rpow t i ^ 2)
          * ((t.ballData i 1 + t.ballData i 4 - t.ballData j 1)
            / Real.sqrt ((t.ballData i 0 + t.ballData i 3 - t.ballData j 0) ^ 2
              + (t.ballData i 1 + t.ballData i 4 - t.ballData j 1) ^ 2))) * 0.8 ∧
      t'.ballData j 3 = (t.ballData j 3
        - Real.sqrt (dampedVx Real.rpow t i ^ 2 + dampedVy Real.rpow t i ^ 2)
          * ((t.ballData i 0 + t.ballData i 3 - t.ballData j 0)
            / Real.sqrt ((t.ballData i 0 + t.ballData i 3 - t.ballData j 0) ^ 2
              + (t.ballData i 1 + t.ballData i 4 - t.ballData j 1) ^ 2))) * 0.8 ∧
      t'.ballData j 4 = (t.ballData j 4
        - Real.sqrt (dampedVx Real.rpow t i ^ 2 + dampedVy Real.rpow t i ^ 2)
          * ((t.ballData i 1 + t.ballData i 4 - t.ballData j 1)
            / Real.sqrt ((t.ballData i 0 + t.ballData i 3 - t.ballData j 0) ^ 2
              + (t.ballData i 1 + t.ballData i 4 - t.ballData j 1) ^ 2))) * 0.8 := by
  have hji : j ≠ i := fun e => hij e.symm
  have hb := braking_some Real.rpow (changePosition t i) i
  obtain ⟨hq, hrow, -, -⟩ := motion_frame hb
  obtain ⟨r0, r1, -, r3, r4, r5⟩ := motion_row hb
  rw [if_neg hwx] at r3
  rw [if_neg hwy] at r4
  obtain ⟨u, hu⟩ : ∃ u, u = touchingWall (((changePosition t i).set i
      3 ((changePosition t i).ballData i 3
        * Real.rpow ((changePosition t i).ballData i 3 ^ 2
          + (changePosition t i).ballData i 4 ^ 2) 0.002 * 0.997)).set i
      4 ((changePosition t i).ballData i 4
        * Real.rpow ((changePosition t i).ballData i 3 ^ 2
          + (changePosition t i).ballData i 4 ^ 2) 0.002 * 0.997)) i := ⟨_, rfl⟩
  rw [← hu] at hq hrow r0 r1 r3 r4 r5
  have hux : u.ballData i 0 ≠ u.ballData j 0 := by
    rw [r0, hrow j 0 (Or.inl hji)]; exact hx
  have hut : ballsTouch u i j := by
    simp only [ballsTouch, r0, r1, hrow j 0 (Or.inl hji), hrow j 1 (Or.inl hji)]
    exact ht
  obtain ⟨t', he, hq', hf, -, -, e3, e4, e5, e6⟩ := exchange_vector u i j hux
  have hpass : ballPass Real.sqrt Real.rpow i t = some t' := by
    rw [ballPass_moved hai hp, hb, Option.some_bind, ← hu,
      touchingBall_pair u i j hij (by rw [hrow j 5 (Or.inl hji)]; exact haj)
        (fun k hki hkj => by rw [hrow k 5 (Or.inl hki)]; exact hdead k hki hkj),
      if_pos hut, he]
  rw [r0, r1, r3, r4, hrow j 0 (Or.inl hji), hrow j 1 (Or.inl hji)] at e3 e4 e5 e6
  rw [hrow j 3 (Or.inl hji)] at e5
  rw [hrow j 4 (Or.inl hji)] at e6
  refine ⟨t', hpass, hq'.trans hq, ?_, ?_, ?_, ?_, e3, e4, e5, e6⟩
  · intro k
    rw [hf k 5 (Or.inr (Or.inr (Or.inr rfl)))]
    by_cases hk : k = i
    · rw [hk, r5]
    · exact hrow k 5 (Or.inl hk)
  · intro k hk
    rw [hf k 0 (Or.inr (Or.inl rfl)), hf k 1 (Or.inr (Or.inr (Or.inl rfl))),
      hrow k 0 (Or.inl hk), hrow k 1 (Or.inl hk)]
    exact ⟨rfl, rfl⟩
  · rw [hf i 0 (Or.inr (Or.inl rfl)), r0]
  · rw [hf i 1 (Or.inr (Or.inr (Or.inl rfl))), r1]

theorem sqrt_scaled {ex ey : ℝ} (hL : ex ^ 2 + ey ^ 2 = (628097 / 1048576) ^ 2) (k : ℝ) :
    Real.sqrt ((k * ex) ^ 2 + (k * ey) ^ 2) = |k| * (628097 / 1048576) := by
  have e : (k * ex) ^ 2 + (k * ey) ^ 2 = (k * (628097 / 1048576)) ^ 2 := by
    have : (k * ex) ^ 2 + (k * ey) ^ 2 = k ^ 2 * (ex ^ 2 + ey ^ 2) := by ring
    rw [this, hL]; ring
  rw [e, Real.sqrt_sq_eq_abs, abs_mul, abs_of_pos (by norm_num : (0 : ℝ) < (628097 / 1048576))]

/-- The pass of ball `i` against its only alive partner `j` when everything is
aligned with a vector `e = (ex, ey)` of length `628097 / 2^20`: after integration `j`
lies at `m * e` from `i` with `0 < m ≤ 1`, and the velocities are `lam * e`
and `nu * e`.  With `kappa` the braked `lam`, the pass leaves ball `i` with
velocity `0.8 * (kappa - |kappa|) * e` and ball `j` with
`0.8 * (nu + |kappa|) * e`. -/
theorem ballPass_aligned (t : Table ℝ) (i j : Fin 7) (hij : i ≠ j)
    (hai : ¬ t.ballData i 5 < 0) (haj : ¬ t.ballData j 5 < 0)
    (hdead : ∀ k, k ≠ i → k ≠ j → t.ballData k 5 < 0)
    (hp : ¬ ∃ k, hitsPocket t i k)
    (hwx : ¬ xWallTrigger Real.rpow t i) (hwy : ¬ yWallTrigger Real.rpow t i)
    (ex ey m lam nu : ℝ) (hL : ex ^ 2 + ey ^ 2 = (628097 / 1048576) ^ 2) (hex : ex ≠ 0)
    (hm0 : 0 < m) (hm1 : m ≤ 1)
    (hdx : t.ballData j 0 - (t.ballData i 0 + t.ballData i 3) = m * ex)
    (hdy : t.ballData j 1 - (t.ballData i 1 + t.ballData i 4) = m * ey)
    (hvi : t.ballData i 3 = lam * ex ∧ t.ballData i 4 = lam * ey)
    (hvj : t.ballData j 3 = nu * ex ∧ t.ballData j 4 = nu * ey) :
    ∃ t', ballPass Real.sqrt Real.rpow i t = some t' ∧ t'.pocketData = t.pocketData ∧
      (∀ k, t'.ballData k 5 = t.ballData k 5) ∧
      (∀ k, k ≠ i → t'.ballData k 0 = t.ballData k 0 ∧ t'.ballData k 1 = t.ballData k 1) ∧
      t'.ballData i 0 = t.ballData i 0 + t.ballData i 3 ∧
      t'.ballData i 1 = t.ballData i 1 + t.ballData i 4 ∧
      t'.ballData i 3 = 0.8 * (lam * (Real.rpow ((lam * ex) ^ 2 + (lam * ey) ^ 2) 0.002 * 0.997)
        - |lam * (Real.rpow ((lam * ex) ^ 2 + (lam * ey) ^ 2) 0.002 * 0.997)|) * ex ∧
      t'.ballData i 4 = 0.8 * (lam * (Real.rpow ((lam * ex) ^ 2 + (lam * ey) ^ 2) 0.002 * 0.997)
        - |lam * (Real.rpow ((lam * ex) ^ 2 + (lam * ey) ^ 2) 0.002 * 0.997)|) * ey ∧
      t'.ballData j 3 = 0.8 * (nu
        + |lam * (Real.rpow ((lam * ex) ^ 2 + (lam * ey) ^ 2) 0.002 * 0.997)|) * ex ∧
      t'.ballData j 4 = 0.8 * (nu
        + |lam * (Real.rpow ((lam * ex) ^ 2 + (lam * ey) ^ 2) 0.002 * 0.997)|) * ey := by
  have hdx' : t.ballData i 0 + t.ballData i 3 - t.ballData j 0 = (-m) * ex := by linarith
  have hdy' : t.ballData i 1 + t.ballData i 4 - t.ballData j 1 = (-m) * ey := by linarith
  have hmex : m * ex ≠ 0 := mul_ne_zero hm0.ne' hex
  have hx : t.ballData i 0 + t.ballData i 3 ≠ t.ballData j 0 := by
    intro e
    apply hmex
    rw [← hdx, e, sub_self]
  have hD : Real.sqrt (((-m) * ex) ^ 2 + ((-m) * ey) ^ 2) = m * (628097 / 1048576) := by
    rw [sqrt_scaled hL, abs_neg, abs_of_pos hm0]
  have ht : inContact (t.ballData i 0 + t.ballData i 3) (t.ballData i 1 + t.ballData i 4)
      (t.ballData j 0) (t.ballData j 1) := by
    unfold inContact
    rw [hdx', hdy']
    have : ((-m) * ex) ^ 2 + ((-m) * ey) ^ 2 = m ^ 2 * (ex ^ 2 + ey ^ 2) := by ring
    rw [this, hL]
    have hm2 : m ^ 2 ≤ 1 := by nlinarith
    nlinarith
  obtain ⟨t', hpass, hq, h5, hpos, h0, h1, e3, e4, e5, e6⟩ :=
    ballPass_contact t i j hij hai haj hdead hp hwx hwy hx ht
  have hwX : dampedVx Real.rpow t i
      = lam * (Real.rpow ((lam * ex) ^ 2 + (lam * ey) ^ 2) 0.002 * 0.997) * ex := by
    rw [dampedVx, hvi.1, hvi.2]; ring
  have hwY : dampedVy Real.rpow t i
      = lam * (Real.rpow ((lam * ex) ^ 2 + (lam * ey) ^ 2) 0.002 * 0.997) * ey := by
    rw [dampedVy, hvi.1, hvi.2]; ring
  have hS := sqrt_scaled hL (lam * (Real.rpow ((lam * ex) ^ 2 + (lam * ey) ^ 2) 0.002 * 0.997))
  rw [hwX, hwY, hS, hdx', hdy', hD] at e3 e4 e5 e6
  rw [hvj.1] at e5
  rw [hvj.2] at e6
  have hm' : m ≠ 0 := hm0.ne'
  refine ⟨t', hpass, hq, h5, hpos, h0, h1, ?_, ?_, ?_, ?_⟩
  · rw [e3]; field_simp; ring
  · rw [e4]; field_simp; ring
  · rw [e5]; field_simp; ring
  · rw [e6]; field_simp; ring

/-! ## The head-on collision of two balls -/

theorem braking_factor_bounds {q : ℝ} (h0 : 0 < q) (h1 : q ≤ 1) :
    0 < Real.rpow q 0.002 * 0.997 ∧ Real.rpow q 0.002 * 0.997 ≤ 0.997 := by
  have hpos : 0 < Real.rpow q 0.002 := Real.rpow_pos_of_pos h0 _
  have hle : Real.rpow q 0.002 ≤ 1 := Real.rpow_le_one h0.le h1 (by norm_num)
  constructor
  · positivity
  · linarith

theorem wallTest_nonneg_mul {x V w rho : ℝ} (hrho : 0 ≤ rho) (h : ¬ wallTest x V w) :
    ¬ wallTest x (rho * V) w := by
  intro hw
  apply h
  rcases hw with ⟨h1, h2⟩ | ⟨h1, h2⟩
  · refine Or.inl ⟨h1, ?_⟩
    by_contra hV
    have : rho * V ≤ 0 := mul_nonpos_of_nonneg_of_nonpos hrho (not_lt.mp hV)
    linarith
  · refine Or.inr ⟨h1, ?_⟩
    by_contra hV
    have : 0 ≤ rho * V := mul_nonneg hrho (not_lt.mp hV)
    linarith

/-- The wall tests of the pass of ball `i` fail when the integrated position
is `(X + mu * Vx, Y + mu * Vy)`, the velocity is a nonnegative multiple of
`(Vx, Vy)`, and the wall tests fail at that position for the velocity
`(Vx, Vy)`. -/
theorem no_wallTrigger (t : Table ℝ) (i : Fin 7) (X Y Vx Vy mu rho : ℝ) (hrho : 0 ≤ rho)
    (hx : t.ballData i 0 + t.ballData i 3 = X + mu * Vx)
    (hy : t.ballData i 1 + t.ballData i 4 = Y + mu * Vy)
    (hv : t.ballData i 3 = rho * Vx ∧ t.ballData i 4 = rho * Vy)
    (hwx : ¬ wallTest (X + mu * Vx) Vx 8.2) (hwy : ¬ wallTest (Y + mu * Vy) Vy 4.7) :
    ¬ xWallTrigger Real.rpow t i ∧ ¬ yWallTrigger Real.rpow t i := by
  have hF : 0 ≤ Real.rpow (t.ballData i 3 ^ 2 + t.ballData i 4 ^ 2) 0.002 * 0.997 :=
    mul_nonneg (Real.rpow_nonneg (by positivity) _) (by norm_num)
  have eX : dampedVx Real.rpow t i
      = (Real.rpow (t.ballData i 3 ^ 2 + t.ballData i 4 ^ 2) 0.002 * 0.997 * rho) * Vx := by
    rw [dampedVx]
    generalize Real.rpow (t.ballData i 3 ^ 2 + t.ballData i 4 ^ 2) 0.002 = R
    rw [hv.1]
    ring
  have eY : dampedVy Real.rpow t i
      = (Real.rpow (t.ballData i 3 ^ 2 + t.ballData i 4 ^ 2) 0.002 * 0.997 * rho) * Vy := by
    rw [dampedVy]
    generalize Real.rpow (t.ballData i 3 ^ 2 + t.ballData i 4 ^ 2) 0.002 = R
    rw [hv.2]
    ring
  constructor
  · have := wallTest_nonneg_mul (mul_nonneg hF hrho) hwx
    rw [← eX, ← hx] at this
    exact this
  · have := wallTest_nonneg_mul (mul_nonneg hF hrho) hwy
    rw [← eY, ← hy] at this
    exact this

/-- The head-on collision when the pass of the moving ball `a` comes first:
the velocities after both passes are multiples `ka * e` and `kb * e` of the
vector `e` from `a` to `b`, with `|ka| < c` and `kb ≠ 0`. -/
theorem head_on_first (t : Table ℝ) (a b : Fin 7) (hab : a ≠ b)
    (haa : ¬ t.ballData a 5 < 0) (hba : ¬ t.ballData b 5 < 0)
    (hdead : ∀ k, k ≠ a → k ≠ b → t.ballData k 5 < 0)
    (ex ey c : ℝ) (hL : ex ^ 2 + ey ^ 2 = (628097 / 1048576) ^ 2) (hex0 : ex ≠ 0)
    (hc0 : 0 < c) (hc1 : c < 1) (hcs : c ^ 2 * (628097 / 1048576) ^ 2 ≤ 0.5 ^ 2)
    (hxb : t.ballData b 0 = t.ballData a 0 + ex) (hyb : t.ballData b 1 = t.ballData a 1 + ey)
    (hva : t.ballData a 3 = c * ex ∧ t.ballData a 4 = c * ey)
    (hrest : t.ballData b 3 = 0 ∧ t.ballData b 4 = 0)
    (hpocket : ∀ j, ¬ hitsPocket t a j ∧ ¬ hitsPocket t b j)
    (hwall : ∀ mu : ℝ, 0 ≤ mu → mu ≤ 1 →
      ¬ wallTest (t.ballData a 0 + mu * (c * ex)) (c * ex) 8.2 ∧
      ¬ wallTest (t.ballData a 1 + mu * (c * ey)) (c * ey) 4.7 ∧
      ¬ wallTest (t.ballData b 0 + mu * (c * ex)) (c * ex) 8.2 ∧
      ¬ wallTest (t.ballData b 1 + mu * (c * ey)) (c * ey) 4.7) :
    ∃ t2, ((ballPass Real.sqrt Real.rpow a t).bind fun t1 => ballPass Real.sqrt Real.rpow b t1)
        = some t2 ∧
      ∃ ka kb : ℝ, t2.ballData a 3 = ka * ex ∧ t2.ballData a 4 = ka * ey ∧
        t2.ballData b 3 = kb * ex ∧ t2.ballData b 4 = kb * ey ∧ |ka| < c ∧ kb ≠ 0 := by
  have hba' : b ≠ a := fun e => hab e.symm
  -- the braking factor of the pass of `a`
  have hq1 : (c * ex) ^ 2 + (c * ey) ^ 2 = c ^ 2 * (628097 / 1048576) ^ 2 := by
    have : (c * ex) ^ 2 + (c * ey) ^ 2 = c ^ 2 * (ex ^ 2 + ey ^ 2) := by ring
    rw [this, hL]
  have hF1 := braking_factor_bounds (q := (c * ex) ^ 2 + (c * ey) ^ 2)
    (by rw [hq1]; positivity) (by
      rw [hq1]
      norm_num at hcs ⊢
      linarith)
  obtain ⟨F1, hF1def⟩ : ∃ F1, F1 = Real.rpow ((c * ex) ^ 2 + (c * ey) ^ 2) 0.002 * 0.997 :=
    ⟨_, rfl⟩
  rw [← hF1def] at hF1
  obtain ⟨hF1pos, hF1le⟩ := hF1
  -- the pass of `a`
  obtain ⟨hwxA, hwyA⟩ := no_wallTrigger t a (t.ballData a 0) (t.ballData a 1) (c * ex) (c * ey)
    1 1 (by norm_num) (by rw [hva.1]; ring) (by rw [hva.2]; ring)
    ⟨by rw [hva.1]; ring, by rw [hva.2]; ring⟩
    (hwall 1 (by norm_num) le_rfl).1 (hwall 1 (by norm_num) le_rfl).2.1
  have hpA : ¬ ∃ k, hitsPocket t a k := fun ⟨k, hk⟩ => (hpocket k).1 hk
  have hm0A : 0 < 1 - c := by linarith
  have hm1A : 1 - c ≤ 1 := by linarith
  have hdxA : t.ballData b 0 - (t.ballData a 0 + t.ballData a 3) = (1 - c) * ex := by
    rw [hxb, hva.1]; ring
  have hdyA : t.ballData b 1 - (t.ballData a 1 + t.ballData a 4) = (1 - c) * ey := by
    rw [hyb, hva.2]; ring
  have hvjA : t.ballData b 3 = 0 * ex ∧ t.ballData b 4 = 0 * ey := by
    rw [hrest.1, hrest.2]; constructor <;> ring
  obtain ⟨t1, hp1, hq1', h51, hpos1, ha0, ha1, a3, a4, b3, b4⟩ :=
    ballPass_aligned t a b hab haa hba hdead hpA hwxA hwyA
      ex ey (1 - c) c 0 hL hex0 hm0A hm1A hdxA hdyA hva hvjA
  rw [← hF1def] at a3 a4 b3 b4
  have hk1 : |c * F1| = c * F1 := abs_of_pos (mul_pos hc0 hF1pos)
  rw [hk1] at a3 a4 b3 b4
  have a3' : t1.ballData a 3 = 0 := by rw [a3]; ring
  have a4' : t1.ballData a 4 = 0 := by rw [a4]; ring
  obtain ⟨beta, hbeta⟩ : ∃ beta, beta = 0.8 * (c * F1) := ⟨_, rfl⟩
  have hbeta0 : 0 < beta := by rw [hbeta]; positivity
  have hbetac : beta ≤ c := by
    have h1 : c * F1 ≤ c * 0.997 := mul_le_mul_of_nonneg_left hF1le hc0.le
    rw [hbeta]; linarith
  have b3' : t1.ballData b 3 = beta * ex := by rw [b3, hbeta]; ring
  have b4' : t1.ballData b 4 = beta * ey := by rw [b4, hbeta]; ring
  have hb0 : t1.ballData b 0 = t.ballData a 0 + ex := by rw [(hpos1 b hba').1, hxb]
  have hb1 : t1.ballData b 1 = t.ballData a 1 + ey := by rw [(hpos1 b hba').2, hyb]
  -- the braking factor of the pass of `b`
  have hq2 : ((-beta) * (-ex)) ^ 2 + ((-beta) * (-ey)) ^ 2 = beta ^ 2 * (628097 / 1048576) ^ 2 := by
    have : ((-beta) * (-ex)) ^ 2 + ((-beta) * (-ey)) ^ 2 = beta ^ 2 * (ex ^ 2 + ey ^ 2) := by
      ring
    rw [this, hL]
  have hbeta2 : beta ^ 2 ≤ c ^ 2 := sq_le_sq' (by linarith) hbetac
  have hF2 := braking_factor_bounds (q := ((-beta) * (-ex)) ^ 2 + ((-beta) * (-ey)) ^ 2)
    (by rw [hq2]; positivity) (by
      rw [hq2]
      have h1 := mul_le_mul_of_nonneg_right hbeta2 (by norm_num : (0 : ℝ) ≤ (628097 / 1048576) ^ 2)
      norm_num at hcs h1 ⊢
      linarith)
  obtain ⟨F2, hF2def⟩ : ∃ F2,
      F2 = Real.rpow (((-beta) * (-ex)) ^ 2 + ((-beta) * (-ey)) ^ 2) 0.002 * 0.997 := ⟨_, rfl⟩
  rw [← hF2def] at hF2
  obtain ⟨hF2pos, hF2le⟩ := hF2
  -- the pass of `b`
  have hmu0 : (0 : ℝ) ≤ 0.8 * F1 := by positivity
  have hmu1 : 0.8 * F1 ≤ 1 := by linarith
  obtain ⟨hwxB, hwyB⟩ := no_wallTrigger t1 b (t.ballData b 0) (t.ballData b 1) (c * ex) (c * ey)
    (0.8 * F1) (0.8 * F1) hmu0
    (by rw [hb0, b3', hxb, hbeta]; ring) (by rw [hb1, b4', hyb, hbeta]; ring)
    ⟨by rw [b3', hbeta]; ring, by rw [b4', hbeta]; ring⟩
    (hwall _ hmu0 hmu1).2.2.1 (hwall _ hmu0 hmu1).2.2.2
  have hpB : ¬ ∃ k, hitsPocket t1 b k := by
    rintro ⟨k, hk⟩
    exact (hpocket k).2 ((hitsPocket_congr hq1' (hpos1 b hba').1 (hpos1 b hba').2 k).mp hk)
  have hbaB : ¬ t1.ballData b 5 < 0 := by rw [h51]; exact hba
  have haaB : ¬ t1.ballData a 5 < 0 := by rw [h51]; exact haa
  have hdeadB : ∀ k, k ≠ b → k ≠ a → t1.ballData k 5 < 0 := by
    intro k hkb hka
    rw [h51]
    exact hdead k hka hkb
  have hLB : (-ex) ^ 2 + (-ey) ^ 2 = (628097 / 1048576) ^ 2 := by rw [neg_sq, neg_sq]; exact hL
  have hm0B : 0 < 1 - c + beta := by linarith
  have hm1B : 1 - c + beta ≤ 1 := by linarith
  have hdxB : t1.ballData a 0 - (t1.ballData b 0 + t1.ballData b 3)
      = (1 - c + beta) * (-ex) := by
    rw [ha0, hb0, b3', hva.1]; ring
  have hdyB : t1.ballData a 1 - (t1.ballData b 1 + t1.ballData b 4)
      = (1 - c + beta) * (-ey) := by
    rw [ha1, hb1, b4', hva.2]; ring
  have hviB : t1.ballData b 3 = (-beta) * (-ex) ∧ t1.ballData b 4 = (-beta) * (-ey) := by
    rw [b3', b4']; constructor <;> ring
  have hvjB : t1.ballData a 3 = 0 * (-ex) ∧ t1.ballData a 4 = 0 * (-ey) := by
    rw [a3', a4']; constructor <;> ring
  obtain ⟨t2, hp2, -, -, -, -, -, b3f, b4f, a3f, a4f⟩ :=
    ballPass_aligned t1 b a hba' hbaB haaB hdeadB hpB hwxB hwyB
      (-ex) (-ey) (1 - c + beta) (-beta) 0 hLB (neg_ne_zero.mpr hex0) hm0B hm1B hdxB hdyB
      hviB hvjB
  rw [← hF2def] at b3f b4f a3f a4f
  have hk2 : |(-beta) * F2| = beta * F2 := by
    have hneg : (-beta) * F2 < 0 := by
      have := mul_pos hbeta0 hF2pos
      linarith
    rw [abs_of_neg hneg]; ring
  rw [hk2] at b3f b4f a3f a4f
  refine ⟨t2, by rw [hp1, Option.some_bind, hp2], -(0.8 * (beta * F2)), 1.6 * (beta * F2),
    by rw [a3f]; ring, by rw [a4f]; ring, by rw [b3f]; ring, by rw [b4f]; ring, ?_, ?_⟩
  · rw [abs_neg, abs_of_pos (by positivity)]
    have h1 : beta * F2 ≤ c * 0.997 := mul_le_mul hbetac hF2le hF2pos.le hc0.le
    linarith
  · have := mul_pos hbeta0 hF2pos
    linarith

/-- The head-on collision when the pass of the resting ball `b` comes first:
the velocities after both passes are multiples `ka * e` and `kb * e` of the
vector `e` from `a` to `b`, with `|ka| < c` and `kb ≠ 0`. -/
theorem head_on_second (t : Table ℝ) (a b : Fin 7) (hab : a ≠ b)
    (haa : ¬ t.ballData a 5 < 0) (hba : ¬ t.ballData b 5 < 0)
    (hdead : ∀ k, k ≠ a → k ≠ b → t.ballData k 5 < 0)
    (ex ey c : ℝ) (hL : ex ^ 2 + ey ^ 2 = (628097 / 1048576) ^ 2) (hex0 : ex ≠ 0)
    (hc0 : 0 < c) (hc1 : c < 1) (hcs : c ^ 2 * (628097 / 1048576) ^ 2 ≤ 0.5 ^ 2)
    (hxb : t.ballData b 0 = t.ballData a 0 + ex) (hyb : t.ballData b 1 = t.ballData a 1 + ey)
    (hva : t.ballData a 3 = c * ex ∧ t.ballData a 4 = c * ey)
    (hrest : t.ballData b 3 = 0 ∧ t.ballData b 4 = 0)
    (hpocket : ∀ j, ¬ hitsPocket t a j ∧ ¬ hitsPocket t b j)
    (hwall : ∀ mu : ℝ, 0 ≤ mu → mu ≤ 1 →
      ¬ wallTest (t.ballData a 0 + mu * (c * ex)) (c * ex) 8.2 ∧
      ¬ wallTest (t.ballData a 1 + mu * (c * ey)) (c * ey) 4.7 ∧
      ¬ wallTest (t.ballData b 0 + mu * (c * ex)) (c * ex) 8.2 ∧
      ¬ wallTest (t.ballData b 1 + mu * (c * ey)) (c * ey) 4.7) :
    ∃ t2, ((ballPass Real.sqrt Real.rpow b t).bind fun t1 => ballPass Real.sqrt Real.rpow a t1)
        = some t2 ∧
      ∃ ka kb : ℝ, t2.ballData a 3 = ka * ex ∧ t2.ballData a 4 = ka * ey ∧
        t2.ballData b 3 = kb * ex ∧ t2.ballData b 4 = kb * ey ∧ |ka| < c ∧ kb ≠ 0 := by
  have hba' : b ≠ a := fun e => hab e.symm
  -- the pass of `b`, which is at rest
  obtain ⟨hwxB, hwyB⟩ := no_wallTrigger t b (t.ballData b 0) (t.ballData b 1) (c * ex) (c * ey)
    0 0 le_rfl (by rw [hrest.1]; ring) (by rw [hrest.2]; ring)
    ⟨by rw [hrest.1]; ring, by rw [hrest.2]; ring⟩
    (hwall 0 le_rfl (by norm_num)).2.2.1 (hwall 0 le_rfl (by norm_num)).2.2.2
  have hpB : ¬ ∃ k, hitsPocket t b k := fun ⟨k, hk⟩ => (hpocket k).2 hk
  have hdeadB : ∀ k, k ≠ b → k ≠ a → t.ballData k 5 < 0 := fun k hkb hka => hdead k hka hkb
  have hLB : (-ex) ^ 2 + (-ey) ^ 2 = (628097 / 1048576) ^ 2 := by rw [neg_sq, neg_sq]; exact hL
  have hdxB : t.ballData a 0 - (t.ballData b 0 + t.ballData b 3) = 1 * (-ex) := by
    rw [hxb, hrest.1]; ring
  have hdyB : t.ballData a 1 - (t.ballData b 1 + t.ballData b 4) = 1 * (-ey) := by
    rw [hyb, hrest.2]; ring
  have hviB : t.ballData b 3 = 0 * (-ex) ∧ t.ballData b 4 = 0 * (-ey) := by
    rw [hrest.1, hrest.2]; constructor <;> ring
  have hvjB : t.ballData a 3 = (-c) * (-ex) ∧ t.ballData a 4 = (-c) * (-ey) := by
    rw [hva.1, hva.2]; constructor <;> ring
  obtain ⟨t1, hp1, hq1, h51, hpos1, hb0, hb1, b3, b4, a3, a4⟩ :=
    ballPass_aligned t b a hba' hba haa hdeadB hpB hwxB hwyB
      (-ex) (-ey) 1 0 (-c) hLB (neg_ne_zero.mpr hex0) one_pos le_rfl hdxB hdyB hviB hvjB
  simp only [zero_mul, abs_zero, sub_self, mul_zero, add_zero] at b3 b4 a3 a4
  have a3' : t1.ballData a 3 = (0.8 * c) * ex := by rw [a3]; ring
  have a4' : t1.ballData a 4 = (0.8 * c) * ey := by rw [a4]; ring
  have ha0 : t1.ballData a 0 = t.ballData a 0 := (hpos1 a hab).1
  have ha1 : t1.ballData a 1 = t.ballData a 1 := (hpos1 a hab).2
  have hb0' : t1.ballData b 0 = t.ballData a 0 + ex := by rw [hb0, hrest.1, hxb]; ring
  have hb1' : t1.ballData b 1 = t.ballData a 1 + ey := by rw [hb1, hrest.2, hyb]; ring
  -- the braking factor of the pass of `a`
  have hq3 : ((0.8 * c) * ex) ^ 2 + ((0.8 * c) * ey) ^ 2 = (0.8 * c) ^ 2 * (628097 / 1048576) ^ 2 := by
    have : ((0.8 * c) * ex) ^ 2 + ((0.8 * c) * ey) ^ 2 = (0.8 * c) ^ 2 * (ex ^ 2 + ey ^ 2) := by
      ring
    rw [this, hL]
  have hc2 : (0.8 * c) ^ 2 ≤ c ^ 2 := sq_le_sq' (by linarith) (by linarith)
  have hF3 := braking_factor_bounds (q := ((0.8 * c) * ex) ^ 2 + ((0.8 * c) * ey) ^ 2)
    (by rw [hq3]; positivity) (by
      rw [hq3]
      have h1 := mul_le_mul_of_nonneg_right hc2 (by norm_num : (0 : ℝ) ≤ (628097 / 1048576) ^ 2)
      have h2 : (0.5 : ℝ) ^ 2 ≤ 1 := by norm_num
      linarith)
  obtain ⟨F3, hF3def⟩ : ∃ F3,
      F3 = Real.rpow (((0.8 * c) * ex) ^ 2 + ((0.8 * c) * ey) ^ 2) 0.002 * 0.997 := ⟨_, rfl⟩
  rw [← hF3def] at hF3
  obtain ⟨hF3pos, hF3le⟩ := hF3
  -- the pass of `a`
  obtain ⟨hwxA, hwyA⟩ := no_wallTrigger t1 a (t.ballData a 0) (t.ballData a 1) (c * ex) (c * ey)
    0.8 0.8 (by norm_num)
    (by rw [ha0, a3']; ring) (by rw [ha1, a4']; ring)
    ⟨by rw [a3']; ring, by rw [a4']; ring⟩
    (hwall 0.8 (by norm_num) (by norm_num)).1 (hwall 0.8 (by norm_num) (by norm_num)).2.1
  have hpA : ¬ ∃ k, hitsPocket t1 a k := by
    rintro ⟨k, hk⟩
    exact (hpocket k).1 ((hitsPocket_congr hq1 ha0 ha1 k).mp hk)
  have haaA : ¬ t1.ballData a 5 < 0 := by rw [h51]; exact haa
  have hbaA : ¬ t1.ballData b 5 < 0 := by rw [h51]; exact hba
  have hdeadA : ∀ k, k ≠ a → k ≠ b → t1.ballData k 5 < 0 := by
    intro k hka hkb
    rw [h51]
    exact hdead k hka hkb
  have hm0A : 0 < 1 - 0.8 * c := by linarith
  have hm1A : 1 - 0.8 * c ≤ 1 := by linarith
  have hdxA : t1.ballData b 0 - (t1.ballData a 0 + t1.ballData a 3) = (1 - 0.8 * c) * ex := by
    rw [hb0', ha0, a3']; ring
  have hdyA : t1.ballData b 1 - (t1.ballData a 1 + t1.ballData a 4) = (1 - 0.8 * c) * ey := by
    rw [hb1', ha1, a4']; ring
  have hvjA : t1.ballData b 3 = 0 * ex ∧ t1.ballData b 4 = 0 * ey := by
    rw [b3, b4]; constructor <;> ring
  obtain ⟨t2, hp2, -, -, -, -, -, a3f, a4f, b3f, b4f⟩ :=
    ballPass_aligned t1 a b hab haaA hbaA hdeadA hpA hwxA hwyA
      ex ey (1 - 0.8 * c) (0.8 * c) 0 hL hex0 hm0A hm1A hdxA hdyA ⟨a3', a4'⟩ hvjA
  rw [← hF3def] at a3f a4f b3f b4f
  have hk3 : |0.8 * c * F3| = 0.8 * c * F3 := abs_of_pos (by positivity)
  rw [hk3] at a3f a4f b3f b4f
  refine ⟨t2, by rw [hp1, Option.some_bind, hp2], 0, 0.8 * (0.8 * c * F3),
    by rw [a3f]; ring, by rw [a4f]; ring, by rw [b3f]; ring, by rw [b4f]; ring, ?_, ?_⟩
  · rw [abs_zero]; exact hc0
  · have : 0 < 0.8 * (0.8 * c * F3) := by positivity
    exact this.ne'

theorem twoBalls_rows :
    ((twoBalls : Game F).table.ballData 0 0 = 0 ∧ (twoBalls : Game F).table.ballData 0 1 = 0 ∧
      (twoBalls : Game F).table.ballData 0 3 = 0.25 ∧
      (twoBalls : Game F).table.ballData 0 4 = 0 ∧
      (twoBalls : Game F).table.ballData 0 5 = 1) ∧
    ((twoBalls : Game F).table.ballData 1 0 = (628097 / 1048576) ∧
      (twoBalls : Game F).table.ballData 1 1 = 0 ∧
      (twoBalls : Game F).table.ballData 1 3 = 0 ∧
      (twoBalls : Game F).table.ballData 1 4 = 0 ∧
      (twoBalls : Game F).table.ballData 1 5 = 1) :=
  ⟨⟨rfl, rfl, rfl, rfl, rfl⟩, ⟨rfl, rfl, rfl, rfl, rfl⟩⟩

theorem twoBalls_dead (k : Fin 7) (h0 : k ≠ 0) (h1 : k ≠ 1) :
    (twoBalls : Game F).table.ballData k 5 < 0 := by
  have e : (twoBalls : Game F).table.ballData k 5 = -1 := by
    simp only [twoBalls]
    rw [if_neg h0, if_neg h1]
    rfl
  rw [e]
  norm_num

theorem twoBalls_no_pocket (j : Fin 6) :
    ¬ hitsPocket (twoBalls : Game F).table 0 j ∧ ¬ hitsPocket (twoBalls : Game F).table 1 j := by
  obtain ⟨⟨a0, a1, -⟩, ⟨b0, b1, -⟩⟩ := twoBalls_rows (F := F)
  obtain ⟨p0, p1, p2, p3, p4, p5⟩ := pocketsPositions_eq (F := F)
  have hq : (twoBalls : Game F).table.pocketData j = Params.Table.pocketsPositions j := rfl
  simp only [hitsPocket, a0, a1, b0, b1, hq]
  fin_cases j <;> simp only [Fin.zero_eta, Fin.mk_one, Fin.reduceFinMk] <;>
    simp only [p0, p1, p2, p3, p4, p5] <;> norm_num

theorem twoBalls_no_wall (mu : ℝ) (_h0 : 0 ≤ mu) (h1 : mu ≤ 1) :
    ¬ wallTest ((twoBalls : Game ℝ).table.ballData 0 0
        + mu * (twoBalls : Game ℝ).table.ballData 0 3)
      ((twoBalls : Game ℝ).table.ballData 0 3) 8.2 ∧
    ¬ wallTest ((twoBalls : Game ℝ).table.ballData 0 1
        + mu * (twoBalls : Game ℝ).table.ballData 0 4)
      ((twoBalls : Game ℝ).table.ballData 0 4) 4.7 ∧
    ¬ wallTest ((twoBalls : Game ℝ).table.ballData 1 0
        + mu * (twoBalls : Game ℝ).table.ballData 0 3)
      ((twoBalls : Game ℝ).table.ballData 0 3) 8.2 ∧
    ¬ wallTest ((twoBalls : Game ℝ).table.ballData 1 1
        + mu * (twoBalls : Game ℝ).table.ballData 0 4)
      ((twoBalls : Game ℝ).table.ballData 0 4) 4.7 := by
  obtain ⟨⟨a0, a1, a3, a4, -⟩, ⟨b0, b1, -⟩⟩ := twoBalls_rows (F := ℝ)
  rw [a0, a1, a3, a4, b0, b1]
  refine ⟨?_, ?_, ?_, ?_⟩
  · rintro (⟨h, -⟩ | ⟨-, h⟩)
    · rw [abs_lt] at h
      nlinarith [h.1]
    · norm_num at h
  · rintro (⟨-, h⟩ | ⟨-, h⟩) <;> exact lt_irrefl _ h
  · rintro (⟨h, -⟩ | ⟨-, h⟩)
    · rw [abs_lt] at h
      nlinarith [h.1]
    · norm_num at h
  · rintro (⟨-, h⟩ | ⟨-, h⟩) <;> exact lt_irrefl _ h

/-- C13: `Game::mouseButtonPressed` sets `isChargingShot` to true and leaves
`shotChargeProgress` and the table (every field of every ball and pocket) as
they are, wherever the button is pressed; pressing twice gives the same state
as pressing once. -/
theorem press_begins_charging (x y x2 y2 : F) (g : Game F) :
    (Game.mouseButtonPressed x y g).isChargingShot = true ∧
      (Game.mouseButtonPressed x y g).shotChargeProgress = g.shotChargeProgress ∧
      (Game.mouseButtonPressed x y g).table = g.table ∧
      (∀ i c, (Game.mouseButtonPressed x y g).table.ballData i c = g.table.ballData i c) ∧
      (∀ j, (Game.mouseButtonPressed x y g).table.pocketData j = g.table.pocketData j) ∧
      Game.mouseButtonPressed x2 y2 (Game.mouseButtonPressed x y g)
        = Game.mouseButtonPressed x y g :=
  ⟨rfl, rfl, rfl, fun _ _ => rfl, fun _ => rfl, rfl⟩

/-! ## Free motion of the only ball on the table -/

/-- With ball `i` the only alive ball, hitting no pocket, the loop over the
balls is defined and is integration, braking and wall reflection of ball `i`. -/
theorem ballLoop_alone (sqrt : F → F) (pow : F → F → F) (t : Table F) (i : Fin 7)
    (ha : ¬ t.ballData i 5 < 0) (hp : ¬ ∃ j, hitsPocket t i j)
    (hdead : ∀ j, j ≠ i → t.ballData j 5 < 0) :
    ∃ t', ballLoop sqrt pow (List.finRange 7) t = some t' ∧
      t'.ballData i 0 = t.ballData i 0 + t.ballData i 3 ∧
      t'.ballData i 1 = t.ballData i 1 + t.ballData i 4 ∧
      t'.ballData i 2 = t.ballData i 2
        * (if xWallTrigger pow t i then -1 else 1) * (if yWallTrigger pow t i then -1 else 1) ∧
      t'.ballData i 3
        = (if xWallTrigger pow t i then dampedVx pow t i * (-0.5) else dampedVx pow t i) ∧
      t'.ballData i 4
        = (if yWallTrigger pow t i then dampedVy pow t i * (-0.5) else dampedVy pow t i) ∧
      t'.ballData i 5 = t.ballData i 5 ∧
      ∀ j c, j ≠ i → t'.ballData j c = t.ballData j c := by
  have hb := braking_some pow (changePosition t i) i
  obtain ⟨-, hrow, -, -⟩ := motion_frame hb
  obtain ⟨r0, r1, r2, r3, r4, r5⟩ := motion_row hb
  refine ⟨_, ?_, r0, r1, r2, r3, r4, r5, fun j c hj => hrow j c (Or.inl hj)⟩
  rw [ballLoop_filter _ t (List.nodup_finRange 7), filter_finRange_single i _ (by
      intro k
      simp only [decide_eq_true_eq]
      constructor
      · intro hk
        by_contra hcon
        exact hk (hdead k hcon)
      · rintro rfl
        exact ha),
    ballLoop, ballPass_moved ha hp, hb, Option.some_bind, touchingBall_none, Option.some_bind,
    ballLoop]
  intro j _
  by_cases hj : j = i
  · exact Or.inl hj
  · exact Or.inr (Or.inl (by rw [hrow j 5 (Or.inl hj)]; exact hdead j hj))

/-- The braking factor in terms of the speed: the power `0.002` of the squared
speed is the power `0.004` of the speed. -/
theorem rpow_sqrt_speed (vx vy : ℝ) :
    Real.rpow (vx ^ 2 + vy ^ 2) 0.002 = Real.rpow (Real.sqrt (vx ^ 2 + vy ^ 2)) 0.004 := by
  have hq : 0 ≤ vx ^ 2 + vy ^ 2 := by positivity
  show (vx ^ 2 + vy ^ 2) ^ (0.002 : ℝ) = Real.sqrt (vx ^ 2 + vy ^ 2) ^ (0.004 : ℝ)
  rw [Real.sqrt_eq_rpow, ← Real.rpow_mul hq]
  norm_num

theorem cueAlone_cue (x y s vx vy : F) :
    (cueAlone x y s vx vy).table.ballData 0 0 = x ∧
      (cueAlone x y s vx vy).table.ballData 0 1 = y ∧
      (cueAlone x y s vx vy).table.ballData 0 2 = s ∧
      (cueAlone x y s vx vy).table.ballData 0 3 = vx ∧
      (cueAlone x y s vx vy).table.ballData 0 4 = vy ∧
      (cueAlone x y s vx vy).table.ballData 0 5 = 1 :=
  ⟨rfl, rfl, rfl, rfl, rfl, rfl⟩

theorem cueAlone_dead (x y s vx vy : F) (j : Fin 7) (hj : j ≠ 0) :
    (cueAlone x y s vx vy).table.ballData j 5 < 0 := by
  have e : (cueAlone x y s vx vy).table.ballData j 5 = -1 := by
    simp only [cueAlone]
    rw [if_neg hj]
    rfl
  rw [e]
  norm_num

/-- The cue ball alone at the centre of the table with velocity `(1/4, 0)`
meets the hypotheses of the free motion step. -/
theorem cueAlone_free :
    (0 : ℝ) ≤ (cueAlone (0 : ℝ) 0 0 0.25 0).table.ballData 0 5 ∧
      (¬ ∃ j, hitsPocket (cueAlone (0 : ℝ) 0 0 0.25 0).table 0 j) ∧
      ¬ xWallTrigger Real.rpow (cueAlone (0 : ℝ) 0 0 0.25 0).table 0 ∧
      ¬ yWallTrigger Real.rpow (cueAlone (0 : ℝ) 0 0 0.25 0).table 0 ∧
      ∀ j, j ≠ 0 → (cueAlone (0 : ℝ) 0 0 0.25 0).table.ballData j 5 < 0 := by
  obtain ⟨c0, c1, -, c3, c4, c5⟩ := cueAlone_cue (0 : ℝ) 0 0 0.25 0
  obtain ⟨p0, p1, p2, p3, p4, p5⟩ := pocketsPositions_eq (F := ℝ)
  refine ⟨by rw [c5]; norm_num, ?_, ?_, ?_, fun j hj => cueAlone_dead _ _ _ _ _ j hj⟩
  · rintro ⟨j, hj⟩
    have hq : (cueAlone (0 : ℝ) 0 0 0.25 0).table.pocketData j
        = Params.Table.pocketsPositions j := rfl
    simp only [hitsPocket, c0, c1, hq] at hj
    revert hj
    fin_cases j <;> simp only [Fin.zero_eta, Fin.mk_one, Fin.reduceFinMk] <;>
      simp only [p0, p1, p2, p3, p4, p5] <;> norm_num
  · simp only [xWallTrigger, c0, c3]
    rintro (⟨h, -⟩ | ⟨h, -⟩) <;> rw [abs_lt] at h <;> norm_num at h
  · simp only [yWallTrigger, c1, c4]
    rintro (⟨h, -⟩ | ⟨h, -⟩) <;> rw [abs_lt] at h <;> norm_num at h

/-- The unit vector from the centre of `i` to the centre of `j` is the
opposite of the normalised difference `p_i - p_j`. -/
theorem towards_eq (t : Table ℝ) (i j : Fin 7) :
    towardsX Real.sqrt t i j = -((t.ballData i 0 - t.ballData j 0)
        / Real.sqrt ((t.ballData i 0 - t.ballData j 0) ^ 2
          + (t.ballData i 1 - t.ballData j 1) ^ 2)) ∧
      towardsY Real.sqrt t i j = -((t.ballData i 1 - t.ballData j 1)
        / Real.sqrt ((t.ballData i 0 - t.ballData j 0) ^ 2
          + (t.ballData i 1 - t.ballData j 1) ^ 2)) := by
  have e : (t.ballData j 0 - t.ballData i 0) ^ 2 + (t.ballData j 1 - t.ballData i 1) ^ 2
      = (t.ballData i 0 - t.ballData j 0) ^ 2 + (t.ballData i 1 - t.ballData j 1) ^ 2 := by
    ring
  simp only [towardsX, towardsY, e]
  constructor <;> ring

theorem towards_unit (t : Table ℝ) (i j : Fin 7) (hx : t.ballData i 0 ≠ t.ballData j 0) :
    towardsX Real.sqrt t i j ^ 2 + towardsY Real.sqrt t i j ^ 2 = 1 := by
  have hd : t.ballData j 0 - t.ballData i 0 ≠ 0 := sub_ne_zero.mpr (Ne.symm hx)
  have hD := dist_pos (t.ballData j 1 - t.ballData i 1) hd
  have hq : (0 : ℝ) ≤ (t.ballData j 0 - t.ballData i 0) ^ 2
      + (t.ballData j 1 - t.ballData i 1) ^ 2 := by positivity
  simp only [towardsX, towardsY]
  rw [div_pow, div_pow, Real.sq_sqrt hq, ← add_div, div_self]
  intro h0
  rw [h0, Real.sqrt_zero] at hD
  exact lt_irrefl _ hD

/-- One step of the collision loop of ball `i` with an alive partner `j` in
contact, not on the same vertical: the step is the exchange, which is
defined; in vector form, with `u` the unit vector from `i` to `j` and `S` the
speed of `i`, `v_j := 0.8 * (v_j + S * u)` and `v_i := 0.8 * (v_i - S * u)`. -/
theorem touchingBall_single (t : Table ℝ) (i j : Fin 7) (hij : i ≠ j)
    (haj : 0 ≤ t.ballData j 5) (hx : t.ballData i 0 ≠ t.ballData j 0)
    (ht : ballsTouch t i j) :
    ∃ t', touchingBall Real.sqrt i [j] t = some t' ∧ exchange Real.sqrt t i j = some t' ∧
      t'.pocketData = t.pocketData ∧
      (∀ k c, (k ≠ i ∧ k ≠ j) ∨ c = 0 ∨ c = 1 ∨ c = 5 → t'.ballData k c = t.ballData k c) ∧
      t'.ballData i 2 = (t.ballData i 1 - t.ballData j 1) / (t.ballData i 0 - t.ballData j 0) ∧
      t'.ballData j 2 = (t.ballData i 1 - t.ballData j 1) / (t.ballData i 0 - t.ballData j 0) ∧
      t'.ballData j 3
        = 0.8 * (t.ballData j 3 + speed Real.sqrt t i * towardsX Real.sqrt t i j) ∧
      t'.ballData j 4
        = 0.8 * (t.ballData j 4 + speed Real.sqrt t i * towardsY Real.sqrt t i j) ∧
      t'.ballData i 3
        = 0.8 * (t.ballData i 3 - speed Real.sqrt t i * towardsX Real.sqrt t i j) ∧
      t'.ballData i 4
        = 0.8 * (t.ballData i 4 - speed Real.sqrt t i * towardsY Real.sqrt t i j) := by
  obtain ⟨t', he, hq, hf, s1, s2, v1, v2, v3, v4⟩ := exchange_vector t i j hx
  obtain ⟨ux, uy⟩ := towards_eq t i j
  refine ⟨t', ?_, he, hq, hf, s1, s2, ?_, ?_, ?_, ?_⟩
  · rw [touchingBall, if_neg (by
      rintro (e | e)
      · exact hij e
      · exact not_lt.mpr haj e), if_pos ht, he, Option.some_bind, touchingBall]
  · rw [v3, ux, speed]; ring
  · rw [v4, uy, speed]; ring
  · rw [v1, ux, speed]; ring
  · rw [v2, uy, speed]; ring

/-! ## The speeds after one collision -/

theorem dot_le_speed (vx vy : ℝ) {ex ey : ℝ} (he : ex ^ 2 + ey ^ 2 = 1) :
    |vx * ex + vy * ey| ≤ Real.sqrt (vx ^ 2 + vy ^ 2) := by
  apply Real.abs_le_sqrt
  have h : (vx * ex + vy * ey) ^ 2 + (vx * ey - vy * ex) ^ 2
      = (vx ^ 2 + vy ^ 2) * (ex ^ 2 + ey ^ 2) := by ring
  rw [he, mul_one] at h
  nlinarith [sq_nonneg (vx * ey - vy * ex)]

/-- The squared speed of the ball of the pass after the exchange. -/
theorem pushed_self_sq {vx vy ex ey S : ℝ} (he : ex ^ 2 + ey ^ 2 = 1)
    (hS : S ^ 2 = vx ^ 2 + vy ^ 2) :
    (0.8 * (vx - S * ex)) ^ 2 + (0.8 * (vy - S * ey)) ^ 2
      = 1.28 * S * (S - (vx * ex + vy * ey)) := by
  linear_combination (-0.64) * hS + 0.64 * S ^ 2 * he

/-- The squared speed of the partner after the exchange. -/
theorem pushed_partner_sq {wx wy ex ey S W : ℝ} (he : ex ^ 2 + ey ^ 2 = 1)
    (hW : W ^ 2 = wx ^ 2 + wy ^ 2) :
    (0.8 * (wx + S * ex)) ^ 2 + (0.8 * (wy + S * ey)) ^ 2
      = 0.64 * (W ^ 2 + 2 * S * (wx * ex + wy * ey) + S ^ 2) := by
  linear_combination (-0.64) * hW + 0.64 * S ^ 2 * he

/-- The velocity `v` is opposite to the unit vector `e` (or zero) exactly
when it is a nonnegative multiple of `-(D * e)`, for any length `D > 0`. -/
theorem away_iff {vx vy ex ey S D : ℝ} (he : ex ^ 2 + ey ^ 2 = 1)
    (hS : S ^ 2 = vx ^ 2 + vy ^ 2) (hS0 : 0 ≤ S) (hD : 0 < D) :
    (S = 0 ∨ vx * ex + vy * ey = -S) ↔
      ∃ c, 0 ≤ c ∧ vx = c * (-(D * ex)) ∧ vy = c * (-(D * ey)) := by
  constructor
  · rintro (h0 | hp)
    · rw [h0] at hS
      have hvx : vx = 0 := by nlinarith [sq_nonneg vx, sq_nonneg vy]
      have hvy : vy = 0 := by nlinarith [sq_nonneg vx, sq_nonneg vy]
      exact ⟨0, le_refl 0, by rw [hvx]; ring, by rw [hvy]; ring⟩
    · have hz : (vx + S * ex) ^ 2 + (vy + S * ey) ^ 2 = 0 := by
        linear_combination (-1) * hS + 2 * S * hp + S ^ 2 * he
      have h1 : vx + S * ex = 0 := by nlinarith [sq_nonneg (vx + S * ex), sq_nonneg (vy + S * ey)]
      have h2 : vy + S * ey = 0 := by nlinarith [sq_nonneg (vx + S * ex), sq_nonneg (vy + S * ey)]
      refine ⟨S / D, div_nonneg hS0 hD.le, ?_, ?_⟩
      · field_simp
        linear_combination D * h1
      · field_simp
        linear_combination D * h2
  · rintro ⟨c, hc, hvx, hvy⟩
    have hsq : S ^ 2 = (c * D) ^ 2 := by
      rw [hS, hvx, hvy]
      linear_combination c ^ 2 * D ^ 2 * he
    have hSc : S = c * D := by
      have hcD : 0 ≤ c * D := mul_nonneg hc hD.le
      nlinarith [sq_nonneg (S - c * D), sq_nonneg (S + c * D)]
    right
    rw [hvx, hvy, hSc]
    linear_combination (-(c * D)) * he

/-- The speeds after the exchange, for a velocity `v` of the ball of the pass,
a velocity `w` of its partner and a unit vector `e` from the ball to the
partner. -/
theorem pushed_bounds (vx vy wx wy ex ey : ℝ) (he : ex ^ 2 + ey ^ 2 = 1) :
    Real.sqrt ((0.8 * (vx - Real.sqrt (vx ^ 2 + vy ^ 2) * ex)) ^ 2
        + (0.8 * (vy - Real.sqrt (vx ^ 2 + vy ^ 2) * ey)) ^ 2)
      ≤ 1.6 * Real.sqrt (vx ^ 2 + vy ^ 2) ∧
    (Real.sqrt ((0.8 * (vx - Real.sqrt (vx ^ 2 + vy ^ 2) * ex)) ^ 2
        + (0.8 * (vy - Real.sqrt (vx ^ 2 + vy ^ 2) * ey)) ^ 2)
      = 1.6 * Real.sqrt (vx ^ 2 + vy ^ 2) ↔
        (Real.sqrt (vx ^ 2 + vy ^ 2) = 0 ∨
          vx * ex + vy * ey = -Real.sqrt (vx ^ 2 + vy ^ 2))) ∧
    Real.sqrt ((0.8 * (wx + Real.sqrt (vx ^ 2 + vy ^ 2) * ex)) ^ 2
        + (0.8 * (wy + Real.sqrt (vx ^ 2 + vy ^ 2) * ey)) ^ 2)
      ≤ 0.8 * (Real.sqrt (wx ^ 2 + wy ^ 2) + Real.sqrt (vx ^ 2 + vy ^ 2)) := by
  have hS0 : 0 ≤ Real.sqrt (vx ^ 2 + vy ^ 2) := Real.sqrt_nonneg _
  have hS : Real.sqrt (vx ^ 2 + vy ^ 2) ^ 2 = vx ^ 2 + vy ^ 2 := Real.sq_sqrt (by positivity)
  have hW0 : 0 ≤ Real.sqrt (wx ^ 2 + wy ^ 2) := Real.sqrt_nonneg _
  have hW : Real.sqrt (wx ^ 2 + wy ^ 2) ^ 2 = wx ^ 2 + wy ^ 2 := Real.sq_sqrt (by positivity)
  obtain ⟨hp1, hp2⟩ := abs_le.mp (dot_le_speed vx vy he)
  obtain ⟨hq1, hq2⟩ := abs_le.mp (dot_le_speed wx wy he)
  generalize Real.sqrt (vx ^ 2 + vy ^ 2) = S at *
  generalize Real.sqrt (wx ^ 2 + wy ^ 2) = W at *
  rw [pushed_self_sq he hS, pushed_partner_sq he hW]
  have hsp : 0 ≤ S * (S + (vx * ex + vy * ey)) := mul_nonneg hS0 (by linarith)
  have hsm : 0 ≤ S * (S - (vx * ex + vy * ey)) := mul_nonneg hS0 (by linarith)
  refine ⟨?_, ?_, ?_⟩
  · rw [Real.sqrt_le_iff]
    exact ⟨by positivity, by nlinarith⟩
  · rw [Real.sqrt_eq_iff_eq_sq (by nlinarith) (by positivity)]
    constructor
    · intro h
      have hz : S * (S + (vx * ex + vy * ey)) = 0 := by linear_combination (-1 / 1.28) * h
      rcases mul_eq_zero.mp hz with h0 | h0
      · exact Or.inl h0
      · exact Or.inr (by linarith)
    · rintro (h0 | h0)
      · rw [h0]; ring
      · rw [h0]; ring
  · rw [Real.sqrt_le_iff]
    refine ⟨by positivity, ?_⟩
    have hle : S * (wx * ex + wy * ey) ≤ S * W := mul_le_mul_of_nonneg_left hq2 hS0
    nlinarith

/-- The position of an alive ball after its own pass, when it hits no pocket. -/
theorem ballPass_position {sqrt : F → F} {pow : F → F → F} {t t' : Table F} {i : Fin 7}
    (h : ballPass sqrt pow i t = some t') (ha : ¬ t.ballData i 5 < 0)
    (hp : ¬ ∃ j, hitsPocket t i j) :
    t'.ballData i 0 = t.ballData i 0 + t.ballData i 3 ∧
      t'.ballData i 1 = t.ballData i 1 + t.ballData i 4 := by
  rw [ballPass_moved ha hp] at h
  obtain ⟨t2, hb, hl⟩ := Option.bind_eq_some.mp h
  obtain ⟨-, -, hx, hy⟩ := motion_frame hb
  obtain ⟨-, hpos, -⟩ := touchingBall_frame _ hl
  exact ⟨by rw [hpos i 0 (Or.inl rfl), hx], by rw [hpos i 1 (Or.inr (Or.inl rfl)), hy]⟩

/-- No wall test holds on the segment the two balls of `twoBalls` move on. -/
theorem no_wall_centre (x mu : ℝ) (hx1 : x ≤ (628097 / 1048576)) (h1 : mu ≤ 1) :
    ¬ wallTest (x + mu * (0.25 / (628097 / 1048576) * (628097 / 1048576))) (0.25 / (628097 / 1048576) * (628097 / 1048576)) 8.2 ∧
      ¬ wallTest (0 + mu * (0.25 / (628097 / 1048576) * 0)) (0.25 / (628097 / 1048576) * 0) 4.7 := by
  have hce : (0.25 / (628097 / 1048576) * (628097 / 1048576) : ℝ) = 0.25 := by norm_num
  rw [hce, mul_zero, mul_zero, add_zero]
  constructor
  · rintro (⟨h, -⟩ | ⟨-, h⟩)
    · rw [abs_lt] at h
      nlinarith [h.1]
    · norm_num at h
  · rintro (⟨-, h⟩ | ⟨-, h⟩) <;> exact lt_irrefl _ h

theorem swapped_rows :
    ((Game.swapBalls 0 1 (twoBalls : Game F)).table.ballData 1 0 = 0 ∧
      (Game.swapBalls 0 1 (twoBalls : Game F)).table.ballData 1 1 = 0 ∧
      (Game.swapBalls 0 1 (twoBalls : Game F)).table.ballData 1 3 = 0.25 ∧
      (Game.swapBalls 0 1 (twoBalls : Game F)).table.ballData 1 4 = 0 ∧
      (Game.swapBalls 0 1 (twoBalls : Game F)).table.ballData 1 5 = 1) ∧
    ((Game.swapBalls 0 1 (twoBalls : Game F)).table.ballData 0 0 = (628097 / 1048576) ∧
      (Game.swapBalls 0 1 (twoBalls : Game F)).table.ballData 0 1 = 0 ∧
      (Game.swapBalls 0 1 (twoBalls : Game F)).table.ballData 0 3 = 0 ∧
      (Game.swapBalls 0 1 (twoBalls : Game F)).table.ballData 0 4 = 0 ∧
      (Game.swapBalls 0 1 (twoBalls : Game F)).table.ballData 0 5 = 1) :=
  ⟨⟨rfl, rfl, rfl, rfl, rfl⟩, ⟨rfl, rfl, rfl, rfl, rfl⟩⟩

theorem swapped_dead (k : Fin 7) (h0 : k ≠ 0) (h1 : k ≠ 1) :
    (Game.swapBalls 0 1 (twoBalls : Game F)).table.ballData k 5 < 0 := by
  have e : (Game.swapBalls 0 1 (twoBalls : Game F)).table.ballData k 5
      = (twoBalls : Game F).table.ballData k 5 := by
    simp only [Game.swapBalls, Table.swapBalls]
    rw [if_neg h0, if_neg h1]
  rw [e]
  exact twoBalls_dead k h0 h1

theorem swapped_no_pocket (j : Fin 6) :
    ¬ hitsPocket (Game.swapBalls 0 1 (twoBalls : Game F)).table 1 j ∧
      ¬ hitsPocket (Game.swapBalls 0 1 (twoBalls : Game F)).table 0 j :=
  twoBalls_no_pocket j

/-- The table `twoBalls`, where the moving ball has the smaller index: the
update is defined and leaves the moving ball (index 0) at `x = 0.25`, its old
position plus its old velocity. -/
theorem twoBalls_direct (dt : ℝ) :
    ∃ g1, Game.update Real.sqrt Real.rpow dt (twoBalls : Game ℝ) = some g1 ∧
      g1.table.ballData 0 0 = 0.25 := by
  obtain ⟨⟨a0, a1, a3, a4, a5⟩, ⟨b0, b1, b3, b4, b5⟩⟩ := twoBalls_rows (F := ℝ)
  have h01 : (0 : Fin 7) ≠ 1 := by decide
  have haa : ¬ (twoBalls : Game ℝ).table.ballData 0 5 < 0 := by rw [a5]; norm_num
  have hba : ¬ (twoBalls : Game ℝ).table.ballData 1 5 < 0 := by rw [b5]; norm_num
  obtain ⟨t2, h2, -⟩ := head_on_first (twoBalls : Game ℝ).table 0 1 h01 haa hba twoBalls_dead
    (628097 / 1048576) 0 (0.25 / (628097 / 1048576)) (by norm_num) (by norm_num) (by norm_num) (by norm_num)
    (by norm_num) (by rw [a0, b0]; norm_num) (by rw [a1, b1]; norm_num)
    ⟨by rw [a3]; norm_num, by rw [a4]; norm_num⟩ ⟨b3, b4⟩ twoBalls_no_pocket (by
      intro mu _ h1
      rw [a0, a1, b0, b1]
      exact ⟨(no_wall_centre 0 mu (by norm_num) h1).1, (no_wall_centre 0 mu (by norm_num) h1).2,
        (no_wall_centre (628097 / 1048576) mu le_rfl h1).1, (no_wall_centre 0 mu (by norm_num) h1).2⟩)
  obtain ⟨t1, hp0, hp1⟩ := Option.bind_eq_some.mp h2
  have hpos := (ballPass_position hp0 haa (fun ⟨j, hj⟩ => (twoBalls_no_pocket j).1 hj)).1
  have hfr := (ballPass_frame hp1).2.1 0 0 h01 (Or.inl rfl)
  refine ⟨_, update_eq_some.mpr ⟨t2, ?_, rfl⟩, ?_⟩
  · rw [ballLoop_pair _ 0 1 (by decide) haa hba twoBalls_dead]
    exact h2
  · show t2.ballData 0 0 = 0.25
    rw [hfr, hpos, a0, a3]
    norm_num

/-- The table `twoBalls` with the rows of the balls 0 and 1 exchanged, where
the resting ball has the smaller index: the update is defined and leaves the
moving ball (index 1) at `x = 0.2`, because the pass of the resting ball has
already multiplied its velocity by `0.8`. -/
theorem twoBalls_swapped (dt : ℝ) :
    ∃ g2, Game.update Real.sqrt Real.rpow dt (Game.swapBalls 0 1 (twoBalls : Game ℝ)) = some g2 ∧
      g2.table.ballData 1 0 = 0.2 := by
  obtain ⟨⟨a0, a1, a3, a4, a5⟩, ⟨b0, b1, b3, b4, b5⟩⟩ := swapped_rows (F := ℝ)
  have h10 : (1 : Fin 7) ≠ 0 := by decide
  have h01 : (0 : Fin 7) ≠ 1 := by decide
  have haa : ¬ (Game.swapBalls 0 1 (twoBalls : Game ℝ)).table.ballData 1 5 < 0 := by
    rw [a5]; norm_num
  have hba : ¬ (Game.swapBalls 0 1 (twoBalls : Game ℝ)).table.ballData 0 5 < 0 := by
    rw [b5]; norm_num
  have hdead : ∀ k : Fin 7, k ≠ 1 → k ≠ 0 →
      (Game.swapBalls 0 1 (twoBalls : Game ℝ)).table.ballData k 5 < 0 :=
    fun k h1 h0 => swapped_dead k h0 h1
  have hdead' : ∀ k : Fin 7, k ≠ 0 → k ≠ 1 →
      (Game.swapBalls 0 1 (twoBalls : Game ℝ)).table.ballData k 5 < 0 :=
    fun k h0 h1 => swapped_dead k h0 h1
  have hpock0 : ¬ ∃ k, hitsPocket (Game.swapBalls 0 1 (twoBalls : Game ℝ)).table 0 k :=
    fun ⟨j, hj⟩ => (swapped_no_pocket j).2 hj
  obtain ⟨t2, h2, -⟩ := head_on_second (Game.swapBalls 0 1 (twoBalls : Game ℝ)).table 1 0 h10
    haa hba hdead
    (628097 / 1048576) 0 (0.25 / (628097 / 1048576)) (by norm_num) (by norm_num) (by norm_num) (by norm_num)
    (by norm_num) (by rw [a0, b0]; norm_num) (by rw [a1, b1]; norm_num)
    ⟨by rw [a3]; norm_num, by rw [a4]; norm_num⟩ ⟨b3, b4⟩ swapped_no_pocket (by
      intro mu _ h1
      rw [a0, a1, b0, b1]
      exact ⟨(no_wall_centre 0 mu (by norm_num) h1).1, (no_wall_centre 0 mu (by norm_num) h1).2,
        (no_wall_centre (628097 / 1048576) mu le_rfl h1).1, (no_wall_centre 0 mu (by norm_num) h1).2⟩)
  obtain ⟨t1, hp0, hp1⟩ := Option.bind_eq_some.mp h2
  -- the pass of the resting ball 0, in contact with ball 1
  have hd0 : dampedVx Real.rpow (Game.swapBalls 0 1 (twoBalls : Game ℝ)).table 0 = 0 := by
    rw [dampedVx, b3]; ring
  have hd1 : dampedVy Real.rpow (Game.swapBalls 0 1 (twoBalls : Game ℝ)).table 0 = 0 := by
    rw [dampedVy, b4]; ring
  obtain ⟨t1', hp0', hq, h5, hpos, -, -, -, -, e5, -⟩ :=
    ballPass_contact (Game.swapBalls 0 1 (twoBalls : Game ℝ)).table 0 1 h01 hba haa hdead' hpock0
      (by
        simp only [xWallTrigger, b0, b3]
        rintro (⟨h, -⟩ | ⟨h, -⟩) <;> rw [abs_lt] at h <;> norm_num at h)
      (by
        simp only [yWallTrigger, b1, b4]
        rintro (⟨h, -⟩ | ⟨h, -⟩) <;> rw [abs_lt] at h <;> norm_num at h)
      (by rw [b0, b3, a0]; norm_num)
      (by
        unfold inContact
        rw [b0, b1, b3, b4, a0, a1]
        norm_num)
  rw [hp0, Option.some.injEq] at hp0'
  subst hp0'
  rw [hd0, hd1, a3] at e5
  have hv : t1.ballData 1 3 = 0.2 := by
    rw [e5]
    norm_num
  have ha1 : ¬ t1.ballData 1 5 < 0 := by rw [h5 1]; exact haa
  have hp1' : ¬ ∃ j, hitsPocket t1 1 j := by
    rintro ⟨j, hj⟩
    have hc : hitsPocket t1 1 j ↔ hitsPocket (Game.swapBalls 0 1 (twoBalls : Game ℝ)).table 1 j :=
      hitsPocket_congr hq (hpos 1 h10).1 (hpos 1 h10).2 j
    exact (swapped_no_pocket j).1 (hc.mp hj)
  have hfin := (ballPass_position hp1 ha1 hp1').1
  refine ⟨_, update_eq_some.mpr ⟨t2, ?_, rfl⟩, ?_⟩
  · rw [ballLoop_pair _ 0 1 (by decide) hba haa hdead']
    exact h2
  · show t2.ballData 1 0 = 0.2
    rw [hfin, (hpos 1 h10).1, a0, hv]
    norm_num

/-- C17: `Game::update` is not equivariant under renumbering of the balls:
on the table `twoBalls`, exchanging the rows of the balls 0 and 1, updating
and exchanging the rows back gives a state different from the one of the direct
update. -/
theorem update_order_dependent :
    ∃ (g : Game ℝ) (a b : Fin 7), a ≠ b ∧ ∀ dt : ℝ,
      (Game.update Real.sqrt Real.rpow dt (Game.swapBalls a b g)).map (Game.swapBalls a b)
        ≠ Game.update Real.sqrt Real.rpow dt g := by
  refine ⟨twoBalls, 0, 1, by decide, ?_⟩
  intro dt
  obtain ⟨g1, h1, x1⟩ := twoBalls_direct dt
  obtain ⟨g2, h2, x2⟩ := twoBalls_swapped dt
  rw [h1, h2, Option.map_some']
  intro he
  have hx : (Game.swapBalls 0 1 g2).table.ballData 0 0 = g1.table.ballData 0 0 := by
    rw [Option.some.injEq] at he
    rw [he]
  have hs : (Game.swapBalls 0 1 g2).table.ballData 0 0 = g2.table.ballData 1 0 := rfl
  rw [hs, x1, x2] at hx
  norm_num at hx

/-! ## The initial table is stable -/

theorem init_update {sqrt : F → F} {pow : F → F → F} (dt : F) :
    Game.update sqrt pow dt (Game.init : Game F) = some Game.init := by
  rw [update_eq_some]
  exact ⟨Table.init, init_ballLoop, by simp [Game.init, Game.chargeTick]⟩

theorem init_updates {sqrt : F → F} {pow : F → F → F} (dts : List F) :
    Game.updates sqrt pow dts (Game.init : Game F) = some Game.init := by
  induction dts with
  | nil => rfl
  | cons dt dts ih => rw [Game.updates, init_update, Option.some_bind, ih]

theorem init_beyond_capture (i : Fin 7) (j : Fin 6) :
    ¬ ((Game.init : Game F).table.ballData i 0 - ((Game.init : Game F).table.pocketData j).x) ^ 2
        + ((Game.init : Game F).table.ballData i 1
          - ((Game.init : Game F).table.pocketData j).y) ^ 2 ≤ (0.55 : F) ^ 2 := by
  obtain ⟨b0, b1, b2, b3, b4, b5, b6⟩ := ballsPositions_eq (F := F)
  obtain ⟨p0, p1, p2, p3, p4, p5⟩ := pocketsPositions_eq (F := F)
  show ¬ ((Table.init : Table F).ballData i 0 - ((Table.init : Table F).pocketData j).x) ^ 2
      + ((Table.init : Table F).ballData i 1 - ((Table.init : Table F).pocketData j).y) ^ 2
      ≤ (0.55 : F) ^ 2
  simp only [(init_ballData i).1, (init_ballData i).2.1, init_pocketData]
  fin_cases i <;> fin_cases j <;> simp only [Fin.zero_eta, Fin.mk_one, Fin.reduceFinMk] <;>
    simp only [b0, b1, b2, b3, b4, b5, b6, p0, p1, p2, p3, p4, p5] <;> norm_num

theorem init_beyond_contact (i j : Fin 7) (h : i ≠ j) :
    ¬ ((Game.init : Game F).table.ballData i 0 - (Game.init : Game F).table.ballData j 0) ^ 2
        + ((Game.init : Game F).table.ballData i 1
          - (Game.init : Game F).table.ballData j 1) ^ 2 ≤ (0.599 : F) ^ 2 := by
  obtain ⟨b0, b1, b2, b3, b4, b5, b6⟩ := ballsPositions_eq (F := F)
  show ¬ ((Table.init : Table F).ballData i 0 - (Table.init : Table F).ballData j 0) ^ 2
      + ((Table.init : Table F).ballData i 1 - (Table.init : Table F).ballData j 1) ^ 2
      ≤ (0.599 : F) ^ 2
  simp only [(init_ballData i).1, (init_ballData i).2.1, (init_ballData j).1,
    (init_ballData j).2.1]
  fin_cases i <;> fin_cases j <;> simp only [Fin.zero_eta, Fin.mk_one, Fin.reduceFinMk] <;>
    first
    | exact absurd rfl h
    | (simp only [b0, b1, b2, b3, b4, b5, b6]; norm_num)

/-- C20: in the initial layout no ball is within the capture radius `0.55` of
a pocket and no two balls are within the collision radius `0.599` of each
other, and the pocket test and the collision test of the code (with the bounds
`pow(0.55f, 2)` and `pow(0.599f, 2)`) fail as well; `Game::update(dt)` on the
initial state is defined for every `dt` and returns the initial state, and so
does any sequence of updates: position, slope, velocity and alive flag of all
seven balls are unchanged. -/
theorem init_stable (sqrt : F → F) (pow : F → F → F) (dts : List F) :
    (∀ i j, ¬ hitsPocket (Game.init : Game F).table i j) ∧
      (∀ i j, i ≠ j → ¬ ballsTouch (Game.init : Game F).table i j) ∧
      (∀ dt, Game.update sqrt pow dt (Game.init : Game F) = some Game.init) ∧
      Game.updates sqrt pow dts (Game.init : Game F) = some Game.init ∧
      (∃ g', Game.updates sqrt pow dts (Game.init : Game F) = some g' ∧
        ∀ i c, g'.table.ballData i c = (Game.init : Game F).table.ballData i c) ∧
      (∀ i j, ¬ ((Game.init : Game F).table.ballData i 0
          - ((Game.init : Game F).table.pocketData j).x) ^ 2
        + ((Game.init : Game F).table.ballData i 1
          - ((Game.init : Game F).table.pocketData j).y) ^ 2 ≤ (0.55 : F) ^ 2) ∧
      ∀ i j, i ≠ j → ¬ ((Game.init : Game F).table.ballData i 0
          - (Game.init : Game F).table.ballData j 0) ^ 2
        + ((Game.init : Game F).table.ballData i 1
          - (Game.init : Game F).table.ballData j 1) ^ 2 ≤ (0.599 : F) ^ 2 :=
  ⟨init_not_hitsPocket, init_not_ballsTouch, init_update, init_updates dts,
    ⟨Game.init, init_updates dts, fun _ _ => rfl⟩, init_beyond_capture, init_beyond_contact⟩

/-! ## The program over machine numbers: what a pass leaves unchanged -/

namespace Machine

variable {V : Type}

theorem set_lookup (t : Table V) (i : Fin 7) (k : Fin 6) (v : V) (i' : Fin 7) (k' : Fin 6) :
    (t.set i k v).ballData i' k' = if i' = i ∧ k' = k then v else t.ballData i' k' := by
  unfold Table.set
  by_cases hi : i' = i
  · subst hi
    by_cases hk : k' = k
    · subst hk; simp
    · simp [hk]
  · simp [hi]

theorem set_pockets (t : Table V) (i : Fin 7) (k : Fin 6) (v : V) :
    (t.set i k v).pocketData = t.pocketData := rfl

theorem contactSlope_frame (A : Arith F V) (t : Table V) (i j : Fin 7) :
    (contactSlope A t i j).pocketData = t.pocketData ∧
      ∀ k c, (k ≠ i ∧ k ≠ j) ∨ c = 0 ∨ c = 1 ∨ c = 3 ∨ c = 4 ∨ c = 5 →
        (contactSlope A t i j).ballData k c = t.ballData k c := by
  refine ⟨rfl, ?_⟩
  intro k c hkc
  simp only [contactSlope, set_lookup]
  rcases hkc with ⟨hi, hj⟩ | rfl | rfl | rfl | rfl | rfl <;> simp [*]

theorem pushPartner_frame (A : Arith F V) (t : Table V) (i j : Fin 7) :
    (pushPartner A t i j).pocketData = t.pocketData ∧
      ∀ k c, k ≠ j ∨ c = 0 ∨ c = 1 ∨ c = 2 ∨ c = 5 →
        (pushPartner A t i j).ballData k c = t.ballData k c := by
  refine ⟨rfl, ?_⟩
  intro k c hkc
  simp only [pushPartner, set_lookup]
  rcases hkc with hj | rfl | rfl | rfl | rfl <;> simp [*]

theorem pushSelf_frame (A : Arith F V) (t : Table V) (i j : Fin 7) :
    (pushSelf A t i j).pocketData = t.pocketData ∧
      ∀ k c, k ≠ i ∨ c = 0 ∨ c = 1 ∨ c = 2 ∨ c = 5 →
        (pushSelf A t i j).ballData k c = t.ballData k c := by
  refine ⟨rfl, ?_⟩
  intro k c hkc
  simp only [pushSelf, set_lookup]
  rcases hkc with hj | rfl | rfl | rfl | rfl <;> simp [*]

theorem retain_frame (A : Arith F V) (t : Table V) (i j : Fin 7) :
    (retain A t i j).pocketData = t.pocketData ∧
      ∀ k c, (k ≠ i ∧ k ≠ j) ∨ c = 0 ∨ c = 1 ∨ c = 2 ∨ c = 5 →
        (retain A t i j).ballData k c = t.ballData k c := by
  refine ⟨rfl, ?_⟩
  intro k c hkc
  simp only [retain, set_lookup]
  rcases hkc with ⟨hi, hj⟩ | rfl | rfl | rfl | rfl <;> simp [*]

/-- The exchange leaves the pockets, the positions and the alive flags of all
balls, and every ball other than `i` and `j`, as they are. -/
theorem exchange_keeps (A : Arith F V) (t : Table V) (i j : Fin 7) :
    (exchange A t i j).pocketData = t.pocketData ∧
      ∀ k c, (k ≠ i ∧ k ≠ j) ∨ c = 0 ∨ c = 1 ∨ c = 5 →
        (exchange A t i j).ballData k c = t.ballData k c := by
  refine ⟨rfl, ?_⟩
  intro k c hkc
  unfold exchange
  rw [(retain_frame A _ i j).2 k c (by tauto), (pushSelf_frame A _ i j).2 k c (by tauto),
    (pushPartner_frame A _ i j).2 k c (by tauto), (contactSlope_frame A _ i j).2 k c (by tauto)]

theorem ballsTouch_same (A : Arith F V) {t t' : Table V} {i j : Fin 7}
    (hi0 : t'.ballData i 0 = t.ballData i 0) (hi1 : t'.ballData i 1 = t.ballData i 1)
    (hj0 : t'.ballData j 0 = t.ballData j 0) (hj1 : t'.ballData j 1 = t.ballData j 1) :
    ballsTouch A t' i j = ballsTouch A t i j := by
  simp only [ballsTouch, hi0, hi1, hj0, hj1]

theorem hitsPocket_same (A : Arith F V) {t t' : Table V} {i : Fin 7}
    (hp : t'.pocketData = t.pocketData)
    (h0 : t'.ballData i 0 = t.ballData i 0) (h1 : t'.ballData i 1 = t.ballData i 1)
    (j : Fin 6) : hitsPocket A t' i j = hitsPocket A t i j := by
  simp only [hitsPocket, hp, h0, h1]

/-- The collision loop of ball `k` leaves the pockets, all positions and all
alive flags as they are, and it leaves a ball `m` other than `k` untouched
when `m` is not a partner in the loop, is pocketed or does not touch `k`. -/
theorem touchingBall_keeps (A : Arith F V) (k : Fin 7) (js : List (Fin 7)) :
    ∀ t : Table V,
      (touchingBall A k js t).pocketData = t.pocketData ∧
      (∀ m c, c = 0 ∨ c = 1 ∨ c = 5 → (touchingBall A k js t).ballData m c = t.ballData m c) ∧
      (∀ m, m ≠ k → (m ∉ js ∨ pocketed A t m = true ∨ ballsTouch A t k m = false) →
        ∀ c, (touchingBall A k js t).ballData m c = t.ballData m c) := by
  induction js with
  | nil => exact fun t => ⟨rfl, fun _ _ _ => rfl, fun _ _ _ _ => rfl⟩
  | cons j js ih =>
    intro t
    rw [touchingBall]
    split_ifs with h1 h2
    · obtain ⟨hp, hc, hm⟩ := ih t
      refine ⟨hp, hc, fun m hmk hm' c => hm m hmk ?_ c⟩
      rcases hm' with hm' | hm' | hm'
      · exact Or.inl (fun hmem => hm' (List.mem_cons_of_mem _ hmem))
      · exact Or.inr (Or.inl hm')
      · exact Or.inr (Or.inr hm')
    · obtain ⟨hp1, hf1⟩ := exchange_keeps A t k j
      obtain ⟨hp, hc, hm⟩ := ih (exchange A t k j)
      have htouch : ∀ m, ballsTouch A (exchange A t k j) k m = ballsTouch A t k m := fun m =>
        ballsTouch_same A (hf1 k 0 (Or.inr (Or.inl rfl))) (hf1 k 1 (Or.inr (Or.inr (Or.inl rfl))))
          (hf1 m 0 (Or.inr (Or.inl rfl))) (hf1 m 1 (Or.inr (Or.inr (Or.inl rfl))))
      have hflag : ∀ m, pocketed A (exchange A t k j) m = pocketed A t m := fun m => by
        simp only [pocketed, hf1 m 5 (Or.inr (Or.inr (Or.inr rfl)))]
      refine ⟨hp.trans hp1, fun m c hcc => (hc m c hcc).trans (hf1 m c (Or.inr hcc)), ?_⟩
      intro m hmk hm' c
      have hmj : m ≠ j := by
        rintro rfl
        rcases hm' with hm' | hm' | hm'
        · exact hm' (List.mem_cons_self _ _)
        · exact h1 (Or.inr hm')
        · rw [hm'] at h2
          exact Bool.false_ne_true h2
      rw [hm m hmk ?_ c, hf1 m c (Or.inl ⟨hmk, hmj⟩)]
      rcases hm' with hm' | hm' | hm'
      · exact Or.inl (fun hmem => hm' (List.mem_cons_of_mem _ hmem))
      · exact Or.inr (Or.inl (by rw [hflag]; exact hm'))
      · exact Or.inr (Or.inr (by rw [htouch]; exact hm'))
    · obtain ⟨hp, hc, hm⟩ := ih t
      refine ⟨hp, hc, fun m hmk hm' c => hm m hmk ?_ c⟩
      rcases hm' with hm' | hm' | hm'
      · exact Or.inl (fun hmem => hm' (List.mem_cons_of_mem _ hmem))
      · exact Or.inr (Or.inl hm')
      · exact Or.inr (Or.inr hm')

/-- When no partner is hit, the collision loop changes nothing. -/
theorem touchingBall_idle (A : Arith F V) (k : Fin 7) (js : List (Fin 7)) (t : Table V)
    (h : ∀ j ∈ js, j = k ∨ pocketed A t j = true ∨ ballsTouch A t k j = false) :
    touchingBall A k js t = t := by
  induction js with
  | nil => rfl
  | cons j js ih =>
    have ih' := ih (fun m hm => h m (List.mem_cons_of_mem _ hm))
    rw [touchingBall]
    rcases h j (List.mem_cons_self _ _) with h1 | h1 | h1
    · rw [if_pos (Or.inl h1.symm)]; exact ih'
    · rw [if_pos (Or.inr h1)]; exact ih'
    · split_ifs with h2 h3
      · exact ih'
      · rw [h1] at h3
        exact absurd h3 Bool.false_ne_true
      · exact ih'

/-- The pocket loop removes the ball exactly when one of the pockets is hit. -/
theorem pocketLoop_cases (A : Arith F V) (t : Table V) (i : Fin 7) (js : List (Fin 6)) :
    pocketLoop A t i js
      = if ∃ j ∈ js, hitsPocket A t i j = true then removeBall A t i else t := by
  induction js with
  | nil => simp [pocketLoop]
  | cons j js ih =>
    rw [pocketLoop]
    by_cases hj : hitsPocket A t i j = true
    · simp [hj]
    · simp [hj, ih]

theorem removeBall_row (A : Arith F V) (t : Table V) (i : Fin 7) :
    (removeBall A t i).ballData i 0 = A.ofReal (-10) ∧
      (removeBall A t i).ballData i 1 = A.ofReal (-10) ∧
      (removeBall A t i).ballData i 2 = A.ofReal 0 ∧
      (removeBall A t i).ballData i 3 = A.ofReal 0 ∧
      (removeBall A t i).ballData i 4 = t.ballData i 4 ∧
      (removeBall A t i).ballData i 5 = A.ofReal (-1) := by
  simp [removeBall, set_lookup]

theorem removeBall_others (A : Arith F V) (t : Table V) {i m : Fin 7} (hm : m ≠ i) (c : Fin 6) :
    (removeBall A t i).ballData m c = t.ballData m c := by
  simp [removeBall, set_lookup, hm]

end Machine

namespace Machine

variable {V : Type}

/-- Row `i` after integration, braking and wall reflection, and what these
leave unchanged. -/
theorem motion_effect (A : Arith F V) (t : Table V) (i : Fin 7) :
    (motion A t i).pocketData = t.pocketData ∧
      (∀ m c, m ≠ i → (motion A t i).ballData m c = t.ballData m c) ∧
      (motion A t i).ballData i 0 = A.add (t.ballData i 0) (t.ballData i 3) ∧
      (motion A t i).ballData i 1 = A.add (t.ballData i 1) (t.ballData i 4) ∧
      (motion A t i).ballData i 2
        = (if yWallTrigger A t i = true then
            A.mul (if xWallTrigger A t i = true then A.mul (t.ballData i 2) (A.ofReal (-1))
              else t.ballData i 2) (A.ofReal (-1))
          else if xWallTrigger A t i = true then A.mul (t.ballData i 2) (A.ofReal (-1))
          else t.ballData i 2) ∧
      (motion A t i).ballData i 3
        = (if xWallTrigger A t i = true then A.mul (dampedVx A t i) (A.ofReal (-0.5))
          else dampedVx A t i) ∧
      (motion A t i).ballData i 4
        = (if yWallTrigger A t i = true then A.mul (dampedVy A t i) (A.ofReal (-0.5))
          else dampedVy A t i) ∧
      (motion A t i).ballData i 5 = t.ballData i 5 := by
  refine ⟨?_, ?_, ?_, ?_, ?_, ?_, ?_, ?_⟩
  · simp only [motion, touchingWall]
    split_ifs <;> rfl
  · intro m c hm
    simp only [motion, touchingWall]
    split_ifs <;> simp [set_lookup, braking, changePosition, hm]
  all_goals
    simp only [motion, touchingWall, xWallTrigger, yWallTrigger, dampedVx, dampedVy]
    by_cases hX : wallTest A (A.add (t.ballData i 0) (t.ballData i 3))
        (A.mul (A.mul (t.ballData i 3)
          (A.pow (A.add (A.sq (t.ballData i 3)) (A.sq (t.ballData i 4))) (A.ofReal 0.002)))
          (A.ofReal 0.997)) (A.ofReal 8.2) = true <;>
    by_cases hY : wallTest A (A.add (t.ballData i 1) (t.ballData i 4))
        (A.mul (A.mul (t.ballData i 4)
          (A.pow (A.add (A.sq (t.ballData i 3)) (A.sq (t.ballData i 4))) (A.ofReal 0.002)))
          (A.ofReal 0.997)) (A.ofReal 4.7) = true <;>
    simp [set_lookup, braking, changePosition, hX, hY]

theorem pass_skip (A : Arith F V) {t : Table V} {i : Fin 7} (h : pocketed A t i = true) :
    ballPass A i t = t := by
  simp [ballPass, h]

theorem pass_removed (A : Arith F V) {t : Table V} {i : Fin 7}
    (h : pocketed A t i = false) (hp : ∃ j, hitsPocket A t i j = true)
    (hneg : A.lt (A.ofReal (-1)) (A.ofReal 0) = true) :
    ballPass A i t = removeBall A t i := by
  have hp' : ∃ j ∈ List.finRange 6, hitsPocket A t i j = true := by
    obtain ⟨j, hj⟩ := hp
    exact ⟨j, List.mem_finRange j, hj⟩
  have h5 : pocketed A (removeBall A t i) i = true := by
    rw [pocketed, (removeBall_row A t i).2.2.2.2.2]
    exact hneg
  simp only [ballPass, h, pocketLoop_cases, if_pos hp', h5]
  simp

theorem pass_moved (A : Arith F V) {t : Table V} {i : Fin 7}
    (h : pocketed A t i = false) (hp : ∀ j, hitsPocket A t i j = false) :
    ballPass A i t = touchingBall A i (List.finRange 7) (motion A t i) := by
  have hp' : ¬ ∃ j ∈ List.finRange 6, hitsPocket A t i j = true := by
    rintro ⟨j, -, hj⟩
    rw [hp j] at hj
    exact Bool.false_ne_true hj
  simp only [ballPass, h, pocketLoop_cases, if_neg hp', motion]
  simp

/-- The pass of ball `k` in any case: the table is left as it is, or the ball
is removed, or the ball is (removed and) moved and its collision loop runs. -/
theorem pass_cases (A : Arith F V) (t : Table V) (k : Fin 7) :
    ballPass A k t = t ∨ ballPass A k t = removeBall A t k ∨
      ballPass A k t = touchingBall A k (List.finRange 7) (motion A t k) ∨
      ballPass A k t = touchingBall A k (List.finRange 7) (motion A (removeBall A t k) k) := by
  by_cases h1 : pocketed A t k = true
  · exact Or.inl (pass_skip A h1)
  · by_cases h2 : ∃ j ∈ List.finRange 6, hitsPocket A t k j = true
    · by_cases h3 : pocketed A (removeBall A t k) k = true
      · refine Or.inr (Or.inl ?_)
        simp only [ballPass, if_neg h1, pocketLoop_cases, if_pos h2, if_pos h3]
      · refine Or.inr (Or.inr (Or.inr ?_))
        simp only [ballPass, if_neg h1, pocketLoop_cases, if_pos h2, if_neg h3, motion]
    · refine Or.inr (Or.inr (Or.inl ?_))
      simp only [ballPass, if_neg h1, pocketLoop_cases, if_neg h2, motion]

/-- What a pass of ball `k` leaves as it is: the pockets; the position and the
alive flag of every other ball; and the whole row of another ball `m` that is
pocketed. -/
theorem pass_keeps (A : Arith F V) (t : Table V) (k : Fin 7) :
    (ballPass A k t).pocketData = t.pocketData ∧
      (∀ m c, m ≠ k → c = 0 ∨ c = 1 ∨ c = 5 → (ballPass A k t).ballData m c = t.ballData m c) ∧
      (∀ m, m ≠ k → pocketed A t m = true → ∀ c, (ballPass A k t).ballData m c = t.ballData m c) := by
  have hrem : ∀ m c, m ≠ k → (removeBall A t k).ballData m c = t.ballData m c :=
    fun m c hm => removeBall_others A t hm c
  have hmove : ∀ u : Table V, u.pocketData = t.pocketData →
      (∀ m c, m ≠ k → u.ballData m c = t.ballData m c) →
      (touchingBall A k (List.finRange 7) (motion A u k)).pocketData = t.pocketData ∧
      (∀ m c, m ≠ k → c = 0 ∨ c = 1 ∨ c = 5 →
        (touchingBall A k (List.finRange 7) (motion A u k)).ballData m c = t.ballData m c) ∧
      (∀ m, m ≠ k → pocketed A t m = true →
        ∀ c, (touchingBall A k (List.finRange 7) (motion A u k)).ballData m c
          = t.ballData m c) := by
    intro u hq hu
    obtain ⟨mq, mrow, -⟩ := motion_effect A u k
    obtain ⟨tq, tc, tm⟩ := touchingBall_keeps A k (List.finRange 7) (motion A u k)
    refine ⟨tq.trans (mq.trans hq), ?_, ?_⟩
    · intro m c hm hc
      rw [tc m c hc, mrow m c hm, hu m c hm]
    · intro m hm hdead c
      rw [tm m hm (Or.inr (Or.inl (by
        rw [pocketed, mrow m 5 hm, hu m 5 hm]; exact hdead))) c, mrow m c hm, hu m c hm]
  rcases pass_cases A t k with h | h | h | h <;> rw [h]
  · exact ⟨rfl, fun _ _ _ _ => rfl, fun _ _ _ _ => rfl⟩
  · exact ⟨rfl, fun m c hm _ => hrem m c hm, fun m hm _ c => hrem m c hm⟩
  · exact hmove t rfl (fun _ _ _ => rfl)
  · exact hmove (removeBall A t k) rfl hrem

/-- The alive flag of ball `k` after its own pass. -/
theorem pass_alive (A : Arith F V) (t : Table V) (k : Fin 7)
    (hneg : A.lt (A.ofReal (-1)) (A.ofReal 0) = true) (ha : pocketed A t k = false) :
    (pocketed A (ballPass A k t) k = true ↔ ∃ j, hitsPocket A t k j = true) ∧
      ((∀ j, hitsPocket A t k j = false) → (ballPass A k t).ballData k 5 = t.ballData k 5) := by
  by_cases hp : ∃ j, hitsPocket A t k j = true
  · rw [pass_removed A ha hp hneg]
    refine ⟨⟨fun _ => hp, fun _ => ?_⟩, ?_⟩
    · rw [pocketed, (removeBall_row A t k).2.2.2.2.2]
      exact hneg
    · intro hno
      obtain ⟨j, hj⟩ := hp
      rw [hno j] at hj
      exact absurd hj Bool.false_ne_true
  · have hno : ∀ j, hitsPocket A t k j = false := by
      intro j
      by_contra hj
      exact hp ⟨j, by simpa using hj⟩
    rw [pass_moved A ha hno]
    obtain ⟨-, -, -, -, -, -, -, m5⟩ := motion_effect A t k
    have h5 : (touchingBall A k (List.finRange 7) (motion A t k)).ballData k 5
        = t.ballData k 5 := by
      rw [(touchingBall_keeps A k _ _).2.1 k 5 (Or.inr (Or.inr rfl)), m5]
    refine ⟨⟨fun h => ?_, fun h => absurd h hp⟩, fun _ => h5⟩
    rw [pocketed, h5] at h
    rw [pocketed, h] at ha
    exact absurd ha (by decide)

/-- A pocketed ball keeps its whole row through any sequence of passes. -/
theorem loop_pocketed (A : Arith F V) (ks : List (Fin 7)) :
    ∀ (t : Table V) (m : Fin 7), pocketed A t m = true →
      ∀ c, (ballLoop A ks t).ballData m c = t.ballData m c := by
  induction ks with
  | nil => exact fun _ _ _ _ => rfl
  | cons k ks ih =>
    intro t m hm c
    rw [ballLoop]
    have hrow : ∀ c, (ballPass A k t).ballData m c = t.ballData m c := by
      by_cases hmk : m = k
      · subst hmk
        rw [pass_skip A hm]
        exact fun _ => rfl
      · exact (pass_keeps A t k).2.2 m hmk hm
    rw [ih (ballPass A k t) m (by rw [pocketed, hrow 5]; exact hm) c, hrow c]

/-- Passes of other balls leave the pockets and a ball's position and alive
flag as they are. -/
theorem loop_keeps (A : Arith F V) (ks : List (Fin 7)) :
    ∀ t : Table V, (ballLoop A ks t).pocketData = t.pocketData ∧
      ∀ m c, m ∉ ks → c = 0 ∨ c = 1 ∨ c = 5 → (ballLoop A ks t).ballData m c = t.ballData m c := by
  induction ks with
  | nil => exact fun _ => ⟨rfl, fun _ _ _ _ => rfl⟩
  | cons k ks ih =>
    intro t
    rw [ballLoop]
    obtain ⟨hp1, hc1, -⟩ := pass_keeps A t k
    obtain ⟨hp, hc⟩ := ih (ballPass A k t)
    refine ⟨hp.trans hp1, fun m c hm hcc => ?_⟩
    rw [hc m c (fun hmem => hm (List.mem_cons_of_mem _ hmem)) hcc,
      hc1 m c (fun hmk => hm (hmk ▸ List.mem_cons_self _ _)) hcc]

/-- The alive flag of a ball that is alive before a sequence of passes in which
its own pass occurs once. -/
theorem loop_alive (A : Arith F V) (hneg : A.lt (A.ofReal (-1)) (A.ofReal 0) = true)
    (ks : List (Fin 7)) :
    ∀ t : Table V, ks.Nodup → ∀ i, i ∈ ks → pocketed A t i = false →
      (pocketed A (ballLoop A ks t) i = true ↔ ∃ j, hitsPocket A t i j = true) ∧
      ((∀ j, hitsPocket A t i j = false) →
        (ballLoop A ks t).ballData i 5 = t.ballData i 5) := by
  induction ks with
  | nil => intro t _ i hi; simp at hi
  | cons k ks ih =>
    intro t hnd i hi ha
    rw [ballLoop]
    obtain ⟨hknot, hnd'⟩ := List.nodup_cons.mp hnd
    by_cases hik : i = k
    · subst hik
      have h5 : (ballLoop A ks (ballPass A i t)).ballData i 5 = (ballPass A i t).ballData i 5 :=
        (loop_keeps A ks _).2 i 5 hknot (Or.inr (Or.inr rfl))
      rw [pocketed, h5]
      exact pass_alive A t i hneg ha
    · have hi' : i ∈ ks := by
        rcases List.mem_cons.mp hi with h' | h'
        · exact absurd h' hik
        · exact h'
      obtain ⟨hp1, hc1, -⟩ := pass_keeps A t k
      have e5 := hc1 i 5 hik (Or.inr (Or.inr rfl))
      have hcongr := hitsPocket_same A hp1 (hc1 i 0 hik (Or.inl rfl))
        (hc1 i 1 hik (Or.inr (Or.inl rfl)))
      have := ih (ballPass A k t) hnd' i hi' (by rw [pocketed, e5]; exact ha)
      simpa only [hcongr, e5] using this

end Machine

namespace Machine

variable {V : Type}

/-! ## The concrete arithmetic is exact on the reals -/

theorem ieee_exact (sqrt : F → F) (pow : F → F → F) : Exact (ieee sqrt pow) sqrt pow where
  inj := fun a b h => by
    simpa [ieee] using h
  add := fun _ _ => rfl
  sub := fun a b => by
    show Ext.add (Ext.fin a) (Ext.neg (Ext.fin b)) = Ext.fin (a - b)
    simp [Ext.add, Ext.neg, sub_eq_add_neg]
  mul := fun _ _ => rfl
  div := fun a b hb hq => by
    show Ext.div (Ext.fin a) (Ext.fin b) = Ext.fin (a / b)
    obtain ⟨h1, h2⟩ := abs_lt.mp hq
    simp [Ext.div, hb, not_le.mpr h2, not_le.mpr h1]
  sq := fun a => by
    show Ext.mul (Ext.fin a) (Ext.fin a) = Ext.fin (a ^ 2)
    simp [Ext.mul, sq]
  pow := fun a e ha => by
    show Ext.pow pow (Ext.fin a) (Ext.fin e) = Ext.fin (pow a e)
    simp [Ext.pow, not_lt.mpr ha]
  sqrt := fun a ha => by
    show Ext.sqrt sqrt (Ext.fin a) = Ext.fin (sqrt a)
    simp [Ext.sqrt, not_lt.mpr ha]
  fabs := fun _ => rfl
  lt := fun _ _ => rfl
  le := fun _ _ => rfl

theorem Exact.neg_one_lt {A : Arith F V} {sqrt : F → F} {pow : F → F → F}
    (hA : Exact A sqrt pow) : A.lt (A.ofReal (-1)) (A.ofReal 0) = true := by
  rw [hA.lt]
  simp

end Machine

namespace Machine

variable {V : Type}

/-! ## Tables of numbers -/

theorem pocketed_real {A : Arith F V} {sqrt : F → F} {pow : F → F → F} (hA : Exact A sqrt pow)
    {t : Table V} {i : Fin 7} {a : F} (h : t.ballData i 5 = A.ofReal a) :
    pocketed A t i = decide (a < 0) := by
  rw [pocketed, h, hA.lt]

theorem inContact_real {A : Arith F V} {sqrt : F → F} {pow : F → F → F} (hA : Exact A sqrt pow)
    (x1 y1 x2 y2 : F) :
    inContact A (A.ofReal x1) (A.ofReal y1) (A.ofReal x2) (A.ofReal y2)
      = decide (Billiard.inContact x1 y1 x2 y2) := by
  simp only [inContact, Billiard.inContact, hA.sub, hA.sq, hA.add, hA.le]

theorem hitsPocket_real {A : Arith F V} {sqrt : F → F} {pow : F → F → F} (hA : Exact A sqrt pow)
    {t : Table V} {i : Fin 7} {j : Fin 6} {x y px py : F}
    (h0 : t.ballData i 0 = A.ofReal x) (h1 : t.ballData i 1 = A.ofReal y)
    (hx : (t.pocketData j).x = A.ofReal px) (hy : (t.pocketData j).y = A.ofReal py) :
    hitsPocket A t i j
      = decide ((x - px) ^ 2 + (y - py) ^ 2 ≤ (9227469 / 16777216 : F) ^ 2) := by
  simp only [hitsPocket, h0, h1, hx, hy, hA.sub, hA.sq, hA.add, hA.le]

theorem hitsPocket_lift {A : Arith F V} {sqrt : F → F} {pow : F → F → F} (hA : Exact A sqrt pow)
    (t : Table F) (i : Fin 7) (j : Fin 6) :
    hitsPocket A (lift A t) i j = decide (Billiard.hitsPocket t i j) :=
  hitsPocket_real hA rfl rfl rfl rfl

/-! ## Pocketed balls and pocket capture -/

theorem updates_keep_pocketed (A : Arith F V) (dts : List V) :
    ∀ (g : Game V) (i : Fin 7), pocketed A g.table i = true →
      ∀ c, (Game.updates A dts g).table.ballData i c = g.table.ballData i c := by
  induction dts with
  | nil => exact fun _ _ _ _ => rfl
  | cons dt dts ih =>
    intro g i hi c
    rw [Game.updates]
    have hrow : ∀ c, (Game.update A dt g).table.ballData i c = g.table.ballData i c :=
      loop_pocketed A _ g.table i hi
    rw [ih (Game.update A dt g) i (by rw [pocketed, hrow 5]; exact hi) c, hrow c]

/-- C8: a ball that is pocketed before `Game::update` (the guard
`ballData[i][5] < 0` holds) has all six fields unchanged after the update,
whatever the other balls do and whatever the arithmetic returns; it is still
pocketed, and the same holds after any sequence of updates. -/
theorem update_pocketed_unchanged (A : Arith F V) (g : Game V) (i : Fin 7)
    (hi : pocketed A g.table i = true) :
    (∀ dt c, (Game.update A dt g).table.ballData i c = g.table.ballData i c) ∧
      (∀ dt, pocketed A (Game.update A dt g).table i = true) ∧
      ∀ dts : List V,
        (∀ c, (Game.updates A dts g).table.ballData i c = g.table.ballData i c) ∧
        pocketed A (Game.updates A dts g).table i = true := by
  have h1 : ∀ dt c, (Game.update A dt g).table.ballData i c = g.table.ballData i c :=
    fun dt => loop_pocketed A _ g.table i hi
  refine ⟨h1, fun dt => by rw [pocketed, h1 dt 5]; exact hi, fun dts => ?_⟩
  have h2 := updates_keep_pocketed A dts g i hi
  exact ⟨h2, by rw [pocketed, h2 5]; exact hi⟩

/-- C1 (amended): for a ball `i` that is alive before `Game::update` (the guard
`ballData[i][5] < 0` fails), and an arithmetic in which `-1 < 0` holds, the
ball is pocketed after the update if and only if the pocket test of the code
holds for some pocket at the position of the ball at the start of the update;
the pass of another ball never changes the position or the alive flag of ball
`i`; and in an arithmetic that is exact on the numbers the pocket test is
`(x_i - px_j)^2 + (y_i - py_j)^2 ≤ (9227469 / 2^24)^2`, the square of the
binary32 literal `0.55f`. -/
theorem update_not_alive_iff_pocket_hit (A : Arith F V)
    (hneg : A.lt (A.ofReal (-1)) (A.ofReal 0) = true) (dt : V) (g : Game V) (i : Fin 7)
    (ha : pocketed A g.table i = false) :
    (pocketed A (Game.update A dt g).table i = true ↔ ∃ j, hitsPocket A g.table i j = true) ∧
      (∀ (k : Fin 7) (t : Table V), k ≠ i →
        (ballPass A k t).ballData i 0 = t.ballData i 0 ∧
        (ballPass A k t).ballData i 1 = t.ballData i 1 ∧
        (ballPass A k t).ballData i 5 = t.ballData i 5) ∧
      ∀ (sqrt : F → F) (pow : F → F → F), Exact A sqrt pow → ∀ (j : Fin 6) (x y px py : F),
        g.table.ballData i 0 = A.ofReal x → g.table.ballData i 1 = A.ofReal y →
        (g.table.pocketData j).x = A.ofReal px → (g.table.pocketData j).y = A.ofReal py →
        (hitsPocket A g.table i j = true
          ↔ (x - px) ^ 2 + (y - py) ^ 2 ≤ (9227469 / 16777216 : F) ^ 2) := by
  refine ⟨(loop_alive A hneg _ g.table (List.nodup_finRange 7) i (List.mem_finRange i) ha).1,
    ?_, ?_⟩
  · intro k t hk
    obtain ⟨-, hc, -⟩ := pass_keeps A t k
    exact ⟨hc i 0 hk.symm (Or.inl rfl), hc i 1 hk.symm (Or.inr (Or.inl rfl)),
      hc i 5 hk.symm (Or.inr (Or.inr rfl))⟩
  · intro sqrt pow hA j x y px py h0 h1 hx hy
    rw [hitsPocket_real hA h0 h1 hx hy, decide_eq_true_iff]

/-! ## The release: charge state and frame -/

/-- C11: for every state (any progress, charging or not), every release point
and every arithmetic, the charge state after `Game::mouseButtonReleased` is
`isChargingShot = false` and `shotChargeProgress = 0`. -/
theorem release_resets_charge (A : Arith F V) (x y : V) (g : Game V) :
    (Game.mouseButtonReleased A x y g).isChargingShot = false ∧
      (Game.mouseButtonReleased A x y g).shotChargeProgress = A.ofReal 0 :=
  ⟨rfl, rfl⟩

theorem table_ext {t t' : Table V} (hp : t.pocketData = t'.pocketData)
    (hb : ∀ i c, t.ballData i c = t'.ballData i c) : t = t' := by
  cases t
  cases t'
  simp only [Table.mk.injEq]
  exact ⟨funext fun i => funext fun c => hb i c, hp⟩

theorem aim_frame (A : Arith F V) (x y p : V) (t : Table V) :
    (Game.aim A x y p t).pocketData = t.pocketData ∧
      ∀ i c, i ≠ 0 ∨ c = 0 ∨ c = 1 ∨ c = 5 →
        (Game.aim A x y p t).ballData i c = t.ballData i c := by
  refine ⟨rfl, ?_⟩
  intro i c hic
  simp only [Game.aim, set_lookup]
  rcases hic with hi | rfl | rfl | rfl <;> simp [*]

/-- The release does not read the alive flag of the cue ball: writing the
flag before the release or after it gives the same table. -/
theorem aim_alive_flag (A : Arith F V) (x y p a : V) (t : Table V) :
    Game.aim A x y p (t.set 0 5 a) = (Game.aim A x y p t).set 0 5 a := by
  apply table_ext
  · rfl
  · intro i c
    simp only [Game.aim, set_lookup]
    by_cases hi : i = 0
    · subst hi
      fin_cases c <;> simp
    · simp [hi]

/-- C18: for every state, every release point and every arithmetic,
`Game::mouseButtonReleased` leaves the pocket data, every field of the balls
1..6 and the position and alive flag of every ball unchanged: it writes only
the slope and the velocity of the cue ball and the charge state; and it does
not consult the alive flag of the cue ball (writing the flag before or after
the release gives the same state). -/
theorem release_frame (A : Arith F V) (x y : V) (g : Game V) :
    (Game.mouseButtonReleased A x y g).table.pocketData = g.table.pocketData ∧
      (∀ i c, i ≠ 0 → (Game.mouseButtonReleased A x y g).table.ballData i c
        = g.table.ballData i c) ∧
      (∀ i, (Game.mouseButtonReleased A x y g).table.ballData i 0 = g.table.ballData i 0 ∧
        (Game.mouseButtonReleased A x y g).table.ballData i 1 = g.table.ballData i 1 ∧
        (Game.mouseButtonReleased A x y g).table.ballData i 5 = g.table.ballData i 5) ∧
      ∀ a, Game.mouseButtonReleased A x y { g with table := g.table.set 0 5 a }
        = { Game.mouseButtonReleased A x y g with
            table := (Game.mouseButtonReleased A x y g).table.set 0 5 a } := by
  obtain ⟨hq, hf⟩ := aim_frame A x y g.shotChargeProgress g.table
  refine ⟨hq, fun i c hi => hf i c (Or.inl hi),
    fun i => ⟨hf i 0 (Or.inr (Or.inl rfl)), hf i 1 (Or.inr (Or.inr (Or.inl rfl))),
      hf i 5 (Or.inr (Or.inr (Or.inr rfl)))⟩, ?_⟩
  intro a
  simp only [Game.mouseButtonReleased, aim_alive_flag]

end Machine

namespace Machine

variable {V : Type}

/-- C8 for the arithmetic `ieee` at the table `cueRemoved 0 3.5 0 0 0.2`, whose
cue ball is pocketed. -/
theorem update_pocketed_unchanged_witness :
    pocketed (ieee Real.sqrt Real.rpow)
        (liftGame (ieee Real.sqrt Real.rpow) (cueRemoved (0 : ℝ) 3.5 0 0 0.2)).table 0 = true ∧
      ∀ dts : List (Ext ℝ),
        (∀ c, (Game.updates (ieee Real.sqrt Real.rpow) dts
            (liftGame (ieee Real.sqrt Real.rpow) (cueRemoved (0 : ℝ) 3.5 0 0 0.2))).table.ballData 0 c
          = Ext.fin ((cueRemoved (0 : ℝ) 3.5 0 0 0.2).table.ballData 0 c)) ∧
        pocketed (ieee Real.sqrt Real.rpow) (Game.updates (ieee Real.sqrt Real.rpow) dts
            (liftGame (ieee Real.sqrt Real.rpow) (cueRemoved (0 : ℝ) 3.5 0 0 0.2))).table 0
          = true :=
  have h : pocketed (ieee Real.sqrt Real.rpow)
      (liftGame (ieee Real.sqrt Real.rpow) (cueRemoved (0 : ℝ) 3.5 0 0 0.2)).table 0 = true := by
    rw [pocketed_real (ieee_exact Real.sqrt Real.rpow) rfl,
      (cueRemoved_cue (0 : ℝ) 3.5 0 0 0.2).2.2.2.2.2]
    simp
  ⟨h, (update_pocketed_unchanged (ieee Real.sqrt Real.rpow) _ 0 h).2.2⟩

theorem cueAt_alive_lift {A : Arith F V} {sqrt : F → F} {pow : F → F → F}
    (hA : Exact A sqrt pow) (x y s vx vy : F) :
    pocketed A (liftGame A (cueAt x y s vx vy)).table 0 = false := by
  rw [pocketed_real hA rfl, (cueAt_cue x y s vx vy).2.2.2.2.2]
  simp

/-- C1 (amended) for the arithmetic `ieee` at the table `cueAt 0 3.5 0 0 0.2`:
the cue ball is alive before the update and pocketed after it. -/
theorem update_not_alive_iff_pocket_hit_witness :
    pocketed (ieee Real.sqrt Real.rpow)
        (liftGame (ieee Real.sqrt Real.rpow) (cueAt (0 : ℝ) 3.5 0 0 0.2)).table 0 = false ∧
      pocketed (ieee Real.sqrt Real.rpow) (Game.update (ieee Real.sqrt Real.rpow) (Ext.fin (1 / 60))
        (liftGame (ieee Real.sqrt Real.rpow) (cueAt (0 : ℝ) 3.5 0 0 0.2))).table 0 = true := by
  have hA := ieee_exact Real.sqrt Real.rpow
  have ha := cueAt_alive_lift hA (0 : ℝ) 3.5 0 0 0.2
  refine ⟨ha, ?_⟩
  apply (update_not_alive_iff_pocket_hit (ieee Real.sqrt Real.rpow) hA.neg_one_lt
    (Ext.fin (1 / 60)) _ 0 ha).1.mpr
  obtain ⟨j, hj⟩ := cueAt_hitsPocket (0 : ℝ) 0 0.2
  refine ⟨j, ?_⟩
  show hitsPocket _ (lift _ _) 0 j = true
  rw [hitsPocket_lift hA, decide_eq_true_iff]
  exact hj

/-- C1 as stated fails: the cue ball at `(15376573 / 2^26, 3.5)` (a binary32
number) is alive before the update and pocketed after it, because its squared
distance to the pocket `(0, 4)` is below `pow(0.55f, 2)`; but the distance to
every pocket exceeds `0.55`. -/
theorem update_not_alive_iff_pocket_hit_counterexample :
    pocketed (ieee Real.sqrt Real.rpow) (liftGame (ieee Real.sqrt Real.rpow)
        (cueAt (15376573 / 67108864 : ℝ) 3.5 0 0 0)).table 0 = false ∧
      pocketed (ieee Real.sqrt Real.rpow) (Game.update (ieee Real.sqrt Real.rpow) (Ext.fin (1 / 60))
        (liftGame (ieee Real.sqrt Real.rpow)
          (cueAt (15376573 / 67108864 : ℝ) 3.5 0 0 0))).table 0 = true ∧
      ¬ ∃ j : Fin 6,
        ((cueAt (15376573 / 67108864 : ℝ) 3.5 0 0 0).table.ballData 0 0
            - ((cueAt (15376573 / 67108864 : ℝ) 3.5 0 0 0).table.pocketData j).x) ^ 2
          + ((cueAt (15376573 / 67108864 : ℝ) 3.5 0 0 0).table.ballData 0 1
            - ((cueAt (15376573 / 67108864 : ℝ) 3.5 0 0 0).table.pocketData j).y) ^ 2
          ≤ (0.55 : ℝ) ^ 2 := by
  have hA := ieee_exact Real.sqrt Real.rpow
  have ha := cueAt_alive_lift hA (15376573 / 67108864 : ℝ) 3.5 0 0 0
  obtain ⟨c0, c1, -⟩ := cueAt_cue (15376573 / 67108864 : ℝ) 3.5 0 0 0
  obtain ⟨p0, p1, p2, p3, p4, p5⟩ := pocketsPositions_eq (F := ℝ)
  refine ⟨ha, ?_, ?_⟩
  · apply (loop_alive (ieee Real.sqrt Real.rpow) hA.neg_one_lt _ _ (List.nodup_finRange 7) 0
      (List.mem_finRange 0) ha).1.mpr
    refine ⟨4, ?_⟩
    show hitsPocket _ (lift _ _) 0 4 = true
    rw [hitsPocket_lift hA, decide_eq_true_iff]
    simp only [Billiard.hitsPocket, c0, c1, cueAt_pocketData, p4]
    norm_num
  · rintro ⟨j, hj⟩
    rw [c0, c1, cueAt_pocketData] at hj
    revert hj
    fin_cases j <;> simp only [Fin.zero_eta, Fin.mk_one, Fin.reduceFinMk] <;>
      simp only [p0, p1, p2, p3, p4, p5] <;> norm_num

end Machine

namespace Machine

variable {V : Type}

/-! ## A ball that takes part in no collision -/

theorem loop_append (A : Arith F V) (l1 l2 : List (Fin 7)) :
    ∀ t : Table V, ballLoop A (l1 ++ l2) t = ballLoop A l2 (ballLoop A l1 t) := by
  induction l1 with
  | nil => exact fun _ => rfl
  | cons k ks ih =>
    intro t
    rw [List.cons_append, ballLoop, ballLoop, ih]

/-- The position and the alive flag of a ball after its own pass, when the
ball is alive and hits no pocket. -/
theorem pass_moved_row (A : Arith F V) {t : Table V} {i : Fin 7}
    (h : pocketed A t i = false) (hp : ∀ j, hitsPocket A t i j = false) :
    ∀ m c, c = 0 ∨ c = 1 ∨ c = 5 → (ballPass A i t).ballData m c = (motion A t i).ballData m c := by
  intro m c hc
  rw [pass_moved A h hp]
  exact (touchingBall_keeps A i _ _).2.1 m c hc

/-- A pass of ball `k` leaves another ball `m` untouched when ball `k` is
pocketed after the pass, or ball `m` is pocketed, or the two are not in
contact at the position ball `k` has after the pass. -/
theorem pass_untouched (A : Arith F V) (hneg : A.lt (A.ofReal (-1)) (A.ofReal 0) = true)
    (t : Table V) {k m : Fin 7} (hm : m ≠ k)
    (h : pocketed A (ballPass A k t) k = true ∨ pocketed A t m = true ∨
      inContact A ((ballPass A k t).ballData k 0) ((ballPass A k t).ballData k 1)
        (t.ballData m 0) (t.ballData m 1) = false) :
    ∀ c, (ballPass A k t).ballData m c = t.ballData m c := by
  by_cases h1 : pocketed A t k = true
  · rw [pass_skip A h1]
    exact fun _ => rfl
  have h1' : pocketed A t k = false := by simpa using h1
  by_cases hp : ∃ j, hitsPocket A t k j = true
  · rw [pass_removed A h1' hp hneg]
    exact fun c => removeBall_others A t hm c
  have hno : ∀ j, hitsPocket A t k j = false := by
    intro j
    by_contra hj
    exact hp ⟨j, by simpa using hj⟩
  have hrow := pass_moved_row A h1' hno
  obtain ⟨-, mrow, -, -, -, -, -, m5⟩ := motion_effect A t k
  intro c
  rw [pass_moved A h1' hno,
    (touchingBall_keeps A k (List.finRange 7) (motion A t k)).2.2 m hm ?_ c, mrow m c hm]
  rcases h with h | h | h
  · rw [pocketed, hrow k 5 (Or.inr (Or.inr rfl)), m5] at h
    exact absurd h h1
  · exact Or.inr (Or.inl (by rw [pocketed, mrow m 5 hm]; exact h))
  · refine Or.inr (Or.inr ?_)
    rw [hrow k 0 (Or.inl rfl), hrow k 1 (Or.inr (Or.inl rfl))] at h
    rw [ballsTouch, mrow m 0 hm, mrow m 1 hm]
    exact h

/-- Passes of other balls leave ball `i` untouched when each of them ends with
its ball pocketed or not in contact with ball `i`. -/
theorem loop_untouched (A : Arith F V) (hneg : A.lt (A.ofReal (-1)) (A.ofReal 0) = true)
    (ks : List (Fin 7)) :
    ∀ (t : Table V) (i : Fin 7), ks.Nodup → i ∉ ks →
      (∀ k ∈ ks, pocketed A (ballLoop A ks t) k = true ∨
        inContact A ((ballLoop A ks t).ballData k 0) ((ballLoop A ks t).ballData k 1)
          (t.ballData i 0) (t.ballData i 1) = false) →
      ∀ c, (ballLoop A ks t).ballData i c = t.ballData i c := by
  induction ks with
  | nil => exact fun _ _ _ _ _ _ => rfl
  | cons k ks ih =>
    intro t i hnd hi h c
    obtain ⟨hknot, hnd'⟩ := List.nodup_cons.mp hnd
    have hik : i ≠ k := fun e => hi (e ▸ List.mem_cons_self _ _)
    have hi' : i ∉ ks := fun hmem => hi (List.mem_cons_of_mem _ hmem)
    rw [ballLoop] at h ⊢
    have hk := (loop_keeps A ks (ballPass A k t)).2 k
    have hpass : ∀ c, (ballPass A k t).ballData i c = t.ballData i c := by
      apply pass_untouched A hneg t hik
      rcases h k (List.mem_cons_self _ _) with h' | h'
      · rw [pocketed, hk 5 hknot (Or.inr (Or.inr rfl))] at h'
        exact Or.inl h'
      · rw [hk 0 hknot (Or.inl rfl), hk 1 hknot (Or.inr (Or.inl rfl))] at h'
        exact Or.inr (Or.inr h')
    rw [ih (ballPass A k t) i hnd' hi' ?_ c, hpass c]
    intro m hm
    rw [hpass 0, hpass 1]
    exact h m (List.mem_cons_of_mem _ hm)

/-- The pass of an alive ball that hits no pocket and is in contact with no
alive ball is integration, braking and wall reflection. -/
theorem pass_isolated (A : Arith F V) (t : Table V) (i : Fin 7)
    (ha : pocketed A t i = false) (hp : ∀ j, hitsPocket A t i j = false)
    (hc : ∀ j, j ≠ i → pocketed A t j = true ∨
      inContact A ((motion A t i).ballData i 0) ((motion A t i).ballData i 1)
        (t.ballData j 0) (t.ballData j 1) = false) :
    ballPass A i t = motion A t i := by
  rw [pass_moved A ha hp]
  obtain ⟨-, mrow, -⟩ := motion_effect A t i
  apply touchingBall_idle
  intro j _
  by_cases hji : j = i
  · exact Or.inl hji
  · rcases hc j hji with h | h
    · exact Or.inr (Or.inl (by rw [pocketed, mrow j 5 hji]; exact h))
    · refine Or.inr (Or.inr ?_)
      rw [ballsTouch, mrow j 0 hji, mrow j 1 hji]
      exact h

/-- Row `i` after integration, braking and wall reflection depends on row `i`
only. -/
theorem motion_row_congr (A : Arith F V) {t u : Table V} {i : Fin 7}
    (h : ∀ c, u.ballData i c = t.ballData i c) :
    ∀ c, (motion A u i).ballData i c = (motion A t i).ballData i c := by
  obtain ⟨-, -, a0, a1, a2, a3, a4, a5⟩ := motion_effect A u i
  obtain ⟨-, -, b0, b1, b2, b3, b4, b5⟩ := motion_effect A t i
  have hx : xWallTrigger A u i = xWallTrigger A t i := by
    simp only [xWallTrigger, dampedVx, h]
  have hy : yWallTrigger A u i = yWallTrigger A t i := by
    simp only [yWallTrigger, dampedVy, h]
  have hdx : dampedVx A u i = dampedVx A t i := by simp only [dampedVx, h]
  have hdy : dampedVy A u i = dampedVy A t i := by simp only [dampedVy, h]
  intro c
  fin_cases c
  · show (motion A u i).ballData i 0 = (motion A t i).ballData i 0
    rw [a0, b0, h, h]
  · show (motion A u i).ballData i 1 = (motion A t i).ballData i 1
    rw [a1, b1, h, h]
  · show (motion A u i).ballData i 2 = (motion A t i).ballData i 2
    rw [a2, b2, hx, hy, h]
  · show (motion A u i).ballData i 3 = (motion A t i).ballData i 3
    rw [a3, b3, hx, hdx]
  · show (motion A u i).ballData i 4 = (motion A t i).ballData i 4
    rw [a4, b4, hy, hdy]
  · show (motion A u i).ballData i 5 = (motion A t i).ballData i 5
    rw [a5, b5, h]

/-- The row of an alive ball `i` after the loop over the balls, when the ball
hits no pocket and no collision test that involves it succeeds: it is the row
after integration, braking and wall reflection. -/
theorem loop_isolated (A : Arith F V) (hneg : A.lt (A.ofReal (-1)) (A.ofReal 0) = true)
    (t : Table V) (i : Fin 7) (ha : pocketed A t i = false)
    (hp : ∀ j, hitsPocket A t i j = false)
    (hiso : isolated A t (ballLoop A (List.finRange 7) t) i) :
    ∀ c, (ballLoop A (List.finRange 7) t).ballData i c = (motion A t i).ballData i c := by
  obtain ⟨l1, l2, hsplit⟩ := List.append_of_mem (List.mem_finRange i)
  have hnd : (l1 ++ i :: l2).Nodup := hsplit ▸ List.nodup_finRange 7
  have hpw : (l1 ++ i :: l2).Pairwise (· < ·) := hsplit ▸ List.pairwise_lt_finRange 7
  obtain ⟨hnd1, hnd2, hdisj⟩ := List.nodup_append.mp hnd
  obtain ⟨hi2, hnd2'⟩ := List.nodup_cons.mp hnd2
  obtain ⟨-, hpw2, hlt1⟩ := List.pairwise_append.mp hpw
  have hlt2 := (List.pairwise_cons.mp hpw2).1
  have hi1 : i ∉ l1 := fun hmem => hdisj hmem (List.mem_cons_self _ _)
  have hmem : ∀ j, j ≠ i → j ∈ l1 ∨ j ∈ l2 := by
    intro j hji
    have hj : j ∈ l1 ++ i :: l2 := hsplit ▸ List.mem_finRange j
    rcases List.mem_append.mp hj with h | h
    · exact Or.inl h
    · rcases List.mem_cons.mp h with h | h
      · exact absurd h hji
      · exact Or.inr h
  have hT : ballLoop A (List.finRange 7) t
      = ballLoop A l2 (ballPass A i (ballLoop A l1 t)) := by
    rw [hsplit, loop_append, ballLoop]
  rw [hT] at hiso ⊢
  -- the three stages of the loop
  have hk1 := (loop_keeps A l1 t).2
  have hq1 := (loop_keeps A l1 t).1
  have hk2 := (loop_keeps A l2 (ballPass A i (ballLoop A l1 t))).2
  have hkp := (pass_keeps A (ballLoop A l1 t) i).2.1
  -- a ball of the first stage has its final position and flag after that stage
  have hfin1 : ∀ k ∈ l1, ∀ c, c = 0 ∨ c = 1 ∨ c = 5 →
      (ballLoop A l2 (ballPass A i (ballLoop A l1 t))).ballData k c
        = (ballLoop A l1 t).ballData k c := by
    intro k hk c hc
    have hki : k ≠ i := fun e => hi1 (e ▸ hk)
    have hk2' : k ∉ l2 := fun hmem => hdisj hk (List.mem_cons_of_mem _ hmem)
    rw [hk2 k c hk2' hc, hkp k c hki hc]
  -- stage one leaves ball `i` untouched
  have hrow1 : ∀ c, (ballLoop A l1 t).ballData i c = t.ballData i c := by
    apply loop_untouched A hneg l1 t i hnd1 hi1
    intro k hk
    have hki : k ≠ i := fun e => hi1 (e ▸ hk)
    rcases (hiso k hki).1 (hlt1 k hk i (List.mem_cons_self _ _)) with h | ⟨h, -⟩
    · rw [pocketed, hfin1 k hk 5 (Or.inr (Or.inr rfl))] at h
      exact Or.inl h
    · rw [hfin1 k hk 0 (Or.inl rfl), hfin1 k hk 1 (Or.inr (Or.inl rfl))] at h
      exact Or.inr h
  have ha1 : pocketed A (ballLoop A l1 t) i = false := by
    rw [pocketed, hrow1 5]; exact ha
  have hp1 : ∀ j, hitsPocket A (ballLoop A l1 t) i j = false := by
    intro j
    rw [hitsPocket_same A hq1 (hrow1 0) (hrow1 1) j]
    exact hp j
  have hmoved := pass_moved_row A ha1 hp1
  -- the position of ball `i` after the loop is its position after its motion
  have hfini : ∀ c, c = 0 ∨ c = 1 ∨ c = 5 →
      (ballLoop A l2 (ballPass A i (ballLoop A l1 t))).ballData i c
        = (motion A (ballLoop A l1 t) i).ballData i c := by
    intro c hc
    rw [hk2 i c hi2 hc, hmoved i c hc]
  -- stage two is the motion of ball `i`
  have hpass : ballPass A i (ballLoop A l1 t) = motion A (ballLoop A l1 t) i := by
    apply pass_isolated A _ i ha1 hp1
    intro j hji
    rcases hmem j hji with hj | hj
    · rcases (hiso j hji).1 (hlt1 j hj i (List.mem_cons_self _ _)) with h | ⟨-, h⟩
      · rw [pocketed, hfin1 j hj 5 (Or.inr (Or.inr rfl))] at h
        exact Or.inl h
      · rw [hfin1 j hj 0 (Or.inl rfl), hfin1 j hj 1 (Or.inr (Or.inl rfl)),
          hfini 0 (Or.inl rfl), hfini 1 (Or.inr (Or.inl rfl))] at h
        exact Or.inr h
    · have hj1 : j ∉ l1 := fun hmem1 => hdisj hmem1 (List.mem_cons_of_mem _ hj)
      rcases ((hiso j hji).2 (hlt2 j hj)).1 with h | h
      · left
        rw [pocketed, hk1 j 5 hj1 (Or.inr (Or.inr rfl))]
        exact h
      · right
        rw [hfini 0 (Or.inl rfl), hfini 1 (Or.inr (Or.inl rfl))] at h
        rw [hk1 j 0 hj1 (Or.inl rfl), hk1 j 1 hj1 (Or.inr (Or.inl rfl))]
        exact h
  -- stage three leaves ball `i` untouched
  have hrow3 : ∀ c, (ballLoop A l2 (ballPass A i (ballLoop A l1 t))).ballData i c
      = (ballPass A i (ballLoop A l1 t)).ballData i c := by
    apply loop_untouched A hneg l2 _ i hnd2' hi2
    intro k hk
    have hki : k ≠ i := fun e => hi2 (e ▸ hk)
    rcases ((hiso k hki).2 (hlt2 k hk)).2 with h | h
    · exact Or.inl h
    · rw [hk2 i 0 hi2 (Or.inl rfl), hk2 i 1 hi2 (Or.inr (Or.inl rfl))] at h
      exact Or.inr h
  intro c
  rw [hrow3 c, hpass, motion_row_congr A hrow1 c]

end Machine

namespace Machine

variable {V : Type}

/-! ## Integration, braking and wall reflection on numbers -/

theorem wallTest_real {A : Arith F V} {sqrt : F → F} {pow : F → F → F} (hA : Exact A sqrt pow)
    (x v w : F) :
    wallTest A (A.ofReal x) (A.ofReal v) (A.ofReal w) = decide (Billiard.wallTest x v w) := by
  simp only [wallTest, Billiard.wallTest, hA.sub, hA.add, hA.fabs, hA.lt, gt_iff_lt,
    Bool.decide_or, Bool.decide_and]

theorem damped_real {A : Arith F V} {sqrt : F → F} {pow : F → F → F} (hA : Exact A sqrt pow)
    {t : Table V} {i : Fin 7} {vx vy : F}
    (h3 : t.ballData i 3 = A.ofReal vx) (h4 : t.ballData i 4 = A.ofReal vy) :
    dampedVx A t i = A.ofReal (vx * pow (vx ^ 2 + vy ^ 2) 0.002 * 0.997) ∧
      dampedVy A t i = A.ofReal (vy * pow (vx ^ 2 + vy ^ 2) 0.002 * 0.997) := by
  have hq : (0 : F) ≤ vx ^ 2 + vy ^ 2 := by positivity
  simp only [dampedVx, dampedVy, h3, h4, hA.sq, hA.add, hA.pow _ _ hq, hA.mul, and_self]

/-- Row `i` after integration, braking and wall reflection, for a row of
numbers in an arithmetic that is exact on the numbers. -/
theorem motion_real {A : Arith F V} {sqrt : F → F} {pow : F → F → F} (hA : Exact A sqrt pow)
    {t : Table V} {i : Fin 7} {x y s vx vy : F}
    (h0 : t.ballData i 0 = A.ofReal x) (h1 : t.ballData i 1 = A.ofReal y)
    (h2 : t.ballData i 2 = A.ofReal s) (h3 : t.ballData i 3 = A.ofReal vx)
    (h4 : t.ballData i 4 = A.ofReal vy) :
    (xWallTrigger A t i = true
        ↔ Billiard.wallTest (x + vx) (vx * pow (vx ^ 2 + vy ^ 2) 0.002 * 0.997) 8.2) ∧
      (yWallTrigger A t i = true
        ↔ Billiard.wallTest (y + vy) (vy * pow (vx ^ 2 + vy ^ 2) 0.002 * 0.997) 4.7) ∧
      (motion A t i).ballData i 0 = A.ofReal (x + vx) ∧
      (motion A t i).ballData i 1 = A.ofReal (y + vy) ∧
      (motion A t i).ballData i 2 = A.ofReal (s
        * (if Billiard.wallTest (x + vx) (vx * pow (vx ^ 2 + vy ^ 2) 0.002 * 0.997) 8.2
            then -1 else 1)
        * (if Billiard.wallTest (y + vy) (vy * pow (vx ^ 2 + vy ^ 2) 0.002 * 0.997) 4.7
            then -1 else 1)) ∧
      (motion A t i).ballData i 3 = A.ofReal
        (if Billiard.wallTest (x + vx) (vx * pow (vx ^ 2 + vy ^ 2) 0.002 * 0.997) 8.2
          then vx * pow (vx ^ 2 + vy ^ 2) 0.002 * 0.997 * (-0.5)
          else vx * pow (vx ^ 2 + vy ^ 2) 0.002 * 0.997) ∧
      (motion A t i).ballData i 4 = A.ofReal
        (if Billiard.wallTest (y + vy) (vy * pow (vx ^ 2 + vy ^ 2) 0.002 * 0.997) 4.7
          then vy * pow (vx ^ 2 + vy ^ 2) 0.002 * 0.997 * (-0.5)
          else vy * pow (vx ^ 2 + vy ^ 2) 0.002 * 0.997) := by
  obtain ⟨-, -, m0, m1, m2, m3, m4, -⟩ := motion_effect A t i
  obtain ⟨dx, dy⟩ := damped_real hA h3 h4
  have hX : xWallTrigger A t i
      = decide (Billiard.wallTest (x + vx) (vx * pow (vx ^ 2 + vy ^ 2) 0.002 * 0.997) 8.2) := by
    rw [xWallTrigger, dx, h0, h3, hA.add, wallTest_real hA]
  have hY : yWallTrigger A t i
      = decide (Billiard.wallTest (y + vy) (vy * pow (vx ^ 2 + vy ^ 2) 0.002 * 0.997) 4.7) := by
    rw [yWallTrigger, dy, h1, h4, hA.add, wallTest_real hA]
  rw [hX, hY] at m2
  rw [hX, dx] at m3
  rw [hY, dy] at m4
  refine ⟨by rw [hX, decide_eq_true_iff], by rw [hY, decide_eq_true_iff],
    by rw [m0, h0, h3, hA.add], by rw [m1, h1, h4, hA.add], ?_, ?_, ?_⟩
  · rw [m2, h2]
    by_cases cX : Billiard.wallTest (x + vx) (vx * pow (vx ^ 2 + vy ^ 2) 0.002 * 0.997) 8.2 <;>
      by_cases cY : Billiard.wallTest (y + vy) (vy * pow (vx ^ 2 + vy ^ 2) 0.002 * 0.997) 4.7 <;>
      simp [cX, cY, hA.mul]
  · rw [m3]
    by_cases cX : Billiard.wallTest (x + vx) (vx * pow (vx ^ 2 + vy ^ 2) 0.002 * 0.997) 8.2 <;>
      simp [cX, hA.mul]
  · rw [m4]
    by_cases cY : Billiard.wallTest (y + vy) (vy * pow (vx ^ 2 + vy ^ 2) 0.002 * 0.997) 4.7 <;>
      simp [cY, hA.mul]

/-- The row of ball `i` after an update in which the ball is alive, is not
pocketed and takes part in no collision. -/
theorem update_isolated_row (A : Arith F V) (hneg : A.lt (A.ofReal (-1)) (A.ofReal 0) = true)
    (dt : V) (g : Game V) (i : Fin 7) (ha : pocketed A g.table i = false)
    (ha' : pocketed A (Game.update A dt g).table i = false)
    (hiso : isolated A g.table (Game.update A dt g).table i) :
    ∀ c, (Game.update A dt g).table.ballData i c = (motion A g.table i).ballData i c := by
  have hal := (loop_alive A hneg _ g.table (List.nodup_finRange 7) i (List.mem_finRange i) ha).1
  have hp : ∀ j, hitsPocket A g.table i j = false := by
    intro j
    by_contra hj
    have : pocketed A (ballLoop A (List.finRange 7) g.table) i = true :=
      hal.mpr ⟨j, by simpa using hj⟩
    rw [show (Game.update A dt g).table = ballLoop A (List.finRange 7) g.table from rfl,
      this] at ha'
    exact Bool.noConfusion ha'
  exact loop_isolated A hneg g.table i ha hp hiso

end Machine

/-! ## The cue ball alone on the table, as the machine holds it -/

theorem cueAlone_no_pocket (x y s vx vy : F) (hy : |y| ≤ 3.4) :
    ¬ ∃ j, hitsPocket (cueAlone x y s vx vy).table 0 j := by
  obtain ⟨c0, c1, -⟩ := cueAlone_cue x y s vx vy
  obtain ⟨p0, p1, p2, p3, p4, p5⟩ := pocketsPositions_eq (F := F)
  obtain ⟨hy1, hy2⟩ := abs_le.mp hy
  rintro ⟨j, hj⟩
  have hq : (cueAlone x y s vx vy).table.pocketData j = Params.Table.pocketsPositions j := rfl
  simp only [hitsPocket, c0, c1, hq] at hj
  fin_cases j <;> simp only [Fin.zero_eta, Fin.mk_one, Fin.reduceFinMk] at hj <;>
    simp only [p0, p1, p2, p3, p4, p5] at hj <;> norm_num at hj <;>
    nlinarith [sq_nonneg (x + 15 / 2), sq_nonneg x, sq_nonneg (x - 15 / 2)]

namespace Machine

variable {V : Type}

/-- On the table with the cue ball alone, away from the pockets, the cue ball
is alive before and after the update and takes part in no collision. -/
theorem cueAlone_lift_free {A : Arith F V} {sqrt : F → F} {pow : F → F → F}
    (hA : Exact A sqrt pow) (dt : V) (x y s vx vy : F) (hy : |y| ≤ 3.4) :
    pocketed A (liftGame A (cueAlone x y s vx vy)).table 0 = false ∧
      pocketed A (Game.update A dt (liftGame A (cueAlone x y s vx vy))).table 0 = false ∧
      isolated A (liftGame A (cueAlone x y s vx vy)).table
        (Game.update A dt (liftGame A (cueAlone x y s vx vy))).table 0 := by
  have ha : pocketed A (liftGame A (cueAlone x y s vx vy)).table 0 = false := by
    rw [pocketed_real hA rfl, (cueAlone_cue x y s vx vy).2.2.2.2.2]
    simp
  have hal := (loop_alive A hA.neg_one_lt _ (liftGame A (cueAlone x y s vx vy)).table
    (List.nodup_finRange 7) 0 (List.mem_finRange 0) ha).1
  refine ⟨ha, ?_, ?_⟩
  · by_contra hc
    have hc' : pocketed A (ballLoop A (List.finRange 7)
        (liftGame A (cueAlone x y s vx vy)).table) 0 = true := by simpa using hc
    obtain ⟨j, hj⟩ := hal.mp hc'
    have hj' : hitsPocket A (lift A (cueAlone x y s vx vy).table) 0 j = true := hj
    rw [hitsPocket_lift hA, decide_eq_true_iff] at hj'
    exact cueAlone_no_pocket x y s vx vy hy ⟨j, hj'⟩
  · intro j hj
    have hdead : pocketed A (liftGame A (cueAlone x y s vx vy)).table j = true := by
      rw [pocketed_real hA rfl, decide_eq_true_iff]
      exact cueAlone_dead x y s vx vy j hj
    have hdead' : pocketed A (Game.update A dt (liftGame A (cueAlone x y s vx vy))).table j
        = true := by
      have e : (Game.update A dt (liftGame A (cueAlone x y s vx vy))).table.ballData j 5
          = (liftGame A (cueAlone x y s vx vy)).table.ballData j 5 :=
        loop_pocketed A _ _ j hdead 5
      rw [pocketed, e]
      exact hdead
    exact ⟨fun _ => Or.inl hdead', fun _ => ⟨Or.inl hdead, Or.inl hdead'⟩⟩

/-! ## Wall reflection and speed of a ball that takes part in no collision -/

/-- C5 (amended): for a ball `i` that is alive before `Game::update`, is not
pocketed in this update and for which no collision test of the update succeeds
(`isolated`), in every arithmetic in which `-1 < 0` holds: the update
integrates the position and brakes the velocity; `vx` is the braked `vx` times
`-0.5` if the X wall test holds and the braked `vx` otherwise; likewise `vy`
with the Y wall test; and the slope is multiplied by `-1` once for each of the
two wall tests that holds.  In an arithmetic that is exact on the numbers,
for a row of numbers, the X wall test is `|x + vx - 8.2| < 1` with braked
`vx > 0`, or `|x + vx + 8.2| < 1` with braked `vx < 0` (the Y wall test
likewise with `4.7`), and the slope after the update is the old slope when
both tests hold and its negative when exactly one holds. -/
theorem update_wall_reflection (A : Arith F V)
    (hneg : A.lt (A.ofReal (-1)) (A.ofReal 0) = true) (dt : V) (g : Game V) (i : Fin 7)
    (ha : pocketed A g.table i = false)
    (ha' : pocketed A (Game.update A dt g).table i = false)
    (hiso : isolated A g.table (Game.update A dt g).table i) :
    ((Game.update A dt g).table.ballData i 0
          = A.add (g.table.ballData i 0) (g.table.ballData i 3) ∧
        (Game.update A dt g).table.ballData i 1
          = A.add (g.table.ballData i 1) (g.table.ballData i 4) ∧
        (Game.update A dt g).table.ballData i 3
          = (if xWallTrigger A g.table i = true
              then A.mul (dampedVx A g.table i) (A.ofReal (-0.5))
            else dampedVx A g.table i) ∧
        (Game.update A dt g).table.ballData i 4
          = (if yWallTrigger A g.table i = true
              then A.mul (dampedVy A g.table i) (A.ofReal (-0.5))
            else dampedVy A g.table i) ∧
        (Game.update A dt g).table.ballData i 2
          = (if yWallTrigger A g.table i = true then
              A.mul (if xWallTrigger A g.table i = true
                  then A.mul (g.table.ballData i 2) (A.ofReal (-1))
                else g.table.ballData i 2) (A.ofReal (-1))
            else if xWallTrigger A g.table i = true
              then A.mul (g.table.ballData i 2) (A.ofReal (-1))
            else g.table.ballData i 2)) ∧
      ∀ (sqrt : F → F) (pow : F → F → F), Exact A sqrt pow → ∀ x y s vx vy : F,
        g.table.ballData i 0 = A.ofReal x → g.table.ballData i 1 = A.ofReal y →
        g.table.ballData i 2 = A.ofReal s → g.table.ballData i 3 = A.ofReal vx →
        g.table.ballData i 4 = A.ofReal vy →
        (xWallTrigger A g.table i = true
          ↔ (|x + vx - 8.2| < 1 ∧ vx * pow (vx ^ 2 + vy ^ 2) 0.002 * 0.997 > 0) ∨
            (|x + vx + 8.2| < 1 ∧ vx * pow (vx ^ 2 + vy ^ 2) 0.002 * 0.997 < 0)) ∧
        (yWallTrigger A g.table i = true
          ↔ (|y + vy - 4.7| < 1 ∧ vy * pow (vx ^ 2 + vy ^ 2) 0.002 * 0.997 > 0) ∨
            (|y + vy + 4.7| < 1 ∧ vy * pow (vx ^ 2 + vy ^ 2) 0.002 * 0.997 < 0)) ∧
        (Game.update A dt g).table.ballData i 0 = A.ofReal (x + vx) ∧
        (Game.update A dt g).table.ballData i 1 = A.ofReal (y + vy) ∧
        (Game.update A dt g).table.ballData i 3 = A.ofReal
          (if xWallTrigger A g.table i = true
            then vx * pow (vx ^ 2 + vy ^ 2) 0.002 * 0.997 * (-0.5)
            else vx * pow (vx ^ 2 + vy ^ 2) 0.002 * 0.997) ∧
        (Game.update A dt g).table.ballData i 4 = A.ofReal
          (if yWallTrigger A g.table i = true
            then vy * pow (vx ^ 2 + vy ^ 2) 0.002 * 0.997 * (-0.5)
            else vy * pow (vx ^ 2 + vy ^ 2) 0.002 * 0.997) ∧
        (Game.update A dt g).table.ballData i 2 = A.ofReal
          (s * (if xWallTrigger A g.table i = true then -1 else 1)
            * (if yWallTrigger A g.table i = true then -1 else 1)) := by
  have hrow := update_isolated_row A hneg dt g i ha ha' hiso
  obtain ⟨-, -, m0, m1, m2, m3, m4, -⟩ := motion_effect A g.table i
  refine ⟨⟨(hrow 0).trans m0, (hrow 1).trans m1, (hrow 3).trans m3, (hrow 4).trans m4,
    (hrow 2).trans m2⟩, ?_⟩
  intro sqrt pow hA x y s vx vy h0 h1 h2 h3 h4
  obtain ⟨hX, hY, r0, r1, r2, r3, r4⟩ := motion_real hA h0 h1 h2 h3 h4
  refine ⟨hX, hY, (hrow 0).trans r0, (hrow 1).trans r1, ?_, ?_, ?_⟩
  · rw [hrow 3, r3]
    simp only [hX]
  · rw [hrow 4, r4]
    simp only [hY]
  · rw [hrow 2, r2]
    simp only [hX, hY]

/-- C5 (amended) for the arithmetic `ieee` on the table with the cue ball alone
at `(7, 0)`, moving with velocity `(0.35, 0)` towards the right wall: the X
wall test holds and the velocity after the update is the braked one times
`-0.5`. -/
theorem update_wall_reflection_witness :
    pocketed (ieee Real.sqrt Real.rpow)
        (liftGame (ieee Real.sqrt Real.rpow) (cueAlone (7 : ℝ) 0 0 0.35 0)).table 0 = false ∧
      pocketed (ieee Real.sqrt Real.rpow) (Game.update (ieee Real.sqrt Real.rpow)
        (Ext.fin (1 / 60))
        (liftGame (ieee Real.sqrt Real.rpow) (cueAlone (7 : ℝ) 0 0 0.35 0))).table 0 = false ∧
      isolated (ieee Real.sqrt Real.rpow)
        (liftGame (ieee Real.sqrt Real.rpow) (cueAlone (7 : ℝ) 0 0 0.35 0)).table
        (Game.update (ieee Real.sqrt Real.rpow) (Ext.fin (1 / 60))
          (liftGame (ieee Real.sqrt Real.rpow) (cueAlone (7 : ℝ) 0 0 0.35 0))).table 0 ∧
      xWallTrigger (ieee Real.sqrt Real.rpow)
        (liftGame (ieee Real.sqrt Real.rpow) (cueAlone (7 : ℝ) 0 0 0.35 0)).table 0 = true ∧
      (Game.update (ieee Real.sqrt Real.rpow) (Ext.fin (1 / 60))
          (liftGame (ieee Real.sqrt Real.rpow) (cueAlone (7 : ℝ) 0 0 0.35 0))).table.ballData 0 3
        = Ext.fin (0.35 * Real.rpow (0.35 ^ 2 + 0 ^ 2) 0.002 * 0.997 * (-0.5)) := by
  have hA := ieee_exact Real.sqrt Real.rpow
  obtain ⟨ha, ha', hiso⟩ := cueAlone_lift_free hA (Ext.fin (1 / 60)) (7 : ℝ) 0 0 0.35 0
    (by norm_num [abs_le])
  obtain ⟨hX, -, -, -, r3, -, -⟩ := (update_wall_reflection (ieee Real.sqrt Real.rpow)
    hA.neg_one_lt (Ext.fin (1 / 60)) _ 0 ha ha' hiso).2 Real.sqrt Real.rpow hA 7 0 0 0.35 0
    rfl rfl rfl rfl rfl
  have hpow : (0 : ℝ) < Real.rpow ((0.35 : ℝ) ^ 2 + 0 ^ 2) 0.002 :=
    Real.rpow_pos_of_pos (by norm_num) _
  have hT : xWallTrigger (ieee Real.sqrt Real.rpow)
      (liftGame (ieee Real.sqrt Real.rpow) (cueAlone (7 : ℝ) 0 0 0.35 0)).table 0 = true := by
    rw [hX]
    refine Or.inl ⟨?_, ?_⟩
    · rw [abs_lt]; constructor <;> norm_num
    · show (0 : ℝ) < 0.35 * Real.rpow ((0.35 : ℝ) ^ 2 + 0 ^ 2) 0.002 * 0.997
      positivity
  rw [if_pos hT] at r3
  exact ⟨ha, ha', hiso, hT, r3⟩

end Machine

namespace Machine

variable {V : Type}

/-! ## A table at rest -/

theorem overflow_pos : (0 : F) < overflow := by
  unfold overflow
  norm_num

/-- Integration, braking and wall reflection change nothing for a ball at rest
at a position of numbers. -/
theorem motion_still {A : Arith F V} {sqrt : F → F} {pow : F → F → F} (hA : Exact A sqrt pow)
    (t : Table V) (i : Fin 7) {x y : F}
    (h0 : t.ballData i 0 = A.ofReal x) (h1 : t.ballData i 1 = A.ofReal y)
    (h3 : t.ballData i 3 = A.ofReal 0) (h4 : t.ballData i 4 = A.ofReal 0) :
    motion A t i = t := by
  obtain ⟨mq, mrow, m0, m1, m2, m3, m4, m5⟩ := motion_effect A t i
  obtain ⟨dx, dy⟩ := damped_real hA h3 h4
  have hX : xWallTrigger A t i = false := by
    rw [xWallTrigger, dx, h0, h3, hA.add, wallTest_real hA, decide_eq_false_iff_not]
    rintro (⟨-, h⟩ | ⟨-, h⟩) <;> simp at h
  have hY : yWallTrigger A t i = false := by
    rw [yWallTrigger, dy, h1, h4, hA.add, wallTest_real hA, decide_eq_false_iff_not]
    rintro (⟨-, h⟩ | ⟨-, h⟩) <;> simp at h
  apply table_ext mq
  intro m c
  by_cases hm : m = i
  · subst hm
    fin_cases c
    · show (motion A t m).ballData m 0 = t.ballData m 0
      rw [m0, h0, h3, hA.add, add_zero]
    · show (motion A t m).ballData m 1 = t.ballData m 1
      rw [m1, h1, h4, hA.add, add_zero]
    · show (motion A t m).ballData m 2 = t.ballData m 2
      rw [m2, hX, hY]
      simp
    · show (motion A t m).ballData m 3 = t.ballData m 3
      rw [m3, hX, dx, h3]
      simp
    · show (motion A t m).ballData m 4 = t.ballData m 4
      rw [m4, hY, dy, h4]
      simp
    · exact m5
  · exact mrow m c hm

/-- The exchange between two balls at rest leaves both at rest. -/
theorem exchange_still {A : Arith ℝ V} {pow : ℝ → ℝ → ℝ} (hA : Exact A Real.sqrt pow)
    (t : Table V) {i j : Fin 7} (hij : i ≠ j) {xi yi xj yj : ℝ}
    (hi0 : t.ballData i 0 = A.ofReal xi) (hi1 : t.ballData i 1 = A.ofReal yi)
    (hj0 : t.ballData j 0 = A.ofReal xj) (hj1 : t.ballData j 1 = A.ofReal yj)
    (hi3 : t.ballData i 3 = A.ofReal 0) (hi4 : t.ballData i 4 = A.ofReal 0)
    (hj3 : t.ballData j 3 = A.ofReal 0) (hj4 : t.ballData j 4 = A.ofReal 0)
    (hx : xi ≠ xj) (hm : |(yi - yj) / (xi - xj)| < overflow) :
    (exchange A t i j).ballData i 3 = A.ofReal 0 ∧ (exchange A t i j).ballData i 4 = A.ofReal 0 ∧
      (exchange A t i j).ballData j 3 = A.ofReal 0 ∧
      (exchange A t i j).ballData j 4 = A.ofReal 0 := by
  have hne : xi - xj ≠ 0 := sub_ne_zero.mpr hx
  have eS := hA.div (yi - yj) (xi - xj) hne hm
  have hpos : 0 < Real.sqrt (1 + ((yi - yj) / (xi - xj)) ^ 2) :=
    Real.sqrt_pos.mpr (by positivity)
  have eR : A.sqrt (A.ofReal (1 + ((yi - yj) / (xi - xj)) ^ 2))
      = A.ofReal (Real.sqrt (1 + ((yi - yj) / (xi - xj)) ^ 2)) := hA.sqrt _ (by positivity)
  have e0 : A.sqrt (A.ofReal 0) = A.ofReal 0 := by
    rw [hA.sqrt 0 le_rfl, Real.sqrt_zero]
  have eD : A.div (A.ofReal 0) (A.ofReal (Real.sqrt (1 + ((yi - yj) / (xi - xj)) ^ 2)))
      = A.ofReal 0 := by
    rw [hA.div 0 _ hpos.ne' (by simp [overflow_pos]), zero_div]
  have hsgn : ∀ (c : Prop) [Decidable c],
      A.mul (A.ofReal 0) (if c then A.ofReal 1 else A.ofReal (-1)) = A.ofReal 0 := by
    intro c _
    split_ifs <;> simp [hA.mul]
  have hsgn' : ∀ (c : Prop) [Decidable c],
      A.mul (A.ofReal 0) (if c then A.ofReal (-1) else A.ofReal 1) = A.ofReal 0 := by
    intro c _
    split_ifs <;> simp [hA.mul]
  have hji : j ≠ i := fun e => hij e.symm
  simp [exchange, retain, pushSelf, pushPartner, contactSlope, speed, along, set_lookup,
    hij, hji, hi0, hi1, hj0, hj1, hi3, hi4, hj3, hj4, hA.sub, eS, hA.sq, hA.add, eR, e0, eD,
    hsgn, hsgn', hA.mul]

end Machine

namespace Machine

variable {V : Type}

/-- The conditions of a table at rest depend on the pockets and on the
positions, velocities and alive flags only. -/
theorem settled_of_same (A : Arith F V) {t u : Table V} {px py : Fin 7 → F}
    (h : settled A t px py) (hq : u.pocketData = t.pocketData)
    (hrow : ∀ m c, c ≠ 2 → u.ballData m c = t.ballData m c) : settled A u px py := by
  obtain ⟨h1, h2, h3⟩ := h
  have hflag : ∀ m, pocketed A u m = pocketed A t m := fun m => by
    rw [pocketed, pocketed, hrow m 5 (by decide)]
  refine ⟨fun i => ?_, fun i j hi => ?_, fun i j hij hi hj ht => ?_⟩
  · rw [hrow i 0 (by decide), hrow i 1 (by decide), hrow i 3 (by decide), hrow i 4 (by decide)]
    exact h1 i
  · rw [hitsPocket_same A hq (hrow i 0 (by decide)) (hrow i 1 (by decide))]
    exact h2 i j (by rw [← hflag]; exact hi)
  · rw [ballsTouch_same A (hrow i 0 (by decide)) (hrow i 1 (by decide))
      (hrow j 0 (by decide)) (hrow j 1 (by decide))] at ht
    exact h3 i j hij (by rw [← hflag]; exact hi) (by rw [← hflag]; exact hj) ht

/-- The collision loop of a ball on a table at rest changes slopes only. -/
theorem touchingBall_still {A : Arith ℝ V} {pow : ℝ → ℝ → ℝ} (hA : Exact A Real.sqrt pow)
    (i : Fin 7) {px py : Fin 7 → ℝ} (js : List (Fin 7)) :
    ∀ t : Table V, settled A t px py → pocketed A t i = false →
      (touchingBall A i js t).pocketData = t.pocketData ∧
      ∀ m c, c ≠ 2 → (touchingBall A i js t).ballData m c = t.ballData m c := by
  induction js with
  | nil => exact fun _ _ _ => ⟨rfl, fun _ _ _ => rfl⟩
  | cons j js ih =>
    intro t h hi
    rw [touchingBall]
    split_ifs with h1 h2
    · exact ih t h hi
    · obtain ⟨hij, hj⟩ := not_or.mp h1
      have hj' : pocketed A t j = false := by simpa using hj
      obtain ⟨hx, hm⟩ := h.2.2 i j hij hi hj' h2
      obtain ⟨i0, i1, i3, i4⟩ := h.1 i
      obtain ⟨j0, j1, j3, j4⟩ := h.1 j
      obtain ⟨e1, e2, e3, e4⟩ := exchange_still hA t hij i0 i1 j0 j1 i3 i4 j3 j4 hx hm
      obtain ⟨kq, krow⟩ := exchange_keeps A t i j
      have hsame : ∀ m c, c ≠ 2 → (exchange A t i j).ballData m c = t.ballData m c := by
        intro m c hc
        by_cases hmi : m = i
        · subst hmi
          fin_cases c
          · exact krow m 0 (Or.inr (Or.inl rfl))
          · exact krow m 1 (Or.inr (Or.inr (Or.inl rfl)))
          · exact absurd rfl hc
          · exact e1.trans i3.symm
          · exact e2.trans i4.symm
          · exact krow m 5 (Or.inr (Or.inr (Or.inr rfl)))
        · by_cases hmj : m = j
          · subst hmj
            fin_cases c
            · exact krow m 0 (Or.inr (Or.inl rfl))
            · exact krow m 1 (Or.inr (Or.inr (Or.inl rfl)))
            · exact absurd rfl hc
            · exact e3.trans j3.symm
            · exact e4.trans j4.symm
            · exact krow m 5 (Or.inr (Or.inr (Or.inr rfl)))
          · exact krow m c (Or.inl ⟨hmi, hmj⟩)
      have h' := settled_of_same A h kq hsame
      have hi' : pocketed A (exchange A t i j) i = false := by
        rw [pocketed, hsame i 5 (by decide)]
        exact hi
      obtain ⟨q, r⟩ := ih (exchange A t i j) h' hi'
      exact ⟨q.trans kq, fun m c hc => (r m c hc).trans (hsame m c hc)⟩
    · exact ih t h hi

/-- The pass of a ball on a table at rest changes slopes only. -/
theorem pass_still {A : Arith ℝ V} {pow : ℝ → ℝ → ℝ} (hA : Exact A Real.sqrt pow)
    (t : Table V) (i : Fin 7) {px py : Fin 7 → ℝ} (h : settled A t px py) :
    (ballPass A i t).pocketData = t.pocketData ∧
      ∀ m c, c ≠ 2 → (ballPass A i t).ballData m c = t.ballData m c := by
  by_cases hi : pocketed A t i = true
  · rw [pass_skip A hi]
    exact ⟨rfl, fun _ _ _ => rfl⟩
  · have hi' : pocketed A t i = false := by simpa using hi
    obtain ⟨i0, i1, i3, i4⟩ := h.1 i
    rw [pass_moved A hi' (fun j => h.2.1 i j hi'), motion_still hA t i i0 i1 i3 i4]
    exact touchingBall_still hA i _ t h hi'

/-- The loop over the balls on a table at rest changes slopes only. -/
theorem loop_still {A : Arith ℝ V} {pow : ℝ → ℝ → ℝ} (hA : Exact A Real.sqrt pow)
    {px py : Fin 7 → ℝ} (ks : List (Fin 7)) :
    ∀ t : Table V, settled A t px py →
      (ballLoop A ks t).pocketData = t.pocketData ∧
      ∀ m c, c ≠ 2 → (ballLoop A ks t).ballData m c = t.ballData m c := by
  induction ks with
  | nil => exact fun _ _ => ⟨rfl, fun _ _ _ => rfl⟩
  | cons k ks ih =>
    intro t h
    rw [ballLoop]
    obtain ⟨q1, r1⟩ := pass_still hA t k h
    obtain ⟨q, r⟩ := ih (ballPass A k t) (settled_of_same A h q1 r1)
    exact ⟨q.trans q1, fun m c hc => (r m c hc).trans (r1 m c hc)⟩

/-- Any number of updates of a table at rest changes slopes only. -/
theorem updates_still {A : Arith ℝ V} {pow : ℝ → ℝ → ℝ} (hA : Exact A Real.sqrt pow)
    {px py : Fin 7 → ℝ} (dts : List V) :
    ∀ g : Game V, settled A g.table px py →
      (Game.updates A dts g).table.pocketData = g.table.pocketData ∧
      ∀ m c, c ≠ 2 → (Game.updates A dts g).table.ballData m c = g.table.ballData m c := by
  induction dts with
  | nil => exact fun _ _ => ⟨rfl, fun _ _ _ => rfl⟩
  | cons dt dts ih =>
    intro g h
    rw [Game.updates]
    obtain ⟨q1, r1⟩ := loop_still hA (List.finRange 7) g.table h
    obtain ⟨q, r⟩ := ih (Game.update A dt g) (settled_of_same A h q1 r1)
    exact ⟨q.trans q1, fun m c hc => (r m c hc).trans (r1 m c hc)⟩

end Machine

/-- On the table `cueAt 3.4 0.3 0 0 0` the cue ball is at least `0.35` away in
x and at most `1.1` away in y from every object ball. -/
theorem cueAt_apart (m : Fin 7) (hm : m ≠ 0) :
    (0.35 : F) ≤ |(cueAt (3.4 : F) 0.3 0 0 0).table.ballData 0 0
        - (cueAt (3.4 : F) 0.3 0 0 0).table.ballData m 0| ∧
      |(cueAt (3.4 : F) 0.3 0 0 0).table.ballData 0 1
        - (cueAt (3.4 : F) 0.3 0 0 0).table.ballData m 1| ≤ 1.1 := by
  obtain ⟨b0, b1, b2, b3, b4, b5, b6⟩ := ballsPositions_eq (F := F)
  obtain ⟨c0, c1, -⟩ := cueAt_cue (3.4 : F) 0.3 0 0 0
  rw [c0, c1, cueAt_ballData _ _ _ _ _ m hm, cueAt_ballData _ _ _ _ _ m hm, (init_ballData m).1,
    (init_ballData m).2.1]
  fin_cases m <;> simp only [Fin.zero_eta, Fin.mk_one, Fin.reduceFinMk] <;>
    first
    | exact absurd rfl hm
    | (simp only [b1, b2, b3, b4, b5, b6]
       constructor
       · rw [le_abs]; norm_num
       · rw [abs_le]; constructor <;> norm_num)

/-- On the table `cueAt 3.4 0.3 0 0 0` the slope between two balls in contact
is far below the overflow bound. -/
theorem cueAt_slope_bound (i j : Fin 7) (hij : i ≠ j)
    (ht : ballsTouch (cueAt (3.4 : F) 0.3 0 0 0).table i j) :
    |((cueAt (3.4 : F) 0.3 0 0 0).table.ballData i 1
        - (cueAt (3.4 : F) 0.3 0 0 0).table.ballData j 1)
      / ((cueAt (3.4 : F) 0.3 0 0 0).table.ballData i 0
        - (cueAt (3.4 : F) 0.3 0 0 0).table.ballData j 0)| < Machine.overflow := by
  have hbig : (4 : F) < Machine.overflow := by
    unfold Machine.overflow
    norm_num
  have key : ∀ a b : F, 0.35 ≤ |b| → |a| ≤ 1.1 → |a / b| < Machine.overflow := by
    intro a b hb ha
    have hb0 : (0 : F) < |b| := lt_of_lt_of_le (by norm_num) hb
    rw [abs_div, div_lt_iff₀ hb0]
    nlinarith
  by_cases hi : i = 0
  · subst hi
    obtain ⟨h1, h2⟩ := cueAt_apart (F := F) j (fun e => hij e.symm)
    exact key _ _ h1 h2
  · by_cases hj : j = 0
    · subst hj
      obtain ⟨h1, h2⟩ := cueAt_apart (F := F) i hi
      rw [abs_sub_comm] at h1 h2
      exact key _ _ h1 h2
    · exfalso
      apply init_not_ballsTouch (F := F) i j hij
      simpa only [ballsTouch, cueAt_ballData _ _ _ _ _ i hi, cueAt_ballData _ _ _ _ _ j hj]
        using ht

namespace Machine

variable {V : Type}

theorem ballsTouch_lift {A : Arith F V} {sqrt : F → F} {pow : F → F → F} (hA : Exact A sqrt pow)
    (t : Table F) (i j : Fin 7) :
    ballsTouch A (lift A t) i j = decide (Billiard.ballsTouch t i j) :=
  inContact_real hA _ _ _ _

/-- The table `cueAt 3.4 0.3 0 0 0` is at rest: no ball is within the capture
radius of a pocket, and the cue ball touches ball 1, not on the same vertical. -/
theorem cueAt_settled {A : Arith F V} {sqrt : F → F} {pow : F → F → F} (hA : Exact A sqrt pow) :
    settled A (liftGame A (cueAt (3.4 : F) 0.3 0 0 0)).table
      (fun i => (cueAt (3.4 : F) 0.3 0 0 0).table.ballData i 0)
      (fun i => (cueAt (3.4 : F) 0.3 0 0 0).table.ballData i 1) := by
  refine ⟨fun i => ⟨rfl, rfl, ?_, ?_⟩, fun i j _ => ?_, fun i j hij _ _ ht => ?_⟩
  · show A.ofReal ((cueAt (3.4 : F) 0.3 0 0 0).table.ballData i 3) = A.ofReal 0
    rw [(cueAt_rest (3.4 : F) 0.3 0 i).1]
  · show A.ofReal ((cueAt (3.4 : F) 0.3 0 0 0).table.ballData i 4) = A.ofReal 0
    rw [(cueAt_rest (3.4 : F) 0.3 0 i).2]
  · show hitsPocket A (lift A _) i j = false
    rw [hitsPocket_lift hA, decide_eq_false_iff_not]
    exact cueAt_not_hitsPocket i j
  · have ht' : ballsTouch A (lift A (cueAt (3.4 : F) 0.3 0 0 0).table) i j = true := ht
    rw [ballsTouch_lift hA, decide_eq_true_iff] at ht'
    exact ⟨cueAt_not_vertical i j hij ht', cueAt_slope_bound i j hij ht'⟩

end Machine

namespace Machine

variable {V : Type}

/-! ## The release on numbers -/

theorem sqrt_one_add_sq_ge (m : ℝ) :
    1 ≤ Real.sqrt (1 + m ^ 2) ∧ |m| ≤ Real.sqrt (1 + m ^ 2) := by
  constructor
  · rw [Real.le_sqrt' one_pos, one_pow]
    nlinarith [sq_nonneg m]
  · exact Real.abs_le_sqrt (by linarith)

/-- The quotients and products of the release stay below the overflow bound
when the charge does. -/
theorem release_bounds {p : ℝ} (m s : ℝ) (hp : |p| < overflow) (hs : s = 1 ∨ s = -1) :
    |p / Real.sqrt (1 + m ^ 2)| < overflow ∧
      |p / Real.sqrt (1 + m ^ 2) * s / 2| < overflow ∧
      |p / Real.sqrt (1 + m ^ 2) * m * s / 2| < overflow := by
  obtain ⟨h1, h2⟩ := sqrt_one_add_sq_ge m
  have hpos : 0 < Real.sqrt (1 + m ^ 2) := lt_of_lt_of_le one_pos h1
  have hs1 : |s| = 1 := by
    rcases hs with rfl | rfl <;> simp
  have ha : |p / Real.sqrt (1 + m ^ 2)| ≤ |p| := by
    rw [abs_div, abs_of_pos hpos]
    exact div_le_self (abs_nonneg p) h1
  have hb : |p / Real.sqrt (1 + m ^ 2) * m| ≤ |p| := by
    rw [abs_mul, abs_div, abs_of_pos hpos, div_mul_eq_mul_div, div_le_iff₀ hpos]
    exact mul_le_mul_of_nonneg_left h2 (abs_nonneg p)
  refine ⟨lt_of_le_of_lt ha hp, ?_, ?_⟩
  · rw [abs_div, abs_mul, hs1, mul_one, abs_two]
    have := abs_nonneg (p / Real.sqrt (1 + m ^ 2))
    linarith
  · rw [abs_div, abs_mul, hs1, mul_one, abs_two]
    have := abs_nonneg (p / Real.sqrt (1 + m ^ 2) * m)
    linarith

/-- The three fields written by the release. -/
theorem aim_row (A : Arith F V) (x y p : V) (t : Table V) :
    (Game.aim A x y p t).ballData 0 2
        = A.div (A.sub y (t.ballData 0 1)) (A.sub x (t.ballData 0 0)) ∧
      (Game.aim A x y p t).ballData 0 3
        = A.div (A.mul
            (along A p (A.div (A.sub y (t.ballData 0 1)) (A.sub x (t.ballData 0 0))))
            (if A.lt (A.ofReal 0) (A.sub x (t.ballData 0 0)) = true then A.ofReal 1
              else A.ofReal (-1))) (A.ofReal 2) ∧
      (Game.aim A x y p t).ballData 0 4
        = A.div (A.mul (A.mul
            (along A p (A.div (A.sub y (t.ballData 0 1)) (A.sub x (t.ballData 0 0))))
            (A.div (A.sub y (t.ballData 0 1)) (A.sub x (t.ballData 0 0))))
            (if A.lt (A.ofReal 0) (A.sub x (t.ballData 0 0)) = true then A.ofReal 1
              else A.ofReal (-1))) (A.ofReal 2) := by
  simp [Game.aim, set_lookup]

/-- The slope and the velocity stored by the release, for a cue ball at a
position of numbers, a release point off the vertical through it, a slope
below the overflow bound and a charge below the overflow bound. -/
theorem aim_real {A : Arith ℝ V} {pow : ℝ → ℝ → ℝ} (hA : Exact A Real.sqrt pow) (t : Table V)
    {tx ty x0 y0 p : ℝ}
    (h0 : t.ballData 0 0 = A.ofReal x0) (h1 : t.ballData 0 1 = A.ofReal y0)
    (hx : tx ≠ x0) (hm : |(ty - y0) / (tx - x0)| < overflow) (hp : |p| < overflow) :
    (Game.aim A (A.ofReal tx) (A.ofReal ty) (A.ofReal p) t).ballData 0 2
        = A.ofReal ((ty - y0) / (tx - x0)) ∧
      (Game.aim A (A.ofReal tx) (A.ofReal ty) (A.ofReal p) t).ballData 0 3
        = A.ofReal (p / Real.sqrt (1 + ((ty - y0) / (tx - x0)) ^ 2)
            * (if tx - x0 > 0 then 1 else -1) / 2) ∧
      (Game.aim A (A.ofReal tx) (A.ofReal ty) (A.ofReal p) t).ballData 0 4
        = A.ofReal (p / Real.sqrt (1 + ((ty - y0) / (tx - x0)) ^ 2) * ((ty - y0) / (tx - x0))
            * (if tx - x0 > 0 then 1 else -1) / 2) := by
  have hne : tx - x0 ≠ 0 := sub_ne_zero.mpr hx
  have hsgn : (if tx - x0 > 0 then (1 : ℝ) else -1) = 1 ∨ (if tx - x0 > 0 then (1 : ℝ) else -1) = -1 := by
    split_ifs
    · exact Or.inl rfl
    · exact Or.inr rfl
  obtain ⟨b1, b2, b3⟩ := release_bounds ((ty - y0) / (tx - x0)) _ hp hsgn
  obtain ⟨g1, -⟩ := sqrt_one_add_sq_ge ((ty - y0) / (tx - x0))
  have hpos : Real.sqrt (1 + ((ty - y0) / (tx - x0)) ^ 2) ≠ 0 :=
    (lt_of_lt_of_le one_pos g1).ne'
  have eS := hA.div (ty - y0) (tx - x0) hne hm
  have eR : A.sqrt (A.ofReal (1 + ((ty - y0) / (tx - x0)) ^ 2))
      = A.ofReal (Real.sqrt (1 + ((ty - y0) / (tx - x0)) ^ 2)) := hA.sqrt _ (by positivity)
  have eD := hA.div p _ hpos b1
  have eG : (if A.lt (A.ofReal 0) (A.ofReal (tx - x0)) = true then A.ofReal 1 else A.ofReal (-1))
      = A.ofReal (if tx - x0 > 0 then 1 else -1) := by
    rw [hA.lt]
    by_cases h : 0 < tx - x0
    · simp [h]
    · simp [h]
  have e3 := hA.div _ 2 two_ne_zero b2
  have e4 := hA.div _ 2 two_ne_zero b3
  obtain ⟨r2, r3, r4⟩ := aim_row A (A.ofReal tx) (A.ofReal ty) (A.ofReal p) t
  rw [h0, h1, hA.sub, hA.sub, eS] at r2 r3 r4
  rw [along, hA.sq, hA.add, eR, eD, eG, hA.mul, e3] at r3
  rw [along, hA.sq, hA.add, eR, eD, eG, hA.mul, hA.mul, e4] at r4
  exact ⟨r2, r3, r4⟩

end Machine

namespace Machine

variable {V : Type}

/-! ## Special values in the concrete arithmetic -/

theorem Ext.sub_fin (a b : F) : Ext.sub (Ext.fin a) (Ext.fin b) = Ext.fin (a - b) := by
  simp [Ext.sub, Ext.add, Ext.neg, sub_eq_add_neg]

theorem Ext.div_by_zero (a : F) : Ext.div (Ext.fin a) (Ext.fin 0) = Ext.signed a := by
  simp [Ext.div]

theorem Ext.div_overflow {a b : F} (hb : b ≠ 0) (h : overflow ≤ a / b) :
    Ext.div (Ext.fin a) (Ext.fin b) = Ext.pinf := by
  simp [Ext.div, hb, h]

theorem Ext.div_underflow {a b : F} (hb : b ≠ 0) (h : a / b ≤ -overflow) :
    Ext.div (Ext.fin a) (Ext.fin b) = Ext.ninf := by
  have h' : ¬ overflow ≤ a / b := by
    intro h1
    have := overflow_pos (F := F)
    linarith
  simp [Ext.div, hb, h, h']

theorem Ext.signed_ne_fin (a m : F) : Ext.signed a ≠ Ext.fin m := by
  unfold Ext.signed
  split_ifs <;> simp

theorem Ext.nan_div (b : Ext F) : Ext.div Ext.nan b = Ext.nan := by
  cases b <;> rfl

theorem Ext.div_nan (a : Ext F) : Ext.div a Ext.nan = Ext.nan := by
  cases a <;> rfl

theorem Ext.nan_mul (b : Ext F) : Ext.mul Ext.nan b = Ext.nan := by
  cases b <;> rfl

theorem Ext.mul_nan (a : Ext F) : Ext.mul a Ext.nan = Ext.nan := by
  cases a <;> rfl

theorem Ext.add_nan (a : Ext F) : Ext.add a Ext.nan = Ext.nan := by
  cases a <;> rfl

theorem Ext.nan_add (b : Ext F) : Ext.add Ext.nan b = Ext.nan := by
  cases b <;> rfl

theorem Ext.sub_nan (a : Ext F) : Ext.sub a Ext.nan = Ext.nan := by
  cases a <;> rfl

/-- The quotient of two numbers is a number exactly when the divisor is not
zero and the quotient is below the overflow bound. -/
theorem Ext.div_fin_iff (a b : F) :
    (∃ m, Ext.div (Ext.fin a) (Ext.fin b) = Ext.fin m) ↔ b ≠ 0 ∧ |a / b| < overflow := by
  constructor
  · rintro ⟨m, hm⟩
    by_cases hb : b = 0
    · subst hb
      rw [Ext.div_by_zero] at hm
      exact absurd hm (Ext.signed_ne_fin a m)
    · refine ⟨hb, ?_⟩
      by_cases h1 : overflow ≤ a / b
      · rw [Ext.div_overflow hb h1] at hm
        exact Ext.noConfusion hm
      · by_cases h2 : a / b ≤ -overflow
        · rw [Ext.div_underflow hb h2] at hm
          exact Ext.noConfusion hm
        · exact abs_lt.mpr ⟨not_le.mp h2, not_le.mp h1⟩
  · rintro ⟨hb, h⟩
    obtain ⟨h1, h2⟩ := abs_lt.mp h
    exact ⟨a / b, by simp [Ext.div, hb, not_le.mpr h2, not_le.mpr h1]⟩

/-! ## The velocity of the release -/

theorem cueAt_lift_cue {A : Arith F V} (p x y s vx vy : F) :
    (liftGame A (charging p (cueAt x y s vx vy))).table.ballData 0 0 = A.ofReal x ∧
      (liftGame A (charging p (cueAt x y s vx vy))).table.ballData 0 1 = A.ofReal y ∧
      (liftGame A (charging p (cueAt x y s vx vy))).shotChargeProgress = A.ofReal p := by
  refine ⟨?_, ?_, rfl⟩
  · show A.ofReal ((cueAt x y s vx vy).table.ballData 0 0) = A.ofReal x
    rw [(cueAt_cue x y s vx vy).1]
  · show A.ofReal ((cueAt x y s vx vy).table.ballData 0 1) = A.ofReal y
    rw [(cueAt_cue x y s vx vy).2.1]

/-- The release of the cue ball at `(0, 0)` with full charge at the point
`(2^-130, 1)`: the quotient `1 / 2^-130` overflows, the slope is `+inf`, `vx` is
0 and `vy` is NaN. -/
theorem release_overflow :
    (Game.mouseButtonReleased (ieee Real.sqrt Real.rpow) (Ext.fin (1 / 2 ^ 130)) (Ext.fin 1)
          (liftGame (ieee Real.sqrt Real.rpow)
            (charging 1 (cueAt (0 : ℝ) 0 0 0 0)))).table.ballData 0 2 = Ext.pinf ∧
      (Game.mouseButtonReleased (ieee Real.sqrt Real.rpow) (Ext.fin (1 / 2 ^ 130)) (Ext.fin 1)
          (liftGame (ieee Real.sqrt Real.rpow)
            (charging 1 (cueAt (0 : ℝ) 0 0 0 0)))).table.ballData 0 3 = Ext.fin 0 ∧
      (Game.mouseButtonReleased (ieee Real.sqrt Real.rpow) (Ext.fin (1 / 2 ^ 130)) (Ext.fin 1)
          (liftGame (ieee Real.sqrt Real.rpow)
            (charging 1 (cueAt (0 : ℝ) 0 0 0 0)))).table.ballData 0 4 = Ext.nan := by
  obtain ⟨c0, c1, cp⟩ := cueAt_lift_cue (A := ieee Real.sqrt Real.rpow) (1 : ℝ) 0 0 0 0 0
  obtain ⟨r2, r3, r4⟩ := aim_row (ieee Real.sqrt Real.rpow) (Ext.fin (1 / 2 ^ 130)) (Ext.fin 1)
    (Ext.fin 1) (liftGame (ieee Real.sqrt Real.rpow) (charging 1 (cueAt (0 : ℝ) 0 0 0 0))).table
  have hS : Ext.div (Ext.sub (Ext.fin (1 : ℝ)) (Ext.fin 0))
      (Ext.sub (Ext.fin (1 / 2 ^ 130)) (Ext.fin 0)) = Ext.pinf := by
    rw [Ext.sub_fin, Ext.sub_fin]
    apply Ext.div_overflow (by norm_num)
    unfold overflow
    norm_num
  have hal : Ext.div (Ext.fin (1 : ℝ))
      (Ext.sqrt Real.sqrt (Ext.add (Ext.fin 1) (Ext.sq Ext.pinf))) = Ext.fin 0 := rfl
  have hlt : Ext.lt (Ext.fin (0 : ℝ)) (Ext.sub (Ext.fin (1 / 2 ^ 130)) (Ext.fin 0)) = true := by
    rw [Ext.sub_fin]
    simp [Ext.lt]
  rw [c0, c1] at r2 r3 r4
  simp only [ieee, along] at r2 r3 r4
  rw [hS] at r2 r3 r4
  rw [hal, hlt, if_pos rfl] at r3 r4
  refine ⟨r2, ?_, ?_⟩
  · rw [show (Game.mouseButtonReleased (ieee Real.sqrt Real.rpow) (Ext.fin (1 / 2 ^ 130))
        (Ext.fin 1) (liftGame (ieee Real.sqrt Real.rpow)
          (charging 1 (cueAt (0 : ℝ) 0 0 0 0)))).table.ballData 0 3
        = Ext.div (Ext.mul (Ext.fin 0) (Ext.fin 1)) (Ext.fin 2) from r3]
    simp [Ext.mul, Ext.div, overflow]
    norm_num
  · rw [show (Game.mouseButtonReleased (ieee Real.sqrt Real.rpow) (Ext.fin (1 / 2 ^ 130))
        (Ext.fin 1) (liftGame (ieee Real.sqrt Real.rpow)
          (charging 1 (cueAt (0 : ℝ) 0 0 0 0)))).table.ballData 0 4
        = Ext.div (Ext.mul (Ext.mul (Ext.fin 0) Ext.pinf) (Ext.fin 1)) (Ext.fin 2) from r4]
    simp [Ext.mul, Ext.div, Ext.signed]

end Machine

namespace Machine

variable {V : Type}

/-! ## Degenerate aim -/

/-- In every reachable state, for every arithmetic, the charge progress is 0
while no shot is charged. -/
theorem idle_progress (A : Arith F V) {g : Game V} (hr : Game.Reachable A g) :
    g.isChargingShot = false → g.shotChargeProgress = A.ofReal 0 := by
  induction hr with
  | init => exact fun _ => rfl
  | update dt _ ih =>
    intro h
    have h' := ih h
    simp only [Game.update, Game.chargeTick] at h ⊢
    rw [h]
    simpa using h'
  | pressed x y _ _ =>
    intro h
    simp [Game.mouseButtonPressed] at h
  | released x y _ _ => exact fun _ => rfl

end Machine

namespace Machine

variable {V : Type}

/-- The state after a press and a release straight above the cue ball, from
the initial state: the X velocity of the cue ball is 0 and its Y velocity is
NaN (the slope is `+inf`, and `0 * inf` is NaN). -/
theorem vertical_release :
    (Game.mouseButtonReleased (ieee Real.sqrt Real.rpow) (Ext.fin (-0.3 * 15)) (Ext.fin 1)
        (Game.mouseButtonPressed (Ext.fin 0) (Ext.fin 0)
          (Game.init (ieee Real.sqrt Real.rpow)))).table.ballData 0 3 = Ext.fin 0 ∧
      (Game.mouseButtonReleased (ieee Real.sqrt Real.rpow) (Ext.fin (-0.3 * 15)) (Ext.fin 1)
        (Game.mouseButtonPressed (Ext.fin 0) (Ext.fin 0)
          (Game.init (ieee Real.sqrt Real.rpow)))).table.ballData 0 4 = Ext.nan := by
  have h0 : (lift (ieee Real.sqrt Real.rpow) (Table.init : Table ℝ)).ballData 0 0
      = Ext.fin (-0.3 * 15) := by
    show Ext.fin ((Table.init : Table ℝ).ballData 0 0) = _
    rw [(init_ballData 0).1, ballsPositions_eq.1]
  have h1 : (lift (ieee Real.sqrt Real.rpow) (Table.init : Table ℝ)).ballData 0 1
      = Ext.fin 0 := by
    show Ext.fin ((Table.init : Table ℝ).ballData 0 1) = _
    rw [(init_ballData 0).2.1, ballsPositions_eq.1]
  obtain ⟨-, r3, r4⟩ := aim_row (ieee Real.sqrt Real.rpow) (Ext.fin (-0.3 * 15)) (Ext.fin 1)
    (Ext.fin 0) (lift (ieee Real.sqrt Real.rpow) (Table.init : Table ℝ))
  have hS : Ext.div (Ext.sub (Ext.fin (1 : ℝ)) (Ext.fin 0))
      (Ext.sub (Ext.fin (-0.3 * 15)) (Ext.fin (-0.3 * 15))) = Ext.pinf := by
    rw [Ext.sub_fin, Ext.sub_fin, sub_self, Ext.div_by_zero]
    simp [Ext.signed]
  have hal : Ext.div (Ext.fin (0 : ℝ))
      (Ext.sqrt Real.sqrt (Ext.add (Ext.fin 1) (Ext.sq Ext.pinf))) = Ext.fin 0 := rfl
  have hlt : Ext.lt (Ext.fin (0 : ℝ))
      (Ext.sub (Ext.fin (-0.3 * 15)) (Ext.fin (-0.3 * 15))) = false := by
    rw [Ext.sub_fin, sub_self]
    simp [Ext.lt]
  rw [h0, h1] at r3 r4
  simp only [ieee, along] at r3 r4
  rw [hS, hal, hlt, if_neg Bool.false_ne_true] at r3 r4
  constructor
  · refine Eq.trans r3 ?_
    simp [Ext.mul, Ext.div, overflow]
    norm_num
  · refine Eq.trans r4 ?_
    simp [Ext.mul, Ext.div, Ext.signed]

/-- The position of the cue ball after the update that follows a press and a
release straight above the cue ball: the Y coordinate is NaN. -/
theorem vertical_release_update :
    (Game.update (ieee Real.sqrt Real.rpow) (Ext.fin (1 / 60))
        (Game.mouseButtonReleased (ieee Real.sqrt Real.rpow) (Ext.fin (-0.3 * 15)) (Ext.fin 1)
          (Game.mouseButtonPressed (Ext.fin 0) (Ext.fin 0)
            (Game.init (ieee Real.sqrt Real.rpow))))).table.ballData 0 0
        = Ext.fin (-0.3 * 15 + 0) ∧
      (Game.update (ieee Real.sqrt Real.rpow) (Ext.fin (1 / 60))
        (Game.mouseButtonReleased (ieee Real.sqrt Real.rpow) (Ext.fin (-0.3 * 15)) (Ext.fin 1)
          (Game.mouseButtonPressed (Ext.fin 0) (Ext.fin 0)
            (Game.init (ieee Real.sqrt Real.rpow))))).table.ballData 0 1 = Ext.nan := by
  have hA := ieee_exact Real.sqrt Real.rpow
  obtain ⟨v3, v4⟩ := vertical_release
  obtain ⟨fq, frow⟩ := aim_frame (ieee Real.sqrt Real.rpow) (Ext.fin (-0.3 * 15)) (Ext.fin 1)
    (Ext.fin 0) (lift (ieee Real.sqrt Real.rpow) (Table.init : Table ℝ))
  obtain ⟨t2, ht2⟩ : ∃ t2, t2 = (Game.mouseButtonReleased (ieee Real.sqrt Real.rpow)
      (Ext.fin (-0.3 * 15)) (Ext.fin 1) (Game.mouseButtonPressed (Ext.fin 0) (Ext.fin 0)
        (Game.init (ieee Real.sqrt Real.rpow)))).table := ⟨_, rfl⟩
  have fq' : t2.pocketData = (lift (ieee Real.sqrt Real.rpow) (Table.init : Table ℝ)).pocketData := by
    rw [ht2]; exact fq
  have frow' : ∀ i c, i ≠ 0 ∨ c = 0 ∨ c = 1 ∨ c = 5 → t2.ballData i c
      = (lift (ieee Real.sqrt Real.rpow) (Table.init : Table ℝ)).ballData i c := by
    rw [ht2]; exact frow
  rw [← ht2] at v3 v4
  have p0 : t2.ballData 0 0 = Ext.fin (-0.3 * 15) := by
    rw [frow' 0 0 (Or.inr (Or.inl rfl))]
    show Ext.fin ((Table.init : Table ℝ).ballData 0 0) = _
    rw [(init_ballData 0).1, ballsPositions_eq.1]
  have p1 : t2.ballData 0 1 = Ext.fin 0 := by
    rw [frow' 0 1 (Or.inr (Or.inr (Or.inl rfl)))]
    show Ext.fin ((Table.init : Table ℝ).ballData 0 1) = _
    rw [(init_ballData 0).2.1, ballsPositions_eq.1]
  have ha : pocketed (ieee Real.sqrt Real.rpow) t2 0 = false := by
    rw [pocketed, frow' 0 5 (Or.inr (Or.inr (Or.inr rfl)))]
    show Ext.lt (Ext.fin ((Table.init : Table ℝ).ballData 0 5)) (Ext.fin 0) = false
    rw [(init_ballData 0).2.2.2.2.2]
    simp [Ext.lt]
  have hp : ∀ j, hitsPocket (ieee Real.sqrt Real.rpow) t2 0 j = false := by
    intro j
    rw [hitsPocket_same (ieee Real.sqrt Real.rpow) fq' (frow' 0 0 (Or.inr (Or.inl rfl)))
      (frow' 0 1 (Or.inr (Or.inr (Or.inl rfl)))) j, hitsPocket_lift hA,
      decide_eq_false_iff_not]
    exact init_not_hitsPocket 0 j
  have hrow := pass_moved_row (ieee Real.sqrt Real.rpow) ha hp
  obtain ⟨-, -, m0, m1, -⟩ := motion_effect (ieee Real.sqrt Real.rpow) t2 0
  have hloop : ∀ c : Fin 6, c = 0 ∨ c = 1 ∨ c = 5 →
      (Game.update (ieee Real.sqrt Real.rpow) (Ext.fin (1 / 60))
        (Game.mouseButtonReleased (ieee Real.sqrt Real.rpow) (Ext.fin (-0.3 * 15)) (Ext.fin 1)
          (Game.mouseButtonPressed (Ext.fin 0) (Ext.fin 0)
            (Game.init (ieee Real.sqrt Real.rpow))))).table.ballData 0 c
        = (motion (ieee Real.sqrt Real.rpow) t2 0).ballData 0 c := by
    intro c hc
    show (ballLoop (ieee Real.sqrt Real.rpow) (List.finRange 7) _).ballData 0 c = _
    rw [← ht2, finRange_seven, ballLoop,
      (loop_keeps (ieee Real.sqrt Real.rpow) [1, 2, 3, 4, 5, 6] _).2 0 c (by decide) hc,
      hrow 0 c hc]
  constructor
  · rw [hloop 0 (Or.inl rfl), m0, p0, v3]
    rfl
  · rw [hloop 1 (Or.inr (Or.inl rfl)), m1, p1, v4]
    rfl

end Machine

namespace Machine

variable {V : Type}

/-! ## The charge tick -/

/-- The charge tick on numbers, in an arithmetic that is exact on the numbers. -/
theorem chargeTick_real {A : Arith F V} {sqrt : F → F} {pow : F → F → F} (hA : Exact A sqrt pow)
    {g : Game V} (hc : g.isChargingShot = true) {p d : F}
    (hp : g.shotChargeProgress = A.ofReal p) (hd : |d| < overflow) :
    Game.chargeTick A (A.ofReal d) g = A.ofReal (min (p + d) 1) := by
  have e1 : A.div (A.ofReal d) (A.ofReal Params.Shot.chargeTime) = A.ofReal d := by
    rw [Params.Shot.chargeTime, hA.div d 1 one_ne_zero (by rw [div_one]; exact hd), div_one]
  rw [Game.chargeTick, if_pos hc, e1, hp, hA.add, hA.lt]
  by_cases h : 1 < p + d
  · rw [if_pos (decide_eq_true h), min_eq_right h.le]
  · rw [if_neg (by simpa using h), min_eq_left (not_lt.mp h)]

/-- The charge after `m + 1` ticks of the same frame time `d ≥ 0` while
charging, in an arithmetic that is exact on the numbers. -/
theorem updates_charge_real {A : Arith F V} {sqrt : F → F} {pow : F → F → F}
    (hA : Exact A sqrt pow) {d : F} (hd0 : 0 ≤ d) (hd : |d| < overflow) (m : ℕ) :
    ∀ {g : Game V} {p : F}, g.isChargingShot = true → g.shotChargeProgress = A.ofReal p →
      (Game.updates A (List.replicate (m + 1) (A.ofReal d)) g).shotChargeProgress
        = A.ofReal (min (p + (m + 1) * d) 1) := by
  induction m with
  | zero =>
    intro g p hc hp
    show Game.chargeTick A (A.ofReal d) g = _
    rw [chargeTick_real hA hc hp hd]
    simp
  | succ m ih =>
    intro g p hc hp
    rw [List.replicate, Game.updates]
    have hc1 : (Game.update A (A.ofReal d) g).isChargingShot = true := hc
    have hp1 : (Game.update A (A.ofReal d) g).shotChargeProgress
        = A.ofReal (min (p + d) 1) := chargeTick_real hA hc hp hd
    rw [ih hc1 hp1]
    congr 1
    push_cast
    rcases le_total (p + d) 1 with hle | hle
    · rw [min_eq_left hle]
      congr 1
      ring
    · rw [min_eq_right hle, min_eq_right, min_eq_right]
      · have : 0 ≤ ((m : F) + 1) * d := by positivity
        nlinarith
      · have : 0 ≤ ((m : F) + 1) * d := by positivity
        linarith

end Machine

namespace Machine

variable {V : Type}

/-! ## The charge tick in binary32 -/

theorem roundEven_eq {n : ℝ} {k : ℤ} (h1 : (k : ℝ) ≤ n) (h2 : n - k < 1 / 2) :
    roundEven n = k := by
  have hf : ⌊n⌋ = k := Int.floor_eq_iff.mpr ⟨h1, by linarith⟩
  rw [roundEven, hf, if_pos h2]

/-- Rounding of a positive number `q` of the binade `[2^e, 2^(e+1))` whose
quotient by the unit in the last place is less than `1/2` above the integer
`k`. -/
theorem round32_eq {q : ℝ} {e k : ℤ} (he : -126 ≤ e) (h1 : (2 : ℝ) ^ e ≤ q)
    (h2 : q < (2 : ℝ) ^ (e + 1)) (hk1 : (k : ℝ) ≤ q / 2 ^ (e - 23))
    (hk2 : q / 2 ^ (e - 23) - k < 1 / 2) (hb : |(k : ℝ) * 2 ^ (e - 23)| < 2 ^ 128) :
    round32 q = Ext.fin ((k : ℝ) * 2 ^ (e - 23)) := by
  have hq : 0 < q := lt_of_lt_of_le (by positivity) h1
  have hlog : Int.log 2 |q| = e := by
    rw [abs_of_pos hq]
    apply le_antisymm
    · have := (Int.lt_zpow_iff_log_lt (b := 2) (by norm_num) hq).mp (by exact_mod_cast h2)
      omega
    · exact (Int.zpow_le_iff_le_log (b := 2) (by norm_num) hq).mp (by exact_mod_cast h1)
  have hulp : ulp32 q = 2 ^ (e - 23) := by
    rw [ulp32, hlog, max_eq_left he]
  rw [round32, hulp, roundEven_eq hk1 hk2, if_neg (not_le.mpr hb)]

theorem round32_one : round32 (1 : ℝ) = Ext.fin 1 := by
  have h := round32_eq (q := (1 : ℝ)) (e := 0) (k := 8388608) (by norm_num) (by norm_num)
    (by norm_num) (by norm_num) (by norm_num) (by rw [abs_of_nonneg (by positivity)]; norm_num)
  rw [h]
  congr 1
  norm_num

theorem round32_half : round32 (1 / 2 : ℝ) = Ext.fin (1 / 2) := by
  have h := round32_eq (q := (1 / 2 : ℝ)) (e := -1) (k := 8388608) (by norm_num) (by norm_num)
    (by norm_num) (by norm_num) (by norm_num) (by rw [abs_of_nonneg (by positivity)]; norm_num)
  rw [h]
  congr 1
  norm_num

theorem round32_tick : round32 (1 / 2 ^ 27 / 1 : ℝ) = Ext.fin (1 / 2 ^ 27) := by
  have h := round32_eq (q := (1 / 2 ^ 27 / 1 : ℝ)) (e := -27) (k := 8388608) (by norm_num)
    (by norm_num) (by norm_num) (by norm_num) (by norm_num)
    (by rw [abs_of_nonneg (by positivity)]; norm_num)
  rw [h]
  congr 1
  norm_num

/-- The sum `1/2 + 2^-27` rounds to `1/2`: the addend is below half a unit in
the last place of `1/2`. -/
theorem round32_absorb : round32 (1 / 2 + 1 / 2 ^ 27 : ℝ) = Ext.fin (1 / 2) := by
  have h := round32_eq (q := (1 / 2 + 1 / 2 ^ 27 : ℝ)) (e := -1) (k := 8388608) (by norm_num)
    (by norm_num) (by norm_num) (by norm_num) (by norm_num)
    (by rw [abs_of_nonneg (by positivity)]; norm_num)
  rw [h]
  congr 1
  norm_num

/-- One charge tick of `2^-27` at the progress `1/2` in binary32. -/
theorem chargeTick_absorb (g : Game (Ext ℝ)) (hc : g.isChargingShot = true)
    (hp : g.shotChargeProgress = Ext.fin (1 / 2)) :
    (Game.update (binary32 Real.sqrt Real.rpow) (Ext.fin (1 / 2 ^ 27)) g).shotChargeProgress
      = Ext.fin (1 / 2) := by
  show Game.chargeTick (binary32 Real.sqrt Real.rpow) (Ext.fin (1 / 2 ^ 27)) g = _
  have hdiv : Ext.round (Ext.div (Ext.fin (1 / 2 ^ 27 : ℝ)) (round32 (1 : ℝ)))
      = Ext.fin (1 / 2 ^ 27) := by
    rw [round32_one]
    have : Ext.div (Ext.fin (1 / 2 ^ 27 : ℝ)) (Ext.fin 1) = Ext.fin (1 / 2 ^ 27 / 1) := by
      have hA := ieee_exact Real.sqrt Real.rpow
      exact hA.div _ 1 one_ne_zero (by
        rw [abs_of_nonneg (by positivity)]
        unfold overflow
        norm_num)
    rw [this]
    exact round32_tick
  have hadd : Ext.round (Ext.add (Ext.fin (1 / 2 : ℝ)) (Ext.fin (1 / 2 ^ 27)))
      = Ext.fin (1 / 2) := round32_absorb
  simp only [Game.chargeTick, if_pos hc, hp, Params.Shot.chargeTime, binary32]
  rw [hdiv, hadd, round32_one]
  simp [Ext.lt]
  norm_num

end Machine

namespace Machine

variable {V : Type}

/-! ## The collision exchange on numbers -/

/-- The exchange between two balls whose positions and velocities are numbers,
with different X coordinates, a slope below the overflow bound and a speed of
the first ball below it: the fields written are the numbers the exchange over
the reals gives. -/
theorem exchange_real {A : Arith ℝ V} {pow : ℝ → ℝ → ℝ} (hA : Exact A Real.sqrt pow)
    (T : Table V) (t : Table ℝ) {i j : Fin 7} (hij : i ≠ j)
    (hi : ∀ c, c ≠ 2 → T.ballData i c = A.ofReal (t.ballData i c))
    (hj : ∀ c, c ≠ 2 → T.ballData j c = A.ofReal (t.ballData j c))
    (hx : t.ballData i 0 ≠ t.ballData j 0)
    (hm : |(t.ballData i 1 - t.ballData j 1) / (t.ballData i 0 - t.ballData j 0)| < overflow)
    (hs : |Real.sqrt (t.ballData i 3 ^ 2 + t.ballData i 4 ^ 2)| < overflow) :
    (exchange A T i j).ballData i 2
        = A.ofReal ((t.ballData i 1 - t.ballData j 1) / (t.ballData i 0 - t.ballData j 0)) ∧
      (exchange A T i j).ballData j 2
        = A.ofReal ((t.ballData i 1 - t.ballData j 1) / (t.ballData i 0 - t.ballData j 0)) ∧
      (exchange A T i j).ballData j 3 = A.ofReal ((t.ballData j 3
        - Real.sqrt (t.ballData i 3 ^ 2 + t.ballData i 4 ^ 2)
          / Real.sqrt (1 + ((t.ballData i 1 - t.ballData j 1)
            / (t.ballData i 0 - t.ballData j 0)) ^ 2)
          * (if t.ballData i 0 - t.ballData j 0 > 0 then 1 else -1)) * 0.8) ∧
      (exchange A T i j).ballData j 4 = A.ofReal ((t.ballData j 4
        - Real.sqrt (t.ballData i 3 ^ 2 + t.ballData i 4 ^ 2)
          / Real.sqrt (1 + ((t.ballData i 1 - t.ballData j 1)
            / (t.ballData i 0 - t.ballData j 0)) ^ 2)
          * ((t.ballData i 1 - t.ballData j 1) / (t.ballData i 0 - t.ballData j 0))
          * (if t.ballData i 0 - t.ballData j 0 > 0 then 1 else -1)) * 0.8) ∧
      (exchange A T i j).ballData i 3 = A.ofReal ((t.ballData i 3
        - Real.sqrt (t.ballData i 3 ^ 2 + t.ballData i 4 ^ 2)
          / Real.sqrt (1 + ((t.ballData i 1 - t.ballData j 1)
            / (t.ballData i 0 - t.ballData j 0)) ^ 2)
          * (if t.ballData j 0 - t.ballData i 0 < 0 then -1 else 1)) * 0.8) ∧
      (exchange A T i j).ballData i 4 = A.ofReal ((t.ballData i 4
        - Real.sqrt (t.ballData i 3 ^ 2 + t.ballData i 4 ^ 2)
          / Real.sqrt (1 + ((t.ballData i 1 - t.ballData j 1)
            / (t.ballData i 0 - t.ballData j 0)) ^ 2)
          * ((t.ballData i 1 - t.ballData j 1) / (t.ballData i 0 - t.ballData j 0))
          * (if t.ballData j 0 - t.ballData i 0 < 0 then -1 else 1)) * 0.8) := by
  have hji : j ≠ i := fun e => hij e.symm
  have hne : t.ballData i 0 - t.ballData j 0 ≠ 0 := sub_ne_zero.mpr hx
  have eS := hA.div (t.ballData i 1 - t.ballData j 1) (t.ballData i 0 - t.ballData j 0) hne hm
  obtain ⟨g1, -⟩ := sqrt_one_add_sq_ge
    ((t.ballData i 1 - t.ballData j 1) / (t.ballData i 0 - t.ballData j 0))
  have hpos : Real.sqrt (1 + ((t.ballData i 1 - t.ballData j 1)
      / (t.ballData i 0 - t.ballData j 0)) ^ 2) ≠ 0 := (lt_of_lt_of_le one_pos g1).ne'
  have eR : A.sqrt (A.ofReal (1 + ((t.ballData i 1 - t.ballData j 1)
        / (t.ballData i 0 - t.ballData j 0)) ^ 2))
      = A.ofReal (Real.sqrt (1 + ((t.ballData i 1 - t.ballData j 1)
        / (t.ballData i 0 - t.ballData j 0)) ^ 2)) := hA.sqrt _ (by positivity)
  have eV : A.sqrt (A.ofReal (t.ballData i 3 ^ 2 + t.ballData i 4 ^ 2))
      = A.ofReal (Real.sqrt (t.ballData i 3 ^ 2 + t.ballData i 4 ^ 2)) :=
    hA.sqrt _ (by positivity)
  have eD := hA.div (Real.sqrt (t.ballData i 3 ^ 2 + t.ballData i 4 ^ 2)) _ hpos
    (release_bounds ((t.ballData i 1 - t.ballData j 1) / (t.ballData i 0 - t.ballData j 0)) 1 hs
      (Or.inl rfl)).1
  have i0 := hi 0 (by decide)
  have i1 := hi 1 (by decide)
  have i3 := hi 3 (by decide)
  have i4 := hi 4 (by decide)
  have j0 := hj 0 (by decide)
  have j1 := hj 1 (by decide)
  have j3 := hj 3 (by decide)
  have j4 := hj 4 (by decide)
  by_cases hp : 0 < t.ballData i 0 - t.ballData j 0
  · have hp' : t.ballData j 0 - t.ballData i 0 < 0 := by linarith
    simp [exchange, retain, pushSelf, pushPartner, contactSlope, speed, along, set_lookup,
      hij, hji, i0, i1, i3, i4, j0, j1, j3, j4, hA.sub, eS, hA.sq, hA.add, eR, eV, eD,
      hA.lt, hp, hp', hA.mul]
  · have hp' : ¬ t.ballData j 0 - t.ballData i 0 < 0 := by
      intro h
      exact hp (by linarith)
    simp [exchange, retain, pushSelf, pushPartner, contactSlope, speed, along, set_lookup,
      hij, hji, i0, i1, i3, i4, j0, j1, j3, j4, hA.sub, eS, hA.sq, hA.add, eR, eV, eD,
      hA.lt, hp, hp', hA.mul]

end Machine

theorem nearMiss_rows :
    ((nearMiss : Game F).table.ballData 0 0 = 0 ∧ (nearMiss : Game F).table.ballData 0 1 = 0 ∧
      (nearMiss : Game F).table.ballData 0 3 = 0.25 ∧
      (nearMiss : Game F).table.ballData 0 4 = 0 ∧
      (nearMiss : Game F).table.ballData 0 5 = 1) ∧
    ((nearMiss : Game F).table.ballData 1 0 = (570777 / 1048576) ∧
      (nearMiss : Game F).table.ballData 1 1 = 0.25 ∧
      (nearMiss : Game F).table.ballData 1 3 = 0 ∧
      (nearMiss : Game F).table.ballData 1 4 = 0 ∧
      (nearMiss : Game F).table.ballData 1 5 = 1) :=
  ⟨⟨rfl, rfl, rfl, rfl, rfl⟩, ⟨rfl, rfl, rfl, rfl, rfl⟩⟩

namespace Machine

variable {V : Type}

end Machine

/-! ## A slow ball at the distance 0.599 -/

theorem slowPair_rows :
    ((slowPair : Game F).table.ballData 0 0 = 0 ∧ (slowPair : Game F).table.ballData 0 1 = 0 ∧
      (slowPair : Game F).table.ballData 0 2 = 0 ∧
      (slowPair : Game F).table.ballData 0 3 = 1 / 10 ^ 8 ∧
      (slowPair : Game F).table.ballData 0 4 = 0 ∧
      (slowPair : Game F).table.ballData 0 5 = 1) ∧
    ((slowPair : Game F).table.ballData 1 0 = 0.599 ∧
      (slowPair : Game F).table.ballData 1 1 = 0 ∧
      (slowPair : Game F).table.ballData 1 2 = 0 ∧
      (slowPair : Game F).table.ballData 1 3 = 0 ∧
      (slowPair : Game F).table.ballData 1 4 = 0 ∧
      (slowPair : Game F).table.ballData 1 5 = 1) :=
  ⟨⟨rfl, rfl, rfl, rfl, rfl, rfl⟩, ⟨rfl, rfl, rfl, rfl, rfl, rfl⟩⟩

theorem slowPair_dead (k : Fin 7) (h0 : k ≠ 0) (h1 : k ≠ 1) :
    (slowPair : Game F).table.ballData k 5 < 0 := by
  have e : (slowPair : Game F).table.ballData k 5 = -1 := by
    simp only [slowPair]
    rw [if_neg h0, if_neg h1]
    rfl
  rw [e]
  norm_num

theorem slowPair_no_pocket (j : Fin 6) :
    ¬ hitsPocket (slowPair : Game F).table 0 j ∧ ¬ hitsPocket (slowPair : Game F).table 1 j := by
  obtain ⟨⟨a0, a1, -⟩, ⟨b0, b1, -⟩⟩ := slowPair_rows (F := F)
  obtain ⟨p0, p1, p2, p3, p4, p5⟩ := pocketsPositions_eq (F := F)
  have hq : (slowPair : Game F).table.pocketData j = Params.Table.pocketsPositions j := rfl
  simp only [hitsPocket, a0, a1, b0, b1, hq]
  fin_cases j <;> simp only [Fin.zero_eta, Fin.mk_one, Fin.reduceFinMk] <;>
    simp only [p0, p1, p2, p3, p4, p5] <;> norm_num

theorem slowPair_no_wall (mu : ℝ) (_h0 : 0 ≤ mu) (h1 : mu ≤ 1) :
    ¬ wallTest ((slowPair : Game ℝ).table.ballData 0 0
        + mu * (slowPair : Game ℝ).table.ballData 0 3)
      ((slowPair : Game ℝ).table.ballData 0 3) 8.2 ∧
    ¬ wallTest ((slowPair : Game ℝ).table.ballData 0 1
        + mu * (slowPair : Game ℝ).table.ballData 0 4)
      ((slowPair : Game ℝ).table.ballData 0 4) 4.7 ∧
    ¬ wallTest ((slowPair : Game ℝ).table.ballData 1 0
        + mu * (slowPair : Game ℝ).table.ballData 0 3)
      ((slowPair : Game ℝ).table.ballData 0 3) 8.2 ∧
    ¬ wallTest ((slowPair : Game ℝ).table.ballData 1 1
        + mu * (slowPair : Game ℝ).table.ballData 0 4)
      ((slowPair : Game ℝ).table.ballData 0 4) 4.7 := by
  obtain ⟨⟨a0, a1, -, a3, a4, -⟩, ⟨b0, b1, -⟩⟩ := slowPair_rows (F := ℝ)
  rw [a0, a1, a3, a4, b0, b1]
  refine ⟨?_, ?_, ?_, ?_⟩
  · rintro (⟨h, -⟩ | ⟨-, h⟩)
    · rw [abs_lt] at h
      nlinarith [h.1]
    · norm_num at h
  · rintro (⟨-, h⟩ | ⟨-, h⟩) <;> exact lt_irrefl _ h
  · rintro (⟨h, -⟩ | ⟨-, h⟩)
    · rw [abs_lt] at h
      nlinarith [h.1]
    · norm_num at h
  · rintro (⟨-, h⟩ | ⟨-, h⟩) <;> exact lt_irrefl _ h

namespace Machine

variable {V : Type}

/-- The update of the table `slowPair`: ball 0 moves by `10^-8` and is then
`0.599 - 10^-8` away from ball 1, which is more than the binary32 number
`0.599f`; no collision test holds, and the update is the motion of ball 0. -/
theorem slowPair_update {A : Arith ℝ V} {sqrt : ℝ → ℝ} {pow : ℝ → ℝ → ℝ}
    (hA : Exact A sqrt pow) (dt : V) :
    (Game.update A dt (liftGame A (slowPair : Game ℝ))).table
      = motion A (lift A (slowPair : Game ℝ).table) 0 := by
  obtain ⟨⟨a0, a1, a2, a3, a4, a5⟩, ⟨b0, b1, b2, b3, b4, b5⟩⟩ := slowPair_rows (F := ℝ)
  have hdead : ∀ k : Fin 7, k ≠ 0 → k ≠ 1 →
      pocketed A (lift A (slowPair : Game ℝ).table) k = true := by
    intro k h0 h1
    rw [pocketed_real hA rfl, decide_eq_true_iff]
    exact slowPair_dead k h0 h1
  have ha0 : pocketed A (lift A (slowPair : Game ℝ).table) 0 = false := by
    rw [pocketed_real hA rfl, a5]
    simp
  have ha1 : pocketed A (lift A (slowPair : Game ℝ).table) 1 = false := by
    rw [pocketed_real hA rfl, b5]
    simp
  have hp : ∀ (i : Fin 7) (j : Fin 6), i = 0 ∨ i = 1 →
      hitsPocket A (lift A (slowPair : Game ℝ).table) i j = false := by
    intro i j hi
    rw [hitsPocket_lift hA, decide_eq_false_iff_not]
    rcases hi with rfl | rfl
    · exact (slowPair_no_pocket j).1
    · exact (slowPair_no_pocket j).2
  have r0 : (lift A (slowPair : Game ℝ).table).ballData 0 0 = A.ofReal 0 := by
    show A.ofReal _ = _; rw [a0]
  have r1 : (lift A (slowPair : Game ℝ).table).ballData 0 1 = A.ofReal 0 := by
    show A.ofReal _ = _; rw [a1]
  have r2 : (lift A (slowPair : Game ℝ).table).ballData 0 2 = A.ofReal 0 := by
    show A.ofReal _ = _; rw [a2]
  have r3 : (lift A (slowPair : Game ℝ).table).ballData 0 3 = A.ofReal (1 / 10 ^ 8) := by
    show A.ofReal _ = _; rw [a3]
  have r4 : (lift A (slowPair : Game ℝ).table).ballData 0 4 = A.ofReal 0 := by
    show A.ofReal _ = _; rw [a4]
  obtain ⟨-, -, m0, m1, -⟩ := motion_real hA r0 r1 r2 r3 r4
  obtain ⟨mq, mrow, -⟩ := motion_effect A (lift A (slowPair : Game ℝ).table) 0
  have q0 : (lift A (slowPair : Game ℝ).table).ballData 1 0 = A.ofReal 0.599 := by
    show A.ofReal _ = _; rw [b0]
  have q1 : (lift A (slowPair : Game ℝ).table).ballData 1 1 = A.ofReal 0 := by
    show A.ofReal _ = _; rw [b1]
  have q3 : (lift A (slowPair : Game ℝ).table).ballData 1 3 = A.ofReal 0 := by
    show A.ofReal _ = _; rw [b3]
  have q4 : (lift A (slowPair : Game ℝ).table).ballData 1 4 = A.ofReal 0 := by
    show A.ofReal _ = _; rw [b4]
  -- the pass of ball 0
  have hpass0 : ballPass A 0 (lift A (slowPair : Game ℝ).table)
      = motion A (lift A (slowPair : Game ℝ).table) 0 := by
    apply pass_isolated A _ 0 ha0 (fun j => hp 0 j (Or.inl rfl))
    intro j hj
    by_cases hj1 : j = 1
    · subst hj1
      right
      rw [m0, m1, q0, q1, inContact_real hA, decide_eq_false_iff_not]
      unfold Billiard.inContact
      norm_num
    · exact Or.inl (hdead j hj hj1)
  -- the table after the pass of ball 0
  have hflag : ∀ k, k ≠ 0 → pocketed A (motion A (lift A (slowPair : Game ℝ).table) 0) k
      = pocketed A (lift A (slowPair : Game ℝ).table) k := by
    intro k hk
    rw [pocketed, pocketed, mrow k 5 hk]
  have hpass1 : ballPass A 1 (motion A (lift A (slowPair : Game ℝ).table) 0)
      = motion A (lift A (slowPair : Game ℝ).table) 0 := by
    have hstill : motion A (motion A (lift A (slowPair : Game ℝ).table) 0) 1
        = motion A (lift A (slowPair : Game ℝ).table) 0 :=
      motion_still hA _ 1 (x := 0.599) (y := 0)
        (by rw [mrow 1 0 (by decide), q0]) (by rw [mrow 1 1 (by decide), q1])
        (by rw [mrow 1 3 (by decide), q3]) (by rw [mrow 1 4 (by decide), q4])
    have h := pass_isolated A (motion A (lift A (slowPair : Game ℝ).table) 0) 1
      (by rw [hflag 1 (by decide)]; exact ha1)
      (fun j => by
        rw [hitsPocket_same A mq (mrow 1 0 (by decide)) (mrow 1 1 (by decide)) j]
        exact hp 1 j (Or.inr rfl))
      (by
        intro j hj
        by_cases hj0 : j = 0
        · subst hj0
          right
          rw [hstill, mrow 1 0 (by decide), mrow 1 1 (by decide), q0, q1, m0, m1,
            inContact_real hA, decide_eq_false_iff_not]
          unfold Billiard.inContact
          norm_num
        · left
          rw [hflag j hj0]
          exact hdead j hj0 hj)
    rw [h, hstill]
  have hskip : ∀ k : Fin 7, k ≠ 0 → k ≠ 1 →
      ballPass A k (motion A (lift A (slowPair : Game ℝ).table) 0)
        = motion A (lift A (slowPair : Game ℝ).table) 0 := by
    intro k h0 h1
    exact pass_skip A (by rw [hflag k h0]; exact hdead k h0 h1)
  show ballLoop A (List.finRange 7) (lift A (slowPair : Game ℝ).table) = _
  rw [finRange_seven]
  simp only [ballLoop, hpass0, hpass1, hskip 2 (by decide) (by decide),
    hskip 3 (by decide) (by decide), hskip 4 (by decide) (by decide),
    hskip 5 (by decide) (by decide), hskip 6 (by decide) (by decide)]

end Machine

end Model

end Billiard
